import Mathlib

/-!
# BLDC motor control: Hall commutation engine and SVM over-modulation

Shallow embedding of

* `User/tim/bsp_motor_tim.c` (six-step Hall commutation, stall time-out),
* `MCLib/Any/Src/pwm_curr_fdbk_ovm.c` (space-vector modulation with
  over-modulation), and
* `User/pid/bsp_pid.h` (state of the position-form PID),

followed by the properties proved about them.

Conventions.  C `int32_t` values are modelled by `Int`; C division `/` is
`Int.tdiv` (truncation toward zero).  A C division whose divisor is zero has
no defined result, so the functions that divide return `Option`.  In
`PWMC_RecalcT1T2_OVM`, whose arguments are arbitrary `int32_t` values, every
sum, difference, product and quotient is reduced to 32 bits (`toInt32`, two's
complement).  Hardware registers and GPIO pins are fields of an explicit state
record, and every callback is a list of individual register writes applied in
program order.
-/

namespace BldcHall

/-! ## Data model of `bsp_motor_tim.c` -/

/-- Output-compare channels of the motor timer `htimx_bldcm` (high side of U, V, W). -/
inductive Channel
  | TIM_CHANNEL_1
  | TIM_CHANNEL_2
  | TIM_CHANNEL_3
  deriving DecidableEq, Repr

/-- Low-side gate pins `MOTOR_OCNPWMx_PIN` (low side of U, V, W). -/
inductive OcnPin
  | MOTOR_OCNPWM1_PIN
  | MOTOR_OCNPWM2_PIN
  | MOTOR_OCNPWM3_PIN
  deriving DecidableEq, Repr

/-- Pin levels of the HAL. -/
inductive GPIO_PinState
  | GPIO_PIN_RESET
  | GPIO_PIN_SET
  deriving DecidableEq, Repr

/-- Value returned by `get_bldcm_direction()`; the callback only tests `== MOTOR_FWD`. -/
inductive Direction
  | MOTOR_FWD
  | MOTOR_REV
  deriving DecidableEq, Repr

/-- Motor phases; channel `n` / pin `OCNPWMn` are the high / low side of the `n`-th phase. -/
inductive Phase
  | U
  | V
  | W
  deriving DecidableEq, Repr

open Channel OcnPin GPIO_PinState Direction

/-- Globals and peripheral state touched by the callbacks. -/
structure State where
  /-- Compare register of `TIM_CHANNEL_1`. -/
  ccr1 : Nat
  /-- Compare register of `TIM_CHANNEL_2`. -/
  ccr2 : Nat
  /-- Compare register of `TIM_CHANNEL_3`. -/
  ccr3 : Nat
  /-- Level of `MOTOR_OCNPWM1_PIN`. -/
  ocn1 : GPIO_PinState
  /-- Level of `MOTOR_OCNPWM2_PIN`. -/
  ocn2 : GPIO_PinState
  /-- Level of `MOTOR_OCNPWM3_PIN`. -/
  ocn3 : GPIO_PinState
  /-- Whether `TIM_IT_TRIGGER` of `htimx_hall` is enabled. -/
  itTrigger : Bool
  /-- Whether `TIM_IT_UPDATE` of `htimx_hall` is enabled. -/
  itUpdate : Bool
  /-- Whether the Hall sensor interface is started. -/
  hallStarted : Bool
  /-- Whether LED1 is lit. -/
  led1 : Bool
  /-- Number of COM events generated on `htimx_bldcm`. -/
  comEvents : Nat
  /-- Number of stall messages printed. -/
  stallReports : Nat
  /-- The global `int update`. -/
  update : Int
  /-- The static `uint16_t bldcm_pulse`. -/
  bldcm_pulse : Nat
  deriving DecidableEq, Repr

/-- One primitive statement of the callbacks. -/
inductive Op
  /-- `__HAL_TIM_SET_COMPARE(&htimx_bldcm, ch, v)`. -/
  | setCompare (ch : Channel) (v : Nat)
  /-- `HAL_GPIO_WritePin(port, pin, lvl)`. -/
  | writePin (pin : OcnPin) (lvl : GPIO_PinState)
  /-- `HAL_TIM_GenerateEvent(&htimx_bldcm, TIM_EVENTSOURCE_COM)`. -/
  | generateCOM
  /-- `update = v`. -/
  | setUpdate (v : Int)
  /-- `__HAL_TIM_DISABLE_IT(&htimx_hall, TIM_IT_TRIGGER)`. -/
  | disableItTrigger
  /-- `__HAL_TIM_DISABLE_IT(&htimx_hall, TIM_IT_UPDATE)`. -/
  | disableItUpdate
  /-- `HAL_TIMEx_HallSensor_Stop(&htimx_hall)`. -/
  | hallSensorStop
  /-- `LED1_ON`. -/
  | led1On
  /-- The `printf` of the stall message. -/
  | printStall
  /-- `__HAL_TIM_ENABLE_IT(&htimx_hall, TIM_IT_TRIGGER)`. -/
  | enableItTrigger
  /-- `__HAL_TIM_ENABLE_IT(&htimx_hall, TIM_IT_UPDATE)`. -/
  | enableItUpdate
  /-- `HAL_TIMEx_HallSensor_Start(&htimx_hall)`. -/
  | hallSensorStart
  /-- `LED1_OFF`. -/
  | led1Off
  deriving DecidableEq, Repr

/-- Effect of one primitive statement on the state. -/
def applyOp (s : State) : Op → State
  | .setCompare TIM_CHANNEL_1 v => { s with ccr1 := v }
  | .setCompare TIM_CHANNEL_2 v => { s with ccr2 := v }
  | .setCompare TIM_CHANNEL_3 v => { s with ccr3 := v }
  | .writePin MOTOR_OCNPWM1_PIN l => { s with ocn1 := l }
  | .writePin MOTOR_OCNPWM2_PIN l => { s with ocn2 := l }
  | .writePin MOTOR_OCNPWM3_PIN l => { s with ocn3 := l }
  | .generateCOM => { s with comEvents := s.comEvents + 1 }
  | .setUpdate v => { s with update := v }
  | .disableItTrigger => { s with itTrigger := false }
  | .disableItUpdate => { s with itUpdate := false }
  | .hallSensorStop => { s with hallStarted := false }
  | .led1On => { s with led1 := true }
  | .printStall => { s with stallReports := s.stallReports + 1 }
  | .enableItTrigger => { s with itTrigger := true }
  | .enableItUpdate => { s with itUpdate := true }
  | .hallSensorStart => { s with hallStarted := true }
  | .led1Off => { s with led1 := false }

/-- Run a list of primitive statements in program order. -/
def runOps (s : State) (ops : List Op) : State :=
  ops.foldl applyOp s

/-- Body of `get_hall_state`: bit 0 is Hall U, bit 1 Hall V, bit 2 Hall W. -/
def get_hall_state (u v w : Bool) : Nat :=
  (if u then 1 else 0) + (if v then 2 else 0) + (if w then 4 else 0)

/-- The two `switch(step)` statements of `HAL_TIM_TriggerCallback`, as the list
of writes executed for direction `dir`, Hall code `step` and duty `pulse`.
Neither switch has a `default` label. -/
def commutationWrites (dir : Direction) (step : Nat) (pulse : Nat) : List Op :=
  match dir with
  | MOTOR_FWD =>
    match step with
    | 1 => [.setCompare TIM_CHANNEL_2 0, .writePin MOTOR_OCNPWM2_PIN GPIO_PIN_RESET,
            .setCompare TIM_CHANNEL_3 0, .writePin MOTOR_OCNPWM1_PIN GPIO_PIN_RESET,
            .setCompare TIM_CHANNEL_1 pulse, .writePin MOTOR_OCNPWM3_PIN GPIO_PIN_SET]
    | 2 => [.setCompare TIM_CHANNEL_3 0, .writePin MOTOR_OCNPWM3_PIN GPIO_PIN_RESET,
            .setCompare TIM_CHANNEL_1 0, .writePin MOTOR_OCNPWM2_PIN GPIO_PIN_RESET,
            .setCompare TIM_CHANNEL_2 pulse, .writePin MOTOR_OCNPWM1_PIN GPIO_PIN_SET]
    | 3 => [.setCompare TIM_CHANNEL_1 0, .writePin MOTOR_OCNPWM1_PIN GPIO_PIN_RESET,
            .setCompare TIM_CHANNEL_3 0, .writePin MOTOR_OCNPWM2_PIN GPIO_PIN_RESET,
            .setCompare TIM_CHANNEL_2 pulse, .writePin MOTOR_OCNPWM3_PIN GPIO_PIN_SET]
    | 4 => [.setCompare TIM_CHANNEL_1 0, .writePin MOTOR_OCNPWM1_PIN GPIO_PIN_RESET,
            .setCompare TIM_CHANNEL_2 0, .writePin MOTOR_OCNPWM3_PIN GPIO_PIN_RESET,
            .setCompare TIM_CHANNEL_3 pulse, .writePin MOTOR_OCNPWM2_PIN GPIO_PIN_SET]
    | 5 => [.setCompare TIM_CHANNEL_3 0, .writePin MOTOR_OCNPWM3_PIN GPIO_PIN_RESET,
            .setCompare TIM_CHANNEL_2 0, .writePin MOTOR_OCNPWM1_PIN GPIO_PIN_RESET,
            .setCompare TIM_CHANNEL_1 pulse, .writePin MOTOR_OCNPWM2_PIN GPIO_PIN_SET]
    | 6 => [.setCompare TIM_CHANNEL_2 0, .writePin MOTOR_OCNPWM2_PIN GPIO_PIN_RESET,
            .setCompare TIM_CHANNEL_1 0, .writePin MOTOR_OCNPWM3_PIN GPIO_PIN_RESET,
            .setCompare TIM_CHANNEL_3 pulse, .writePin MOTOR_OCNPWM1_PIN GPIO_PIN_SET]
    | _ => []
  | MOTOR_REV =>
    match step with
    | 1 => [.setCompare TIM_CHANNEL_2 0, .writePin MOTOR_OCNPWM2_PIN GPIO_PIN_RESET,
            .setCompare TIM_CHANNEL_1 0, .writePin MOTOR_OCNPWM3_PIN GPIO_PIN_RESET,
            .setCompare TIM_CHANNEL_3 pulse, .writePin MOTOR_OCNPWM1_PIN GPIO_PIN_SET]
    | 2 => [.setCompare TIM_CHANNEL_3 0, .writePin MOTOR_OCNPWM3_PIN GPIO_PIN_RESET,
            .setCompare TIM_CHANNEL_2 0, .writePin MOTOR_OCNPWM1_PIN GPIO_PIN_RESET,
            .setCompare TIM_CHANNEL_1 pulse, .writePin MOTOR_OCNPWM2_PIN GPIO_PIN_SET]
    | 3 => [.setCompare TIM_CHANNEL_1 0, .writePin MOTOR_OCNPWM1_PIN GPIO_PIN_RESET,
            .setCompare TIM_CHANNEL_2 0, .writePin MOTOR_OCNPWM3_PIN GPIO_PIN_RESET,
            .setCompare TIM_CHANNEL_3 pulse, .writePin MOTOR_OCNPWM2_PIN GPIO_PIN_SET]
    | 4 => [.setCompare TIM_CHANNEL_1 0, .writePin MOTOR_OCNPWM1_PIN GPIO_PIN_RESET,
            .setCompare TIM_CHANNEL_3 0, .writePin MOTOR_OCNPWM2_PIN GPIO_PIN_RESET,
            .setCompare TIM_CHANNEL_2 pulse, .writePin MOTOR_OCNPWM3_PIN GPIO_PIN_SET]
    | 5 => [.setCompare TIM_CHANNEL_3 0, .writePin MOTOR_OCNPWM3_PIN GPIO_PIN_RESET,
            .setCompare TIM_CHANNEL_1 0, .writePin MOTOR_OCNPWM2_PIN GPIO_PIN_RESET,
            .setCompare TIM_CHANNEL_2 pulse, .writePin MOTOR_OCNPWM1_PIN GPIO_PIN_SET]
    | 6 => [.setCompare TIM_CHANNEL_2 0, .writePin MOTOR_OCNPWM2_PIN GPIO_PIN_RESET,
            .setCompare TIM_CHANNEL_3 0, .writePin MOTOR_OCNPWM1_PIN GPIO_PIN_RESET,
            .setCompare TIM_CHANNEL_1 pulse, .writePin MOTOR_OCNPWM3_PIN GPIO_PIN_SET]
    | _ => []

/-- Statements of `HAL_TIM_TriggerCallback` in program order: the switch, the
software COM event, then `update = 0`. -/
def triggerOps (dir : Direction) (step : Nat) (pulse : Nat) : List Op :=
  commutationWrites dir step pulse ++ [.generateCOM, .setUpdate 0]

/-- `HAL_TIM_TriggerCallback`, with the values read by `get_hall_state()` and
`get_bldcm_direction()` as arguments. -/
def HAL_TIM_TriggerCallback (dir : Direction) (step : Nat) (s : State) : State :=
  runOps s (triggerOps dir step s.bldcm_pulse)

/-- Statements of `hall_disable`. -/
def hall_disable_ops : List Op :=
  [.disableItTrigger, .disableItUpdate, .hallSensorStop]

/-- Statements of `stop_pwm_output`. -/
def stop_pwm_output_ops : List Op :=
  [.setCompare TIM_CHANNEL_1 0, .setCompare TIM_CHANNEL_2 0, .setCompare TIM_CHANNEL_3 0,
   .writePin MOTOR_OCNPWM1_PIN GPIO_PIN_RESET, .writePin MOTOR_OCNPWM2_PIN GPIO_PIN_RESET,
   .writePin MOTOR_OCNPWM3_PIN GPIO_PIN_RESET]

/-- `hall_disable`. -/
def hall_disable (s : State) : State :=
  runOps s hall_disable_ops

/-- `stop_pwm_output`. -/
def stop_pwm_output (s : State) : State :=
  runOps s stop_pwm_output_ops

/-- The condition `update++ > 1` of `HAL_TIM_PeriodElapsedCallback`, evaluated
on the value of `update` before the increment. -/
def stallBranch (s : State) : Bool :=
  decide (s.update > 1)

/-- `HAL_TIM_PeriodElapsedCallback`: the post-increment happens on both paths;
the guarded block prints, clears `update`, lights LED1, then calls
`hall_disable` and `stop_pwm_output`. -/
def HAL_TIM_PeriodElapsedCallback (s : State) : State :=
  let s1 := { s with update := s.update + 1 }
  if stallBranch s then
    stop_pwm_output (hall_disable (runOps s1 [.printStall, .setUpdate 0, .led1On]))
  else
    s1

/-- Whether a primitive statement writes a compare register or a gate pin. -/
def isOutputWrite : Op → Bool
  | .setCompare _ _ => true
  | .writePin _ _ => true
  | _ => false

/-- Whether a primitive statement is the COM event. -/
def isCOM : Op → Bool
  | .generateCOM => true
  | _ => false

/-- The statements of a callback that are executed before its first COM event. -/
def beforeCOM (ops : List Op) : List Op :=
  ops.takeWhile (fun op => !isCOM op)

/-- The statements of a callback from its first COM event on. -/
def fromCOM (ops : List Op) : List Op :=
  ops.dropWhile (fun op => !isCOM op)

/-- Compare value of the high-side channel of a phase. -/
def compareOf (s : State) : Phase → Nat
  | .U => s.ccr1
  | .V => s.ccr2
  | .W => s.ccr3

/-- Level of the low-side gate of a phase. -/
def gateOf (s : State) : Phase → GPIO_PinState
  | .U => s.ocn1
  | .V => s.ocn2
  | .W => s.ocn3

/-- The part of the state that drives the inverter: three compares, three gates. -/
def outputs (s : State) : (Nat × Nat × Nat) × (GPIO_PinState × GPIO_PinState × GPIO_PinState) :=
  ((s.ccr1, s.ccr2, s.ccr3), (s.ocn1, s.ocn2, s.ocn3))

/-- The phase pair written in the `X+ Y-` comment of each `case` label:
`(X, Y)` for the given direction and Hall code (codes 1 to 6). -/
def commentPair : Direction → Nat → Phase × Phase
  | MOTOR_FWD, 1 => (.U, .W)
  | MOTOR_FWD, 2 => (.V, .U)
  | MOTOR_FWD, 3 => (.V, .W)
  | MOTOR_FWD, 4 => (.W, .V)
  | MOTOR_FWD, 5 => (.U, .V)
  | MOTOR_FWD, _ => (.W, .U)
  | MOTOR_REV, 1 => (.W, .U)
  | MOTOR_REV, 2 => (.U, .V)
  | MOTOR_REV, 3 => (.W, .V)
  | MOTOR_REV, 4 => (.V, .W)
  | MOTOR_REV, 5 => (.V, .U)
  | MOTOR_REV, _ => (.U, .W)

/-- The phase that is neither `a` nor `b` (for `a ≠ b`). -/
def otherPhase : Phase → Phase → Phase
  | .U, .V => .W
  | .V, .U => .W
  | .U, .W => .V
  | .W, .U => .V
  | .V, .W => .U
  | .W, .V => .U
  | a, _ => a

/-! ### Event sequences -/

/-- An invocation of one of the two interrupt callbacks. -/
inductive Event
  /-- `HAL_TIM_TriggerCallback` reading direction `dir` and Hall code `step`. -/
  | commutation (dir : Direction) (step : Nat)
  /-- `HAL_TIM_PeriodElapsedCallback`. -/
  | tick
  deriving DecidableEq, Repr

/-- One complete callback execution. -/
def stepEvent (s : State) : Event → State
  | .commutation dir step => HAL_TIM_TriggerCallback dir step s
  | .tick => HAL_TIM_PeriodElapsedCallback s

/-- Whether event `e`, started in state `s`, is a tick that takes the stall branch. -/
def takesStall (s : State) : Event → Bool
  | .commutation _ _ => false
  | .tick => stallBranch s

/-- State after a sequence of callbacks. -/
def runEvents (s : State) (es : List Event) : State :=
  es.foldl stepEvent s

/-- For each event of the sequence, whether it took the stall branch. -/
def stallFlags (s : State) : List Event → List Bool
  | [] => []
  | e :: es => takesStall s e :: stallFlags (stepEvent s e) es

/-- A history entry (event, stall flag) that is a tick which did not fault. -/
def quietTick : Event × Bool → Bool
  | (.tick, false) => true
  | _ => false

/-- Number of period ticks since the most recent commutation event, fault or
start: the length of the longest suffix of the history made of ticks that did
not fault. -/
def ticksSinceReset (es : List Event) (flags : List Bool) : Nat :=
  (((es.zip flags).reverse).takeWhile quietTick).length

/-- All states passed through while the statements `ops` run from `s`: the
state before the first statement and the state after each statement. -/
def traceStates (s : State) (ops : List Op) : List State :=
  List.scanl applyOp s ops

/-- All states passed through during a sequence of calls of
`HAL_TIM_TriggerCallback`, each given by the direction and Hall code it reads. -/
def traceCalls (s : State) : List (Direction × Nat) → List State
  | [] => [s]
  | (dir, step) :: cs =>
    traceStates s (triggerOps dir step s.bldcm_pulse)
      ++ traceCalls (HAL_TIM_TriggerCallback dir step s) cs

/-- At most one of the three channels has a non-zero compare value, that is,
at least two of them are zero. -/
def atMostOneDriven (s : State) : Prop :=
  (s.ccr1 = 0 ∧ s.ccr2 = 0) ∨ (s.ccr1 = 0 ∧ s.ccr3 = 0) ∨ (s.ccr2 = 0 ∧ s.ccr3 = 0)

/-- A phase is shorted when its channel compare is non-zero while its low-side
gate is SET. -/
def shorted (s : State) (p : Phase) : Prop :=
  compareOf s p ≠ 0 ∧ gateOf s p = GPIO_PIN_SET

/-- No phase is shorted. -/
def noShort (s : State) : Prop :=
  ∀ p : Phase, ¬ shorted s p

/-- A powered-down state: all outputs off, interrupts disabled, counter zero. -/
def idleState : State :=
  { ccr1 := 0, ccr2 := 0, ccr3 := 0,
    ocn1 := GPIO_PIN_RESET, ocn2 := GPIO_PIN_RESET, ocn3 := GPIO_PIN_RESET,
    itTrigger := false, itUpdate := false, hallStarted := false, led1 := false,
    comEvents := 0, stallReports := 0, update := 0, bldcm_pulse := 0 }

/-- A state in the middle of a run: phase U driven at 700 counts, phase W
low side on, Hall interrupts enabled, two ticks elapsed since the last
commutation. -/
def runningState : State :=
  { ccr1 := 700, ccr2 := 0, ccr3 := 0,
    ocn1 := GPIO_PIN_RESET, ocn2 := GPIO_PIN_RESET, ocn3 := GPIO_PIN_SET,
    itTrigger := true, itUpdate := true, hallStarted := true, led1 := false,
    comEvents := 12, stallReports := 0, update := 2, bldcm_pulse := 700 }

end BldcHall

namespace SvmOvm

/-! ## Data model of `pwm_curr_fdbk_ovm.c` -/

/-- `OVM_ONE_POINT_ZERO`: the fixed-point value of 1.0. -/
def OVM_ONE_POINT_ZERO : Int := 32768
/-- `OVM_GAMMA_ARRAY_OFFSET`. -/
def OVM_GAMMA_ARRAY_OFFSET : Int := 92
/-- `OVM_VREF_MODE1_START`. -/
def OVM_VREF_MODE1_START : Int := 29717
/-- `OVM_VREF_MODE2_START`. -/
def OVM_VREF_MODE2_START : Int := 31186
/-- `OVM_VREF_MODE2_END`. -/
def OVM_VREF_MODE2_END : Int := 32768
/-- `OVM_VREF_INDEX_STEP`. -/
def OVM_VREF_INDEX_STEP : Int := 16
/-- `OVM_1_DIV_SQRT3`. -/
def OVM_1_DIV_SQRT3 : Int := 18919
/-- `OVM_PI_DIV_6`. -/
def OVM_PI_DIV_6 : Int := 17157
/-- `OVM_3_DIV_PI`. -/
def OVM_3_DIV_PI : Int := 31291

/-- The over-modulation gain table `aOVMGain` (192 entries). -/
def aOVMGain : List Int := [
  31291,31291,31293,31295,31298,31300,31302,31306,31309,31314,
  31319,31322,31328,31334,31338,31344,31350,31357,31364,31371,
  31379,31386,31394,31402,31410,31419,31427,31439,31448,31457,
  31470,31479,31492,31502,31515,31526,31539,31554,31568,31579,
  31594,31609,31624,31639,31655,31675,31691,31707,31728,31745,
  31766,31783,31805,31827,31845,31868,31891,31914,31942,31966,
  31990,32019,32044,32074,32104,32134,32165,32202,32233,32271,
  32303,32341,32386,32425,32470,32516,32562,32609,32662,32716,
  32777,32838,32907,32982,33059,33144,33236,33343,33466,33612,
  33797,34106,34463,34507,34551,34596,34640,34684,34729,34779,
  34824,34869,34920,34971,35017,35068,35120,35178,35230,35282,
  35340,35392,35451,35509,35568,35627,35686,35752,35811,35877,
  35943,36009,36075,36148,36214,36287,36360,36434,36507,36581,
  36661,36742,36822,36903,36990,37078,37159,37253,37342,37436,
  37531,37627,37729,37831,37933,38042,38152,38261,38378,38495,
  38612,38736,38860,38991,39122,39261,39399,39545,39691,39844,
  40004,40165,40332,40507,40682,40871,41061,41264,41469,41680,
  41906,42139,42387,42649,42911,43188,43488,43801,44137,44487,
  44866,45275,45713,46195,46715,47300,47958,48720,49629,50759,
  52346,56660]

/-- The over-modulation gamma table `aOVMGamma` (100 entries). -/
def aOVMGamma : List Int := [
  52,154,255,354,453,551,648,757,852,947,
  1052,1157,1249,1352,1454,1566,1666,1765,1875,1972,
  2079,2186,2291,2395,2499,2612,2713,2824,2934,3042,
  3150,3266,3372,3486,3599,3711,3821,3931,4049,4166,
  4281,4395,4517,4637,4748,4875,4992,5115,5238,5359,
  5487,5614,5739,5870,6000,6129,6263,6396,6528,6665,
  6800,6941,7080,7224,7367,7514,7659,7809,7963,8115,
  8272,8432,8590,8757,8922,9096,9268,9442,9624,9809,
  10001,10200,10395,10597,10810,11028,11255,11487,11731,11987,
  12254,12539,12835,13158,13507,13895,14335,14853,15530,17125]

/-- The struct `Vector_Time_t`. -/
structure Vector_Time_t where
  /-- Dwell time of the first active vector. -/
  T1 : Int
  /-- Dwell time of the second active vector. -/
  T2 : Int
  deriving DecidableEq, Repr

/-- The enum `OVM_Mode_t`. -/
inductive OVM_Mode_t
  | OVM_LINEAR
  | OVM_1
  | OVM_2
  | OVM_ERROR
  deriving DecidableEq, Repr

/-- Modelled from the spec: the constants `SECTOR_1` to `SECTOR_6` come from a
header that is not part of the sources at hand; the spec describes the sector
as one of 6 values, so they are six distinct constructors. -/
inductive Sector
  | SECTOR_1
  | SECTOR_2
  | SECTOR_3
  | SECTOR_4
  | SECTOR_5
  | SECTOR_6
  deriving DecidableEq, Repr

/-- Modelled from the spec: the fields of `PWMC_Handle_t` that
`PWMC_SetPhaseVoltage_OVM` reads or writes; the struct is declared in
`pwm_curr_fdbk.h`, which is not part of the sources at hand.  `PWMperiod` and
the six duty fields are 16-bit unsigned. -/
structure PWMC_Handle_t where
  /-- PWM period in timer counts. -/
  PWMperiod : Nat
  /-- Sector of the last computed vector. -/
  Sector : Sector
  /-- Field `lowDuty`. -/
  lowDuty : Nat
  /-- Field `midDuty`. -/
  midDuty : Nat
  /-- Field `highDuty`. -/
  highDuty : Nat
  /-- Compare count of phase A. -/
  CntPhA : Nat
  /-- Compare count of phase B. -/
  CntPhB : Nat
  /-- Compare count of phase C. -/
  CntPhC : Nat
  deriving DecidableEq, Repr

open OVM_Mode_t Sector

/-- C integer division: truncation toward zero, no result for a zero divisor. -/
def cdiv (a b : Int) : Option Int :=
  if b = 0 then none else some (Int.tdiv a b)

/-- Conversion of an integer to `int16_t`. -/
def toInt16 (x : Int) : Int :=
  (x + 32768) % 65536 - 32768

/-- Conversion of an integer to `uint16_t`. -/
def toUInt16 (x : Int) : Nat :=
  (x % 65536).toNat

/-- Array read `t[i]`; no result outside the array. -/
def tableAt (t : List Int) (i : Int) : Option Int :=
  if i < 0 then none else t[i.toNat]?

/-- Conversion of an integer to `int32_t`: reduction modulo `2^32` to the range
`-2^31 .. 2^31 - 1`. -/
def toInt32 (x : Int) : Int :=
  (x + 2147483648) % 4294967296 - 2147483648

/-- C division of two `int32_t` operands with the quotient stored in an
`int32_t`: no result for a zero divisor. -/
def cdiv32 (a b : Int) : Option Int :=
  if b = 0 then none else some (toInt32 (Int.tdiv a b))

/-- `PWMC_RecalcT1T2_OVM` (the variant without `FASTDIV`).  The locals
`sum_t1_t2`, `offset`, `gain`, `t1_temp` and the fields of `time_prime` are
`int32_t`: the result of every arithmetic operation is reduced to 32 bits. -/
def PWMC_RecalcT1T2_OVM (time : Vector_Time_t) (mode : OVM_Mode_t) (gamma : Int) :
    Option Vector_Time_t :=
  if mode = OVM_LINEAR ∨ mode = OVM_1 then
    let sum_t1_t2 := toInt32 (time.T1 + time.T2)
    if sum_t1_t2 > OVM_ONE_POINT_ZERO then do
      let t1 ← cdiv32 (toInt32 (time.T1 * OVM_ONE_POINT_ZERO)) sum_t1_t2
      pure { T1 := t1, T2 := toInt32 (OVM_ONE_POINT_ZERO - t1) }
    else
      pure { T1 := time.T1, T2 := time.T2 }
  else if mode = OVM_2 then
    if time.T1 > OVM_ONE_POINT_ZERO then
      pure { T1 := OVM_ONE_POINT_ZERO, T2 := 0 }
    else if time.T2 > OVM_ONE_POINT_ZERO then
      pure { T1 := 0, T2 := OVM_ONE_POINT_ZERO }
    else do
      let offset ← cdiv32 (toInt32 (OVM_3_DIV_PI * gamma)) OVM_ONE_POINT_ZERO
      let gain ← cdiv32 (toInt32 (OVM_PI_DIV_6 * OVM_ONE_POINT_ZERO))
        (toInt32 (OVM_PI_DIV_6 - gamma))
      let sum_t1_t2 := toInt32 (time.T1 + time.T2)
      let t1_temp ← cdiv32 (toInt32 (time.T1 * OVM_ONE_POINT_ZERO)) sum_t1_t2
      let t1_temp := toInt32 (t1_temp - offset)
      let t1_temp := if t1_temp < 0 then 0 else t1_temp
      let t1 ←
        if gain > OVM_ONE_POINT_ZERO then do
          let gain ← cdiv32 gain OVM_ONE_POINT_ZERO
          pure (toInt32 (t1_temp * gain))
        else
          cdiv32 (toInt32 (t1_temp * gain)) OVM_ONE_POINT_ZERO
      let t1 := if t1 > OVM_ONE_POINT_ZERO then OVM_ONE_POINT_ZERO else t1
      pure { T1 := t1, T2 := toInt32 (OVM_ONE_POINT_ZERO - t1) }
  else
    pure { T1 := 0, T2 := 0 }

/-- Values of the locals after the regime selection of
`PWMC_SetPhaseVoltage_OVM`. -/
structure Corrected where
  /-- Local `wUAlpha`. -/
  wUAlpha : Int
  /-- Local `wUBeta`. -/
  wUBeta : Int
  /-- Local `ovm_mode_flag`. -/
  ovm_mode_flag : OVM_Mode_t
  /-- Local `gama`. -/
  gama : Int
  deriving DecidableEq, Repr

/-- The regime selection of `PWMC_SetPhaseVoltage_OVM` (the `if` chain on
`vref`).  `gama0` is the indeterminate initial value of the local `gama`,
which only the mode-2 branch assigns. -/
def ovmCorrect (alpha beta vref gama0 : Int) : Option Corrected :=
  if vref < OVM_VREF_MODE1_START then
    pure { wUAlpha := alpha, wUBeta := beta, ovm_mode_flag := OVM_LINEAR, gama := gama0 }
  else if vref < OVM_VREF_MODE2_START then do
    let q ← cdiv (vref - OVM_VREF_MODE1_START) OVM_VREF_INDEX_STEP
    let index := toInt16 q
    let gain ← tableAt aOVMGain index
    let wUAlpha ← cdiv (alpha * gain) OVM_ONE_POINT_ZERO
    let wUBeta ← cdiv (beta * gain) OVM_ONE_POINT_ZERO
    pure { wUAlpha := wUAlpha, wUBeta := wUBeta, ovm_mode_flag := OVM_1, gama := gama0 }
  else if vref < OVM_VREF_MODE2_END then do
    let q ← cdiv (vref - OVM_VREF_MODE1_START) OVM_VREF_INDEX_STEP
    let index := toInt16 q
    let gain ← tableAt aOVMGain index
    let wUAlpha ← cdiv (alpha * gain) OVM_ONE_POINT_ZERO
    let wUBeta ← cdiv (beta * gain) OVM_ONE_POINT_ZERO
    let gama ←
      if index > OVM_GAMMA_ARRAY_OFFSET then
        tableAt aOVMGamma (index - OVM_GAMMA_ARRAY_OFFSET)
      else
        tableAt aOVMGamma 0
    pure { wUAlpha := wUAlpha, wUBeta := wUBeta, ovm_mode_flag := OVM_2, gama := gama }
  else
    pure { wUAlpha := 0, wUBeta := 0, ovm_mode_flag := OVM_ERROR, gama := gama0 }

/-- Values fixed by the projection and the sector decision tree. -/
structure SectorChoice where
  /-- Local `wX`. -/
  wX : Int
  /-- Local `wY`. -/
  wY : Int
  /-- Local `wZ`. -/
  wZ : Int
  /-- Value stored in `pHandle->Sector`. -/
  sector : Sector
  /-- Value of `vector_time` handed to `PWMC_RecalcT1T2_OVM`. -/
  raw : Vector_Time_t
  deriving DecidableEq, Repr

/-- Projection onto `wX`, `wY`, `wZ` and the decision tree of
`PWMC_SetPhaseVoltage_OVM`, up to the call of `PWMC_RecalcT1T2_OVM` in each
branch: the sector stored and the raw dwell times. -/
def sectorDecision (wUAlpha wUBeta : Int) : Option SectorChoice := do
  let neg_beta_cmd_div_sqrt3 ← cdiv ((-wUBeta) * OVM_1_DIV_SQRT3) OVM_ONE_POINT_ZERO
  let wX := neg_beta_cmd_div_sqrt3 * 2
  let wY := wUAlpha + neg_beta_cmd_div_sqrt3
  let wZ := -wUAlpha + neg_beta_cmd_div_sqrt3
  if wY < 0 then
    if wZ < 0 then
      pure { wX := wX, wY := wY, wZ := wZ, sector := SECTOR_5, raw := { T1 := -wY, T2 := -wZ } }
    else if wX ≤ 0 then
      pure { wX := wX, wY := wY, wZ := wZ, sector := SECTOR_4, raw := { T1 := wZ, T2 := -wX } }
    else
      pure { wX := wX, wY := wY, wZ := wZ, sector := SECTOR_3, raw := { T1 := wX, T2 := -wY } }
  else
    if wZ ≥ 0 then
      pure { wX := wX, wY := wY, wZ := wZ, sector := SECTOR_2, raw := { T1 := wY, T2 := wZ } }
    else if wX ≤ 0 then
      pure { wX := wX, wY := wY, wZ := wZ, sector := SECTOR_6, raw := { T1 := -wX, T2 := wY } }
    else
      pure { wX := wX, wY := wY, wZ := wZ, sector := SECTOR_1, raw := { T1 := -wZ, T2 := wX } }

/-- The two statements computing one compare count:
`d = 16384 + x / 2; d = PWMperiod * d / 65536`. -/
def dutyCount (PWMperiod : Nat) (x : Int) : Option Int := do
  let h ← cdiv x 2
  cdiv ((PWMperiod : Int) * (16384 + h)) 65536

/-- Locals `duty_a`, `duty_b`, `duty_c` together with the three level fields
written in the same branch. -/
structure Duties where
  /-- Local `duty_a`. -/
  duty_a : Int
  /-- Local `duty_b`. -/
  duty_b : Int
  /-- Local `duty_c`. -/
  duty_c : Int
  /-- Value assigned to `lowDuty`. -/
  low : Int
  /-- Value assigned to `midDuty`. -/
  mid : Int
  /-- Value assigned to `highDuty`. -/
  high : Int
  deriving DecidableEq, Repr

/-- The duty computation that follows `PWMC_RecalcT1T2_OVM` in the branch of
each sector. -/
def sectorDuties (PWMperiod : Nat) (t : Vector_Time_t) : Sector → Option Duties
  | SECTOR_5 => do
    let a ← dutyCount PWMperiod (-t.T1 + t.T2)
    let b ← dutyCount PWMperiod (-t.T1 - t.T2)
    let c ← dutyCount PWMperiod (t.T1 + t.T2)
    pure { duty_a := a, duty_b := b, duty_c := c, low := c, mid := a, high := b }
  | SECTOR_4 => do
    let a ← dutyCount PWMperiod (-t.T1 - t.T2)
    let b ← dutyCount PWMperiod (t.T1 - t.T2)
    let c ← dutyCount PWMperiod (t.T1 + t.T2)
    pure { duty_a := a, duty_b := b, duty_c := c, low := c, mid := b, high := a }
  | SECTOR_3 => do
    let a ← dutyCount PWMperiod (-t.T1 - t.T2)
    let b ← dutyCount PWMperiod (t.T1 + t.T2)
    let c ← dutyCount PWMperiod (-t.T1 + t.T2)
    pure { duty_a := a, duty_b := b, duty_c := c, low := b, mid := c, high := a }
  | SECTOR_2 => do
    let a ← dutyCount PWMperiod (t.T1 - t.T2)
    let b ← dutyCount PWMperiod (t.T1 + t.T2)
    let c ← dutyCount PWMperiod (-t.T1 - t.T2)
    pure { duty_a := a, duty_b := b, duty_c := c, low := b, mid := a, high := c }
  | SECTOR_6 => do
    let a ← dutyCount PWMperiod (t.T1 + t.T2)
    let b ← dutyCount PWMperiod (-t.T1 - t.T2)
    let c ← dutyCount PWMperiod (t.T1 - t.T2)
    pure { duty_a := a, duty_b := b, duty_c := c, low := a, mid := c, high := b }
  | SECTOR_1 => do
    let a ← dutyCount PWMperiod (t.T1 + t.T2)
    let b ← dutyCount PWMperiod (-t.T1 + t.T2)
    let c ← dutyCount PWMperiod (-t.T1 - t.T2)
    pure { duty_a := a, duty_b := b, duty_c := c, low := a, mid := b, high := c }

/-- Everything observable after a completed call of `PWMC_SetPhaseVoltage_OVM`. -/
structure OvmResult where
  /-- Local `vref`. -/
  vref : Int
  /-- Locals after the regime selection. -/
  corrected : Corrected
  /-- Locals after the sector decision. -/
  choice : SectorChoice
  /-- Local `vector_time` after `PWMC_RecalcT1T2_OVM`. -/
  vector_time : Vector_Time_t
  /-- Locals `duty_a`, `duty_b`, `duty_c` and the three levels. -/
  duties : Duties
  /-- The handle after the call. -/
  handle : PWMC_Handle_t
  /-- The returned error code. -/
  ret : Nat

/-- The stores into the handle made by `PWMC_SetPhaseVoltage_OVM`: the sector,
the three levels and the three compare counts, each converted to its 16-bit
unsigned field. -/
def storeDuties (pHandle : PWMC_Handle_t) (s : Sector) (d : Duties) : PWMC_Handle_t :=
  { pHandle with
    Sector := s
    lowDuty := toUInt16 d.low
    midDuty := toUInt16 d.mid
    highDuty := toUInt16 d.high
    CntPhA := toUInt16 d.duty_a
    CntPhB := toUInt16 d.duty_b
    CntPhC := toUInt16 d.duty_c }

/-- `PWMC_SetPhaseVoltage_OVM`.  `MCM_Sqrt` (from `mc_math`) and the handle's
callback `pFctSetADCSampPointSectX` are not part of the sources at hand and
are parameters; `gama0` is the indeterminate initial value of the local
`gama`.  The argument of `PWMC_RecalcT1T2_OVM` is converted to its `int16_t`
parameter type. -/
def PWMC_SetPhaseVoltage_OVM (MCM_Sqrt : Int → Int)
    (pFctSetADCSampPointSectX : PWMC_Handle_t → Nat) (gama0 : Int)
    (pHandle : PWMC_Handle_t) (alpha beta : Int) : Option OvmResult := do
  let square := alpha * alpha + beta * beta
  let vref := MCM_Sqrt square
  let c ← ovmCorrect alpha beta vref gama0
  let k ← sectorDecision c.wUAlpha c.wUBeta
  let vector_time ← PWMC_RecalcT1T2_OVM k.raw c.ovm_mode_flag (toInt16 c.gama)
  let d ← sectorDuties pHandle.PWMperiod vector_time k.sector
  let h := storeDuties pHandle k.sector d
  pure { vref := vref, corrected := c, choice := k, vector_time := vector_time,
         duties := d, handle := h, ret := pFctSetADCSampPointSectX h }

/-! ### Derived quantities used in the statements -/

/-- The value of `time_prime.T1` before the final clamp in the general mode-2
branch of `PWMC_RecalcT1T2_OVM`. -/
def ovm2Unclamped (time : Vector_Time_t) (gamma : Int) : Int :=
  let offset := Int.tdiv (31291 * gamma) 32768
  let gain := Int.tdiv (17157 * 32768) (17157 - gamma)
  let t1_temp := Int.tdiv (time.T1 * 32768) (time.T1 + time.T2) - offset
  let t1_temp := if t1_temp < 0 then 0 else t1_temp
  if gain > 32768 then t1_temp * Int.tdiv gain 32768 else Int.tdiv (t1_temp * gain) 32768

/-- Index `(vref - OVM_VREF_MODE1_START) / OVM_VREF_INDEX_STEP` as stored in the
`int16_t` local `index`. -/
def gainIndex (vref : Int) : Int :=
  toInt16 (Int.tdiv (vref - 29717) 16)

/-- Index used for the read of `aOVMGamma` in the mode-2 branch. -/
def gammaIndex (vref : Int) : Int :=
  if gainIndex vref > 92 then gainIndex vref - 92 else 0

/-- The regime named by the threshold comparisons on `vref`. -/
def regimeOf (vref : Int) : OVM_Mode_t :=
  if vref < 29717 then OVM_LINEAR
  else if vref < 31186 then OVM_1
  else if vref < 32768 then OVM_2
  else OVM_ERROR

/-- The compare count of a 50 % duty: `PWMperiod * 16384 / 65536`. -/
def centreCount (PWMperiod : Nat) : Int :=
  Int.tdiv ((PWMperiod : Int) * 16384) 65536

/-- Whether a value is representable in `int32_t`. -/
def fitsInt32 (x : Int) : Prop :=
  -2147483648 ≤ x ∧ x ≤ 2147483647

/-- The products formed by `PWMC_RecalcT1T2_OVM` on the path it executes, in
program order; a division by zero ends the path. -/
def recalcProducts (time : Vector_Time_t) (mode : OVM_Mode_t) (gamma : Int) : List Int :=
  if mode = OVM_LINEAR ∨ mode = OVM_1 then
    if time.T1 + time.T2 > OVM_ONE_POINT_ZERO then [time.T1 * OVM_ONE_POINT_ZERO] else []
  else if mode = OVM_2 then
    if time.T1 > OVM_ONE_POINT_ZERO then []
    else if time.T2 > OVM_ONE_POINT_ZERO then []
    else
      [OVM_3_DIV_PI * gamma, OVM_PI_DIV_6 * OVM_ONE_POINT_ZERO] ++
      match cdiv (OVM_PI_DIV_6 * OVM_ONE_POINT_ZERO) (OVM_PI_DIV_6 - gamma) with
      | none => []
      | some gain =>
        [time.T1 * OVM_ONE_POINT_ZERO] ++
        match cdiv (time.T1 * OVM_ONE_POINT_ZERO) (time.T1 + time.T2) with
        | none => []
        | some q =>
          let t1_temp := q - Int.tdiv (OVM_3_DIV_PI * gamma) OVM_ONE_POINT_ZERO
          let t1_temp := if t1_temp < 0 then 0 else t1_temp
          if gain > OVM_ONE_POINT_ZERO then [t1_temp * Int.tdiv gain OVM_ONE_POINT_ZERO]
          else [t1_temp * gain]
  else []

/-- The three sums that the branch of each sector halves to form `duty_a`,
`duty_b`, `duty_c`, in that order. -/
def dutyArgs (t : Vector_Time_t) : Sector → List Int
  | SECTOR_5 => [-t.T1 + t.T2, -t.T1 - t.T2, t.T1 + t.T2]
  | SECTOR_4 => [-t.T1 - t.T2, t.T1 - t.T2, t.T1 + t.T2]
  | SECTOR_3 => [-t.T1 - t.T2, t.T1 + t.T2, -t.T1 + t.T2]
  | SECTOR_2 => [t.T1 - t.T2, t.T1 + t.T2, -t.T1 - t.T2]
  | SECTOR_6 => [t.T1 + t.T2, -t.T1 - t.T2, t.T1 - t.T2]
  | SECTOR_1 => [t.T1 + t.T2, -t.T1 + t.T2, -t.T1 - t.T2]

/-- The three products `PWMperiod * duty` of the branch of a sector. -/
def dutyProducts (PWMperiod : Nat) (t : Vector_Time_t) (s : Sector) : List Int :=
  (dutyArgs t s).map (fun x => (PWMperiod : Int) * (16384 + Int.tdiv x 2))

/-- The products and the sum of squares formed by a call of
`PWMC_SetPhaseVoltage_OVM`, on the path it executes, in program order:
`alpha²`, `beta²`, their sum, `alpha * gain` and `beta * gain` (modes 1 and 2),
`(-wUBeta) * 18919`, the products of `PWMC_RecalcT1T2_OVM`, and the three
products `PWMperiod * duty`. -/
def ovmProducts (MCM_Sqrt : Int → Int) (gama0 : Int) (PWMperiod : Nat) (alpha beta : Int) :
    List Int :=
  let square := alpha * alpha + beta * beta
  let vref := MCM_Sqrt square
  [alpha * alpha, beta * beta, square] ++
  (if OVM_VREF_MODE1_START ≤ vref ∧ vref < OVM_VREF_MODE2_END then
    match tableAt aOVMGain (gainIndex vref) with
    | some gain => [alpha * gain, beta * gain]
    | none => []
  else []) ++
  match ovmCorrect alpha beta vref gama0 with
  | none => []
  | some c =>
    [(-c.wUBeta) * OVM_1_DIV_SQRT3] ++
    match sectorDecision c.wUAlpha c.wUBeta with
    | none => []
    | some k =>
      recalcProducts k.raw c.ovm_mode_flag (toInt16 c.gama) ++
      match PWMC_RecalcT1T2_OVM k.raw c.ovm_mode_flag (toInt16 c.gama) with
      | none => []
      | some vt => dutyProducts PWMperiod vt k.sector

/-- A square-root stand-in that reports 0 for the zero vector and an
over-range magnitude for every other input. -/
def overRangeSqrt (x : Int) : Int :=
  if x = 0 then 0 else 40000

/-- A handle with a period of 1000 counts and all outputs cleared. -/
def sampleHandle : PWMC_Handle_t :=
  { PWMperiod := 1000, Sector := SECTOR_1, lowDuty := 0, midDuty := 0, highDuty := 0,
    CntPhA := 0, CntPhB := 0, CntPhC := 0 }

end SvmOvm

namespace PidPosition

/-! ## Data model of `bsp_pid.h` -/

/-- The struct `_pid`; its `float` fields are taken as exact rationals. -/
structure _pid where
  /-- Field `target_val`. -/
  target_val : ℚ
  /-- Field `actual_val`. -/
  actual_val : ℚ
  /-- Field `err`. -/
  err : ℚ
  /-- Field `err_last`. -/
  err_last : ℚ
  /-- Field `Kp`. -/
  Kp : ℚ
  /-- Field `Ki`. -/
  Ki : ℚ
  /-- Field `Kd`. -/
  Kd : ℚ
  /-- Field `integral`. -/
  integral : ℚ
  deriving DecidableEq

/-- Modelled from the spec: the body of `PID_realize`, which `bsp_pid.h` only
declares.  The spec gives the position-form algorithm
`error = target − measured; integral += error;
output = Kp·error + Ki·integral + Kd·(error − previous_error);
previous_error = error`.  The result is the new state and the output. -/
def PID_realize (pid : _pid) (temp_val : ℚ) : _pid × ℚ :=
  let error := pid.target_val - temp_val
  let integral := pid.integral + error
  let output := pid.Kp * error + pid.Ki * integral + pid.Kd * (error - pid.err_last)
  ({ pid with err := error, integral := integral, err_last := error }, output)

/-- A controller state with the given gains and target and everything else zero. -/
def pidInit (Kp Ki Kd target : ℚ) : _pid :=
  { target_val := target, actual_val := 0, err := 0, err_last := 0,
    Kp := Kp, Ki := Ki, Kd := Kd, integral := 0 }

end PidPosition

/-! # Properties of the Hall commutation engine -/

namespace BldcHall
open Channel OcnPin GPIO_PinState Direction

theorem trigger_phase_values (dir : Direction) (h : Nat) (s : State)
    (h1 : 1 ≤ h) (h6 : h ≤ 6) (p : Phase) :
    compareOf (HAL_TIM_TriggerCallback dir h s) p
        = (if p = (commentPair dir h).1 then s.bldcm_pulse else 0) ∧
    gateOf (HAL_TIM_TriggerCallback dir h s) p
        = (if p = (commentPair dir h).2 then GPIO_PIN_SET else GPIO_PIN_RESET) := by
  interval_cases h <;> cases dir <;> cases p <;>
    simp [HAL_TIM_TriggerCallback, triggerOps, commutationWrites, runOps, applyOp,
      compareOf, gateOf, commentPair]

theorem commentPair_distinct (dir : Direction) (h : Nat) (h1 : 1 ≤ h) (h6 : h ≤ 6) :
    (commentPair dir h).1 ≠ (commentPair dir h).2 := by
  interval_cases h <;> cases dir <;> simp [commentPair]

theorem otherPhase_spec (a b : Phase) (hab : a ≠ b) :
    otherPhase a b ≠ a ∧ otherPhase a b ≠ b ∧ ∀ p, p = a ∨ p = b ∨ p = otherPhase a b := by
  cases a <;> cases b <;> simp [otherPhase] at hab ⊢ <;> intro p <;> cases p <;> simp

theorem outputs_eq_of_phases (s t : State)
    (hc : ∀ p, compareOf s p = compareOf t p) (hg : ∀ p, gateOf s p = gateOf t p) :
    outputs s = outputs t := by
  have c1 := hc .U
  have c2 := hc .V
  have c3 := hc .W
  have g1 := hg .U
  have g2 := hg .V
  have g3 := hg .W
  simp only [compareOf, gateOf] at c1 c2 c3 g1 g2 g3
  simp [outputs, c1, c2, c3, g1, g2, g3]

/-- C1 (as stated, refuted): with `bldcm_pulse = 0` (its initial value) the
callback for Hall code 1, forward, leaves all three compare values equal to
`bldcm_pulse`, so it is not the case that exactly one of them equals it. -/
theorem zero_pulse_no_unique_driven_channel :
    ¬ ∃! p : Phase, compareOf (HAL_TIM_TriggerCallback MOTOR_FWD 1 idleState) p
        = idleState.bldcm_pulse := by
  intro ⟨p, _, hu⟩
  have a := hu Phase.U (by decide)
  have b := hu Phase.V (by decide)
  rw [← a] at b
  exact absurd b (by decide)

/-- C1 (amended): for every Hall code in 1..6 and both directions there are
three distinct phases, fixed by (code, direction) alone, such that after
`HAL_TIM_TriggerCallback`, whatever the prior state: the driven phase has
compare `bldcm_pulse` and the other two have compare 0; the sink phase has its
low-side gate SET and the other two RESET, and it is the only gate that is
SET; when `bldcm_pulse ≠ 0` the driven channel is the only one whose compare
equals `bldcm_pulse`; and the outputs are the same from any prior state with
the same `bldcm_pulse`. -/
theorem trigger_one_driven_one_sink_one_floating (dir : Direction) (h : Nat)
    (h1 : 1 ≤ h) (h6 : h ≤ 6) :
    ∃ driven sink floating : Phase,
      driven ≠ sink ∧ floating ≠ driven ∧ floating ≠ sink ∧
      ∀ s : State,
        compareOf (HAL_TIM_TriggerCallback dir h s) driven = s.bldcm_pulse ∧
        compareOf (HAL_TIM_TriggerCallback dir h s) sink = 0 ∧
        compareOf (HAL_TIM_TriggerCallback dir h s) floating = 0 ∧
        gateOf (HAL_TIM_TriggerCallback dir h s) sink = GPIO_PIN_SET ∧
        gateOf (HAL_TIM_TriggerCallback dir h s) driven = GPIO_PIN_RESET ∧
        gateOf (HAL_TIM_TriggerCallback dir h s) floating = GPIO_PIN_RESET ∧
        (∃! p, gateOf (HAL_TIM_TriggerCallback dir h s) p = GPIO_PIN_SET) ∧
        (s.bldcm_pulse ≠ 0 →
          ∃! p, compareOf (HAL_TIM_TriggerCallback dir h s) p = s.bldcm_pulse) ∧
        (∀ t : State, t.bldcm_pulse = s.bldcm_pulse →
          outputs (HAL_TIM_TriggerCallback dir h t) = outputs (HAL_TIM_TriggerCallback dir h s)) := by
  have hd := commentPair_distinct dir h h1 h6
  obtain ⟨o1, o2, _⟩ := otherPhase_spec _ _ hd
  refine ⟨(commentPair dir h).1, (commentPair dir h).2,
    otherPhase (commentPair dir h).1 (commentPair dir h).2, hd, o1, o2, ?_⟩
  intro s
  have hv := trigger_phase_values dir h s h1 h6
  refine ⟨?_, ?_, ?_, ?_, ?_, ?_, ?_, ?_, ?_⟩
  · simp [(hv _).1]
  · simp [(hv _).1, Ne.symm hd]
  · simp [(hv _).1, o1]
  · simp [(hv _).2]
  · simp [(hv _).2, hd]
  · simp [(hv _).2, o2]
  · refine ⟨(commentPair dir h).2, by simp [(hv _).2], ?_⟩
    intro q hq
    rw [(hv q).2] at hq
    by_contra hne
    simp [hne] at hq
  · intro hp
    refine ⟨(commentPair dir h).1, by simp [(hv _).1], ?_⟩
    intro q hq
    rw [(hv q).1] at hq
    by_contra hne
    simp [hne] at hq
    exact hp hq.symm
  · intro t ht
    apply outputs_eq_of_phases
    · intro p
      rw [(trigger_phase_values dir h t h1 h6 p).1, (hv p).1, ht]
    · intro p
      rw [(trigger_phase_values dir h t h1 h6 p).2, (hv p).2]

/-- Witness of `trigger_one_driven_one_sink_one_floating` at Hall code 3, forward. -/
theorem trigger_one_driven_one_sink_one_floating_witness :
    (1 ≤ 3 ∧ 3 ≤ 6) ∧
    ∃ driven sink floating : Phase,
      driven ≠ sink ∧ floating ≠ driven ∧ floating ≠ sink ∧
      compareOf (HAL_TIM_TriggerCallback MOTOR_FWD 3 idleState) driven = idleState.bldcm_pulse ∧
      gateOf (HAL_TIM_TriggerCallback MOTOR_FWD 3 idleState) sink = GPIO_PIN_SET := by
  obtain ⟨d, k, f, h1, h2, h3, hs⟩ :=
    trigger_one_driven_one_sink_one_floating MOTOR_FWD 3 (by decide) (by decide)
  exact ⟨⟨by decide, by decide⟩, d, k, f, h1, h2, h3, (hs idleState).1, (hs idleState).2.2.2.1⟩

/-- C2: with channel 1/2/3 the high side and OCNPWM1/2/3 the low side of phases
U/V/W, the (driven, low-side-enabled) pair written by `HAL_TIM_TriggerCallback`
for Hall codes 1..6 is (U,W),(V,U),(V,W),(W,V),(U,V),(W,U) forward and
(W,U),(U,V),(W,V),(V,W),(V,U),(U,W) reverse, which are the `X+ Y-` comments of
the twelve cases: the driven phase gets compare `bldcm_pulse`, the other two
compare 0, the low-side-enabled phase gets its gate SET, the other two RESET. -/
theorem trigger_matches_case_comments (dir : Direction) (h : Nat) (s : State)
    (h1 : 1 ≤ h) (h6 : h ≤ 6) :
    (∀ p : Phase,
      compareOf (HAL_TIM_TriggerCallback dir h s) p
          = (if p = (commentPair dir h).1 then s.bldcm_pulse else 0) ∧
      gateOf (HAL_TIM_TriggerCallback dir h s) p
          = (if p = (commentPair dir h).2 then GPIO_PIN_SET else GPIO_PIN_RESET)) ∧
    [1, 2, 3, 4, 5, 6].map (commentPair MOTOR_FWD)
      = [(.U, .W), (.V, .U), (.V, .W), (.W, .V), (.U, .V), (.W, .U)] ∧
    [1, 2, 3, 4, 5, 6].map (commentPair MOTOR_REV)
      = [(.W, .U), (.U, .V), (.W, .V), (.V, .W), (.V, .U), (.U, .W)] :=
  ⟨fun p => trigger_phase_values dir h s h1 h6 p, by decide, by decide⟩

/-- Witness of `trigger_matches_case_comments` at Hall code 4, reverse (`V+ W-`). -/
theorem trigger_matches_case_comments_witness :
    (1 ≤ 4 ∧ 4 ≤ 6) ∧
    compareOf (HAL_TIM_TriggerCallback MOTOR_REV 4 { idleState with bldcm_pulse := 500 }) .V = 500 ∧
    gateOf (HAL_TIM_TriggerCallback MOTOR_REV 4 { idleState with bldcm_pulse := 500 }) .W
      = GPIO_PIN_SET := by
  have h := (trigger_matches_case_comments MOTOR_REV 4 { idleState with bldcm_pulse := 500 }
    (by decide) (by decide)).1
  exact ⟨⟨by decide, by decide⟩, (h .V).1, (h .W).2⟩


theorem trigger_update (dir : Direction) (h : Nat) (s : State) :
    (HAL_TIM_TriggerCallback dir h s).update = 0 := by
  simp [HAL_TIM_TriggerCallback, triggerOps, runOps, List.foldl_append, applyOp]

theorem tick_update (s : State) :
    (HAL_TIM_PeriodElapsedCallback s).update = if s.update > 1 then 0 else s.update + 1 := by
  unfold HAL_TIM_PeriodElapsedCallback stallBranch
  by_cases h : s.update > 1 <;>
    simp [h, stop_pwm_output, hall_disable, stop_pwm_output_ops, hall_disable_ops, runOps, applyOp]

theorem runEvents_snoc (s : State) (es : List Event) (e : Event) :
    runEvents s (es ++ [e]) = stepEvent (runEvents s es) e := by
  simp [runEvents, List.foldl_append]

theorem stallFlags_length (s : State) (es : List Event) :
    (stallFlags s es).length = es.length := by
  induction es generalizing s with
  | nil => rfl
  | cons e es ih => simp [stallFlags, ih]

theorem stallFlags_snoc (s : State) (es : List Event) (e : Event) :
    stallFlags s (es ++ [e]) = stallFlags s es ++ [takesStall (runEvents s es) e] := by
  induction es generalizing s with
  | nil => simp [stallFlags, runEvents]
  | cons x xs ih => simp [stallFlags, runEvents, ih]

theorem ticksSinceReset_snoc (es : List Event) (fl : List Bool) (e : Event) (b : Bool)
    (hl : fl.length = es.length) :
    ticksSinceReset (es ++ [e]) (fl ++ [b])
      = if quietTick (e, b) then ticksSinceReset es fl + 1 else 0 := by
  unfold ticksSinceReset
  rw [List.zip_append hl.symm]
  simp [List.takeWhile_cons]
  split <;> simp

theorem update_eq_ticksSinceReset (s : State) (hs : s.update = 0) (es : List Event) :
    (runEvents s es).update = (ticksSinceReset es (stallFlags s es) : Int) ∧
      ticksSinceReset es (stallFlags s es) ≤ 2 := by
  induction es using List.reverseRecOn with
  | nil => simp [runEvents, stallFlags, ticksSinceReset, hs]
  | append_singleton es e ih =>
    obtain ⟨ih1, ih2⟩ := ih
    rw [runEvents_snoc, stallFlags_snoc,
      ticksSinceReset_snoc _ _ _ _ (stallFlags_length s es)]
    cases e with
    | commutation dir h => simp [stepEvent, trigger_update, takesStall, quietTick]
    | tick =>
      simp only [stepEvent, tick_update, takesStall, stallBranch, ih1]
      by_cases hgt : (ticksSinceReset es (stallFlags s es) : Int) > 1
      · simp [hgt, quietTick]
      · simp [hgt, quietTick]
        omega

/-- C3: in any sequence of commutation events and period ticks started with
`update = 0`, the tick that follows a history `pre` takes the stall branch if
and only if it is the third tick since the most recent commutation event,
fault or start (two quiet ticks precede it); tick, tick, commutation, tick,
tick raises no fault, and tick, tick, tick raises it on the third tick only. -/
theorem stall_on_third_consecutive_tick (s : State) (hs : s.update = 0) :
    (∀ pre : List Event,
      (takesStall (runEvents s pre) Event.tick = true ↔
        ticksSinceReset pre (stallFlags s pre) + 1 = 3) ∧
      stallFlags s (pre ++ [Event.tick])
        = stallFlags s pre ++ [decide (ticksSinceReset pre (stallFlags s pre) + 1 = 3)]) ∧
    (∀ (d : Direction) (k : Nat),
      stallFlags s [Event.tick, Event.tick, Event.commutation d k, Event.tick, Event.tick]
        = [false, false, false, false, false]) ∧
    stallFlags s [Event.tick, Event.tick, Event.tick] = [false, false, true] := by
  have key : ∀ pre : List Event, (takesStall (runEvents s pre) Event.tick = true ↔
        ticksSinceReset pre (stallFlags s pre) + 1 = 3) := by
    intro pre
    obtain ⟨h1, h2⟩ := update_eq_ticksSinceReset s hs pre
    simp only [takesStall, stallBranch, h1, decide_eq_true_eq]
    omega
  refine ⟨fun pre => ⟨key pre, ?_⟩, ?_, ?_⟩
  · rw [stallFlags_snoc]
    congr 2
    have := key pre
    by_cases hc : ticksSinceReset pre (stallFlags s pre) + 1 = 3
    · simp [hc, this.mpr hc]
    · have : takesStall (runEvents s pre) Event.tick = false := by
        cases hb : takesStall (runEvents s pre) Event.tick
        · rfl
        · exact absurd (this.mp hb) hc
      simp [hc, this]
  · intro d k
    simp [stallFlags, takesStall, stallBranch, stepEvent, tick_update, trigger_update, hs]
  · simp [stallFlags, takesStall, stallBranch, stepEvent, tick_update, trigger_update, hs]

/-- Witness of `stall_on_third_consecutive_tick` from the idle state. -/
theorem stall_on_third_consecutive_tick_witness :
    idleState.update = 0 ∧
    stallFlags idleState [Event.tick, Event.tick, Event.tick] = [false, false, true] ∧
    stallFlags idleState
        [Event.tick, Event.tick, Event.commutation MOTOR_FWD 5, Event.tick, Event.tick]
      = [false, false, false, false, false] :=
  ⟨rfl, (stall_on_third_consecutive_tick idleState rfl).2.2,
    (stall_on_third_consecutive_tick idleState rfl).2.1 MOTOR_FWD 5⟩

/-- C4: when `HAL_TIM_PeriodElapsedCallback` takes the stall branch, then
afterwards, whatever the prior state, all three compare values are 0, all
three low-side gates are RESET, the trigger and update interrupts of the Hall
timer are disabled, and `update` is 0. -/
theorem stall_branch_forces_safe_state (s : State) (hb : stallBranch s = true) :
    (HAL_TIM_PeriodElapsedCallback s).ccr1 = 0 ∧
    (HAL_TIM_PeriodElapsedCallback s).ccr2 = 0 ∧
    (HAL_TIM_PeriodElapsedCallback s).ccr3 = 0 ∧
    (HAL_TIM_PeriodElapsedCallback s).ocn1 = GPIO_PIN_RESET ∧
    (HAL_TIM_PeriodElapsedCallback s).ocn2 = GPIO_PIN_RESET ∧
    (HAL_TIM_PeriodElapsedCallback s).ocn3 = GPIO_PIN_RESET ∧
    (HAL_TIM_PeriodElapsedCallback s).itTrigger = false ∧
    (HAL_TIM_PeriodElapsedCallback s).itUpdate = false ∧
    (HAL_TIM_PeriodElapsedCallback s).update = 0 := by
  simp [HAL_TIM_PeriodElapsedCallback, hb, stop_pwm_output, hall_disable, stop_pwm_output_ops,
    hall_disable_ops, runOps, applyOp]

/-- Witness of `stall_branch_forces_safe_state` at a running state with `update = 2`. -/
theorem stall_branch_forces_safe_state_witness :
    stallBranch runningState = true ∧
    (HAL_TIM_PeriodElapsedCallback runningState).ccr1 = 0 ∧
    (HAL_TIM_PeriodElapsedCallback runningState).ocn3 = GPIO_PIN_RESET ∧
    (HAL_TIM_PeriodElapsedCallback runningState).itTrigger = false ∧
    (HAL_TIM_PeriodElapsedCallback runningState).update = 0 := by
  have h := stall_branch_forces_safe_state runningState (by decide)
  exact ⟨by decide, h.1, h.2.2.2.2.2.1, h.2.2.2.2.2.2.1, h.2.2.2.2.2.2.2.2⟩

end BldcHall

/-! # Properties of the space-vector modulator -/

namespace SvmOvm
open OVM_Mode_t Sector

theorem cdiv_of_ne (a b : Int) (hb : b ≠ 0) : cdiv a b = some (Int.tdiv a b) := by
  simp [cdiv, hb]

theorem cdiv_zero (a : Int) : cdiv a 0 = none := by
  simp [cdiv]

theorem tdiv_of_nonneg (a b : Int) (ha : 0 ≤ a) (hb : 0 ≤ b) : Int.tdiv a b = a / b :=
  Int.tdiv_eq_ediv ha hb

theorem tdiv_of_nonpos (a b : Int) (ha : a ≤ 0) (hb : 0 ≤ b) : Int.tdiv a b = -((-a) / b) := by
  have h := Int.neg_tdiv (-a) b
  rw [neg_neg] at h
  rw [h, Int.tdiv_eq_ediv (by omega) hb]

theorem tdiv_two_bounds (x lo hi : Int) (hlo : 2 * lo ≤ x) (hhi : x ≤ 2 * hi) : lo ≤ Int.tdiv x 2 ∧ Int.tdiv x 2 ≤ hi := by
  rcases le_total 0 x with h | h
  · rw [tdiv_of_nonneg x 2 h (by norm_num)]; omega
  · rw [tdiv_of_nonpos x 2 h (by norm_num)]; omega

theorem scale_bounds (p d : Int) (hp : 0 ≤ p) (hd0 : 0 ≤ d) (hd1 : d ≤ 32768) :
    0 ≤ Int.tdiv (p * d) 65536 ∧ Int.tdiv (p * d) 65536 ≤ p := by
  have hpd : 0 ≤ p * d := mul_nonneg hp hd0
  rw [tdiv_of_nonneg _ _ hpd (by norm_num)]
  constructor
  · exact Int.ediv_nonneg hpd (by norm_num)
  · apply Int.ediv_le_of_le_mul (by norm_num)
    nlinarith

theorem dutyCount_bounds (P : Nat) (x : Int) (hlo : -32768 ≤ x) (hhi : x ≤ 32768) :
    ∃ d, dutyCount P x = some d ∧ 0 ≤ d ∧ d ≤ P := by
  obtain ⟨h1, h2⟩ := tdiv_two_bounds x (-16384) 16384 (by omega) (by omega)
  refine ⟨Int.tdiv ((P : Int) * (16384 + Int.tdiv x 2)) 65536, ?_, ?_⟩
  · simp [dutyCount, cdiv]
  · exact scale_bounds P _ (by omega) (by omega) (by omega)

theorem sectorDuties_bounds (P : Nat) (t : Vector_Time_t) (s : Sector)
    (h1 : 0 ≤ t.T1) (h2 : 0 ≤ t.T2) (hs : t.T1 + t.T2 ≤ 32768) :
    ∃ d, sectorDuties P t s = some d ∧
      (0 ≤ d.duty_a ∧ d.duty_a ≤ P) ∧ (0 ≤ d.duty_b ∧ d.duty_b ≤ P) ∧
      (0 ≤ d.duty_c ∧ d.duty_c ≤ P) := by
  obtain ⟨pp, hpp, bpp⟩ := dutyCount_bounds P (t.T1 + t.T2) (by omega) (by omega)
  obtain ⟨pm, hpm, bpm⟩ := dutyCount_bounds P (t.T1 - t.T2) (by omega) (by omega)
  obtain ⟨mp, hmp, bmp⟩ := dutyCount_bounds P (-t.T1 + t.T2) (by omega) (by omega)
  obtain ⟨mm, hmm, bmm⟩ := dutyCount_bounds P (-t.T1 - t.T2) (by omega) (by omega)
  cases s <;> simp [sectorDuties, hpp, hpm, hmp, hmm, bpp, bpm, bmp, bmm]


theorem rescale_bounds (t1 t2 : Int) (h1 : 0 ≤ t1) (h2 : 0 ≤ t2) (hs : 0 < t1 + t2) :
    0 ≤ Int.tdiv (t1 * 32768) (t1 + t2) ∧ Int.tdiv (t1 * 32768) (t1 + t2) ≤ 32768 := by
  have hn : 0 ≤ t1 * 32768 := by omega
  rw [tdiv_of_nonneg _ _ hn (by omega)]
  constructor
  · exact Int.ediv_nonneg hn (by omega)
  · apply Int.ediv_le_of_le_mul hs
    nlinarith

theorem toInt32_of_range (x : Int) (h0 : -2147483648 ≤ x) (h1 : x ≤ 2147483647) :
    toInt32 x = x := by
  unfold toInt32; omega

theorem recalc_none_iff (time : Vector_Time_t) (mode : OVM_Mode_t) (gamma : Int) :
    PWMC_RecalcT1T2_OVM time mode gamma = none ↔
      mode = OVM_2 ∧ time.T1 ≤ 32768 ∧ time.T2 ≤ 32768 ∧
        (toInt32 (time.T1 + time.T2) = 0 ∨ toInt32 (17157 - gamma) = 0) := by
  cases mode with
  | OVM_LINEAR =>
    by_cases hl : toInt32 (time.T1 + time.T2) > 32768
    · have hne : toInt32 (time.T1 + time.T2) ≠ 0 := by omega
      simp [PWMC_RecalcT1T2_OVM, OVM_ONE_POINT_ZERO, hl, cdiv32, hne]
    · simp [PWMC_RecalcT1T2_OVM, OVM_ONE_POINT_ZERO, hl]
  | OVM_1 =>
    by_cases hl : toInt32 (time.T1 + time.T2) > 32768
    · have hne : toInt32 (time.T1 + time.T2) ≠ 0 := by omega
      simp [PWMC_RecalcT1T2_OVM, OVM_ONE_POINT_ZERO, hl, cdiv32, hne]
    · simp [PWMC_RecalcT1T2_OVM, OVM_ONE_POINT_ZERO, hl]
  | OVM_ERROR => simp [PWMC_RecalcT1T2_OVM]
  | OVM_2 =>
    by_cases ha : time.T1 > 32768
    · simp [PWMC_RecalcT1T2_OVM, OVM_ONE_POINT_ZERO, ha]
    · by_cases hb : time.T2 > 32768
      · simp [PWMC_RecalcT1T2_OVM, OVM_ONE_POINT_ZERO, ha, hb]
      · have e1 : time.T1 ≤ 32768 := by omega
        have e2 : time.T2 ≤ 32768 := by omega
        by_cases hg : toInt32 (17157 - gamma) = 0
        · simp [PWMC_RecalcT1T2_OVM, OVM_ONE_POINT_ZERO, OVM_PI_DIV_6, ha, hb, hg, cdiv32, e1, e2]
        · by_cases hs : toInt32 (time.T1 + time.T2) = 0
          · simp [PWMC_RecalcT1T2_OVM, OVM_ONE_POINT_ZERO, OVM_PI_DIV_6, ha, hb, hg, hs, cdiv32,
              e1, e2]
          · simp only [PWMC_RecalcT1T2_OVM, OVM_ONE_POINT_ZERO, OVM_PI_DIV_6, OVM_3_DIV_PI, ha, hb,
              hg, hs, cdiv32, e1, e2, reduceCtorEq, or_self, if_false, if_true, true_and,
              Option.bind_eq_bind, Option.some_bind, Option.pure_def, iff_false,
              show (32768 : Int) ≠ 0 by norm_num]
            split <;> simp

theorem recalc_linear_pass (time : Vector_Time_t) (mode : OVM_Mode_t) (gamma : Int)
    (hm : mode = OVM_LINEAR ∨ mode = OVM_1) (hs : toInt32 (time.T1 + time.T2) ≤ 32768) :
    PWMC_RecalcT1T2_OVM time mode gamma = some time := by
  have : ¬ (toInt32 (time.T1 + time.T2) > OVM_ONE_POINT_ZERO) := by
    simp only [OVM_ONE_POINT_ZERO]; omega
  simp [PWMC_RecalcT1T2_OVM, hm, this]

theorem recalc_linear_small (time : Vector_Time_t) (mode : OVM_Mode_t) (gamma : Int)
    (hm : mode = OVM_LINEAR ∨ mode = OVM_1) (h0 : -2147483648 ≤ time.T1 + time.T2)
    (hs : time.T1 + time.T2 ≤ 32768) :
    PWMC_RecalcT1T2_OVM time mode gamma = some time := by
  apply recalc_linear_pass time mode gamma hm
  rw [toInt32_of_range _ h0 (by omega)]
  exact hs

theorem recalc_linear_large (time : Vector_Time_t) (mode : OVM_Mode_t) (gamma : Int)
    (hm : mode = OVM_LINEAR ∨ mode = OVM_1) (h1 : 0 ≤ time.T1) (h2 : 0 ≤ time.T2)
    (hlt : time.T1 < 65536) (hs : 32768 < time.T1 + time.T2)
    (hfit : time.T1 + time.T2 ≤ 2147483647) :
    PWMC_RecalcT1T2_OVM time mode gamma
      = some { T1 := Int.tdiv (time.T1 * 32768) (time.T1 + time.T2),
               T2 := 32768 - Int.tdiv (time.T1 * 32768) (time.T1 + time.T2) } := by
  obtain ⟨b0, b1⟩ := rescale_bounds time.T1 time.T2 h1 h2 (by omega)
  have e1 : toInt32 (time.T1 + time.T2) = time.T1 + time.T2 :=
    toInt32_of_range _ (by omega) hfit
  have e2 : toInt32 (time.T1 * 32768) = time.T1 * 32768 :=
    toInt32_of_range _ (by omega) (by omega)
  have e3 : toInt32 (Int.tdiv (time.T1 * 32768) (time.T1 + time.T2))
      = Int.tdiv (time.T1 * 32768) (time.T1 + time.T2) :=
    toInt32_of_range _ (by omega) (by omega)
  have e4 : toInt32 (32768 - Int.tdiv (time.T1 * 32768) (time.T1 + time.T2))
      = 32768 - Int.tdiv (time.T1 * 32768) (time.T1 + time.T2) :=
    toInt32_of_range _ (by omega) (by omega)
  have h2' : time.T1 + time.T2 ≠ 0 := by omega
  have h3 : ¬ (time.T1 + time.T2 ≤ 32768) := by omega
  simp [PWMC_RecalcT1T2_OVM, hm, hs, cdiv32, h2', h3, OVM_ONE_POINT_ZERO, e1, e2, e3, e4]

theorem recalc_linear_wrapped (time : Vector_Time_t) (mode : OVM_Mode_t) (gamma : Int)
    (hm : mode = OVM_LINEAR ∨ mode = OVM_1) (h0 : 2147483647 < time.T1 + time.T2)
    (h1 : time.T1 + time.T2 ≤ 4294967295 + 32768) :
    PWMC_RecalcT1T2_OVM time mode gamma = some time := by
  apply recalc_linear_pass time mode gamma hm
  unfold toInt32
  omega

theorem recalc_error (time : Vector_Time_t) (gamma : Int) :
    PWMC_RecalcT1T2_OVM time OVM_ERROR gamma = some { T1 := 0, T2 := 0 } := by
  simp [PWMC_RecalcT1T2_OVM]

theorem recalc_ovm2_first (time : Vector_Time_t) (gamma : Int) (h : 32768 < time.T1) :
    PWMC_RecalcT1T2_OVM time OVM_2 gamma = some { T1 := 32768, T2 := 0 } := by
  have h3 : ¬ (time.T1 ≤ 32768) := by omega
  simp [PWMC_RecalcT1T2_OVM, h, h3, OVM_ONE_POINT_ZERO]

theorem recalc_ovm2_second (time : Vector_Time_t) (gamma : Int) (h : time.T1 ≤ 32768)
    (h2 : 32768 < time.T2) :
    PWMC_RecalcT1T2_OVM time OVM_2 gamma = some { T1 := 0, T2 := 32768 } := by
  have h1 : ¬ (32768 < time.T1) := by omega
  simp [PWMC_RecalcT1T2_OVM, h1, h2, OVM_ONE_POINT_ZERO]

theorem ovm2_gain_bounds (gamma : Int) (hg0 : 0 ≤ gamma) (hg1 : gamma < 17157) :
    32768 ≤ Int.tdiv (17157 * 32768) (17157 - gamma) ∧
      Int.tdiv (17157 * 32768) (17157 - gamma) ≤ 562200576 := by
  rw [tdiv_of_nonneg _ _ (by norm_num) (by omega)]
  constructor
  · apply Int.le_ediv_of_mul_le (by omega)
    omega
  · apply Int.ediv_le_of_le_mul (by omega)
    nlinarith

theorem ovm2_offset_bounds (gamma : Int) (hg0 : 0 ≤ gamma) (hg1 : gamma < 17157) :
    0 ≤ Int.tdiv (31291 * gamma) 32768 ∧ Int.tdiv (31291 * gamma) 32768 ≤ 16383 := by
  rw [tdiv_of_nonneg _ _ (by omega) (by norm_num)]
  omega

theorem recalc_ovm2_general (time : Vector_Time_t) (gamma : Int)
    (h1 : 0 ≤ time.T1) (h2 : 0 ≤ time.T2) (h : time.T1 ≤ 32768)
    (h2' : time.T2 ≤ 32768) (hs : time.T1 + time.T2 ≠ 0)
    (hg0 : 0 ≤ gamma) (hg1 : gamma < 17157) :
    PWMC_RecalcT1T2_OVM time OVM_2 gamma
      = some { T1 := min 32768 (ovm2Unclamped time gamma),
               T2 := 32768 - min 32768 (ovm2Unclamped time gamma) } := by
  obtain ⟨G0, G1⟩ := ovm2_gain_bounds gamma hg0 hg1
  obtain ⟨o0, o1⟩ := ovm2_offset_bounds gamma hg0 hg1
  obtain ⟨q0, q1⟩ := rescale_bounds time.T1 time.T2 h1 h2 (by omega)
  have a1 : ¬ time.T1 > OVM_ONE_POINT_ZERO := by simp only [OVM_ONE_POINT_ZERO]; omega
  have a3 : ¬ time.T2 > OVM_ONE_POINT_ZERO := by simp only [OVM_ONE_POINT_ZERO]; omega
  have e1 : toInt32 (31291 * gamma) = 31291 * gamma := toInt32_of_range _ (by omega) (by omega)
  have e2 : toInt32 (Int.tdiv (31291 * gamma) 32768) = Int.tdiv (31291 * gamma) 32768 :=
    toInt32_of_range _ (by omega) (by omega)
  have e3 : toInt32 (17157 * 32768) = 17157 * 32768 := by
    apply toInt32_of_range <;> norm_num
  have e4 : toInt32 (17157 - gamma) = 17157 - gamma := toInt32_of_range _ (by omega) (by omega)
  have e5 : toInt32 (Int.tdiv (17157 * 32768) (17157 - gamma))
      = Int.tdiv (17157 * 32768) (17157 - gamma) := toInt32_of_range _ (by omega) (by omega)
  have e6 : toInt32 (time.T1 + time.T2) = time.T1 + time.T2 :=
    toInt32_of_range _ (by omega) (by omega)
  have e7 : toInt32 (time.T1 * 32768) = time.T1 * 32768 :=
    toInt32_of_range _ (by omega) (by omega)
  have e8 : toInt32 (Int.tdiv (time.T1 * 32768) (time.T1 + time.T2))
      = Int.tdiv (time.T1 * 32768) (time.T1 + time.T2) := toInt32_of_range _ (by omega) (by omega)
  have e9 : toInt32 (Int.tdiv (time.T1 * 32768) (time.T1 + time.T2)
        - Int.tdiv (31291 * gamma) 32768)
      = Int.tdiv (time.T1 * 32768) (time.T1 + time.T2) - Int.tdiv (31291 * gamma) 32768 :=
    toInt32_of_range _ (by omega) (by omega)
  have h4 : (17157 : Int) - gamma ≠ 0 := by omega
  have h5 : (32768 : Int) ≠ 0 := by norm_num
  simp only [PWMC_RecalcT1T2_OVM, OVM_3_DIV_PI, OVM_ONE_POINT_ZERO, OVM_PI_DIV_6, cdiv32,
    e1, e2, e3, e4, e5, e6, e7, e8, e9, h4, h5, hs, if_false, reduceCtorEq, false_or, if_true,
    Option.bind_eq_bind, Option.some_bind, Option.pure_def, gt_iff_lt,
    show ¬ (32768 < time.T1) by omega, show ¬ (32768 < time.T2) by omega, ovm2Unclamped]
  generalize hq : Int.tdiv (time.T1 * 32768) (time.T1 + time.T2) = q at q0 q1
  generalize ho : Int.tdiv (31291 * gamma) 32768 = o at o0 o1
  generalize hG : Int.tdiv (17157 * 32768) (17157 - gamma) = G at G0 G1
  have t0 : 0 ≤ (if q - o < 0 then 0 else q - o) := by split <;> omega
  have t1 : (if q - o < 0 then 0 else q - o) ≤ 32768 := by split <;> omega
  generalize ht : (if q - o < 0 then 0 else q - o) = t at t0 t1
  have e12 : ∀ x : Int, 0 ≤ x → x ≤ 32768 → toInt32 (32768 - x) = 32768 - x :=
    fun x x0 x1 => toInt32_of_range _ (by omega) (by omega)
  by_cases hgt : 32768 < G
  · have g0 : 1 ≤ Int.tdiv G 32768 ∧ Int.tdiv G 32768 ≤ 17157 := by
      rw [tdiv_of_nonneg _ _ (by omega) (by norm_num)]
      omega
    have e10 : toInt32 (Int.tdiv G 32768) = Int.tdiv G 32768 :=
      toInt32_of_range _ (by omega) (by omega)
    have p0 : 0 ≤ t * Int.tdiv G 32768 := mul_nonneg t0 (by omega)
    have p1 : t * Int.tdiv G 32768 ≤ 32768 * 17157 :=
      mul_le_mul t1 g0.2 (by omega) (by norm_num)
    have e11 : toInt32 (t * Int.tdiv G 32768) = t * Int.tdiv G 32768 :=
      toInt32_of_range _ (by omega) (by omega)
    simp only [hgt, if_true, Option.some_bind, e10, e11]
    generalize t * Int.tdiv G 32768 = p at p0 p1
    by_cases hc : 32768 < p
    · rw [if_pos hc, min_eq_left (by omega), e12 32768 (by norm_num) (by norm_num)]
    · rw [if_neg hc, min_eq_right (by omega), e12 p p0 (by omega)]
  · have GG : G = 32768 := by omega
    subst GG
    have p0 : 0 ≤ t * 32768 := by omega
    have e10 : toInt32 (t * 32768) = t * 32768 := toInt32_of_range _ (by omega) (by omega)
    have e11 : Int.tdiv (t * 32768) 32768 = t := by
      rw [tdiv_of_nonneg _ _ p0 (by norm_num)]
      omega
    have e13 : toInt32 t = t := toInt32_of_range _ (by omega) (by omega)
    have hc : ¬ (32768 < t) := by omega
    simp only [hgt, if_false, e10, e11, e13, Option.some_bind]
    rw [if_neg hc, min_eq_right (by omega), e12 t t0 t1]


theorem ovm2Unclamped_nonneg (time : Vector_Time_t) (gamma : Int)
    (hg0 : 0 ≤ gamma) (hg1 : gamma < 17157) : 0 ≤ ovm2Unclamped time gamma := by
  have hgain : 0 ≤ Int.tdiv (17157 * 32768) (17157 - gamma) :=
    Int.tdiv_nonneg (by norm_num) (by omega)
  simp only [ovm2Unclamped]
  split
  · apply mul_nonneg
    · split <;> omega
    · exact Int.tdiv_nonneg hgain (by norm_num)
  · apply Int.tdiv_nonneg _ (by norm_num)
    apply mul_nonneg _ hgain
    split <;> omega

theorem recalc_bounds (time : Vector_Time_t) (mode : OVM_Mode_t) (gamma : Int)
    (h1 : 0 ≤ time.T1) (h2 : 0 ≤ time.T2)
    (hl : mode = OVM_LINEAR ∨ mode = OVM_1 →
      time.T1 < 65536 ∧ time.T1 + time.T2 ≤ 2147483647)
    (hg : mode = OVM_2 → 0 ≤ gamma ∧ gamma < 17157)
    (hs : mode = OVM_2 → time.T1 + time.T2 ≠ 0) :
    ∃ r, PWMC_RecalcT1T2_OVM time mode gamma = some r ∧
      0 ≤ r.T1 ∧ 0 ≤ r.T2 ∧ r.T1 + r.T2 ≤ 32768 := by
  cases mode with
  | OVM_LINEAR =>
    obtain ⟨l1, l2⟩ := hl (Or.inl rfl)
    by_cases hle : time.T1 + time.T2 ≤ 32768
    · exact ⟨time, recalc_linear_small time _ gamma (Or.inl rfl) (by omega) hle, h1, h2, hle⟩
    · obtain ⟨b1, b2⟩ := rescale_bounds time.T1 time.T2 h1 h2 (by omega)
      exact ⟨_, recalc_linear_large time _ gamma (Or.inl rfl) h1 h2 l1 (by omega) l2, b1,
        by simp; omega, by simp⟩
  | OVM_1 =>
    obtain ⟨l1, l2⟩ := hl (Or.inr rfl)
    by_cases hle : time.T1 + time.T2 ≤ 32768
    · exact ⟨time, recalc_linear_small time _ gamma (Or.inr rfl) (by omega) hle, h1, h2, hle⟩
    · obtain ⟨b1, b2⟩ := rescale_bounds time.T1 time.T2 h1 h2 (by omega)
      exact ⟨_, recalc_linear_large time _ gamma (Or.inr rfl) h1 h2 l1 (by omega) l2, b1,
        by simp; omega, by simp⟩
  | OVM_2 =>
    obtain ⟨g0, g1⟩ := hg rfl
    by_cases ha : 32768 < time.T1
    · exact ⟨_, recalc_ovm2_first time gamma ha, by simp, by simp, by simp⟩
    · by_cases hb : 32768 < time.T2
      · exact ⟨_, recalc_ovm2_second time gamma (by omega) hb, by simp, by simp, by simp⟩
      · have hn := ovm2Unclamped_nonneg time gamma g0 g1
        refine ⟨_, recalc_ovm2_general time gamma h1 h2 (by omega) (by omega) (hs rfl) g0 g1,
          ?_, ?_, ?_⟩
        · simp only; exact le_min (by norm_num) hn
        · simp only; have := min_le_left (32768 : Int) (ovm2Unclamped time gamma); omega
        · simp
  | OVM_ERROR =>
    exact ⟨_, recalc_error time gamma, by simp, by simp, by simp⟩

theorem recalc_defined (time : Vector_Time_t) (mode : OVM_Mode_t) (gamma : Int)
    (h1 : 0 ≤ time.T1) (h2 : 0 ≤ time.T2)
    (hg : mode = OVM_2 → 0 ≤ gamma ∧ gamma < 17157)
    (hs : mode = OVM_2 → time.T1 + time.T2 ≠ 0) :
    ∃ r, PWMC_RecalcT1T2_OVM time mode gamma = some r := by
  cases h : PWMC_RecalcT1T2_OVM time mode gamma with
  | some r => exact ⟨r, rfl⟩
  | none =>
    exfalso
    obtain ⟨hm, a, b, hz⟩ := (recalc_none_iff _ _ _).mp h
    obtain ⟨g0, g1⟩ := hg hm
    rcases hz with hz | hz
    · rw [toInt32_of_range _ (by omega) (by omega)] at hz
      exact hs hm hz
    · rw [toInt32_of_range _ (by omega) (by omega)] at hz
      omega

theorem sectorDuties_defined (P : Nat) (t : Vector_Time_t) (s : Sector) :
    ∃ d, sectorDuties P t s = some d := by
  cases s <;> simp [sectorDuties, dutyCount, cdiv]

theorem aOVMGain_length : aOVMGain.length = 192 := by rfl

theorem aOVMGamma_length : aOVMGamma.length = 100 := by rfl

set_option maxRecDepth 100000 in
theorem aOVMGamma_range : ∀ g ∈ aOVMGamma, 52 ≤ g ∧ g ≤ 17125 := by
  decide

theorem toInt16_of_range (x : Int) (h0 : -32768 ≤ x) (h1 : x ≤ 32767) : toInt16 x = x := by
  unfold toInt16; omega

theorem tableAt_gain (i : Int) (h0 : 0 ≤ i) (h1 : i < 192) :
    ∃ g, tableAt aOVMGain i = some g := by
  have hl : i.toNat < aOVMGain.length := by rw [aOVMGain_length]; omega
  exact ⟨aOVMGain[i.toNat], by simp [tableAt, not_lt.mpr h0, List.getElem?_eq_getElem hl]⟩

theorem tableAt_gamma (i : Int) (h0 : 0 ≤ i) (h1 : i < 100) :
    ∃ g, tableAt aOVMGamma i = some g ∧ 52 ≤ g ∧ g ≤ 17125 := by
  have hl : i.toNat < aOVMGamma.length := by rw [aOVMGamma_length]; omega
  refine ⟨aOVMGamma[i.toNat], by simp [tableAt, not_lt.mpr h0, List.getElem?_eq_getElem hl], ?_⟩
  exact aOVMGamma_range _ (List.getElem_mem hl)

theorem gainIndex_range (vref : Int) (h0 : 29717 ≤ vref) (h1 : vref < 32768) :
    gainIndex vref = (vref - 29717) / 16 ∧ 0 ≤ gainIndex vref ∧ gainIndex vref ≤ 190 := by
  unfold gainIndex
  rw [tdiv_of_nonneg _ _ (by omega) (by norm_num), toInt16_of_range _ (by omega) (by omega)]
  omega


theorem ovmCorrect_linear (alpha beta vref gama0 : Int) (h : vref < 29717) :
    ovmCorrect alpha beta vref gama0
      = some { wUAlpha := alpha, wUBeta := beta, ovm_mode_flag := OVM_LINEAR, gama := gama0 } := by
  simp [ovmCorrect, OVM_VREF_MODE1_START, h]

theorem ovmCorrect_error (alpha beta vref gama0 : Int) (h : 32768 ≤ vref) :
    ovmCorrect alpha beta vref gama0
      = some { wUAlpha := 0, wUBeta := 0, ovm_mode_flag := OVM_ERROR, gama := gama0 } := by
  have h1 : ¬ vref < 29717 := by omega
  have h2 : ¬ vref < 31186 := by omega
  have h3 : ¬ vref < 32768 := by omega
  simp [ovmCorrect, OVM_VREF_MODE1_START, OVM_VREF_MODE2_START, OVM_VREF_MODE2_END, h1, h2, h3]

theorem ovmCorrect_ovm1 (alpha beta vref gama0 : Int) (h0 : 29717 ≤ vref) (h1 : vref < 31186) :
    ∃ g, tableAt aOVMGain (gainIndex vref) = some g ∧
      ovmCorrect alpha beta vref gama0
        = some { wUAlpha := Int.tdiv (alpha * g) 32768, wUBeta := Int.tdiv (beta * g) 32768,
                 ovm_mode_flag := OVM_1, gama := gama0 } := by
  obtain ⟨_, i0, i1⟩ := gainIndex_range vref h0 (by omega)
  obtain ⟨g, hg⟩ := tableAt_gain (gainIndex vref) i0 (by omega)
  refine ⟨g, hg, ?_⟩
  have hn : ¬ vref < 29717 := by omega
  unfold gainIndex at hg
  simp [ovmCorrect, OVM_VREF_MODE1_START, OVM_VREF_MODE2_START, OVM_VREF_INDEX_STEP,
    OVM_ONE_POINT_ZERO, hn, h1, cdiv, hg]

theorem ovmCorrect_ovm2 (alpha beta vref gama0 : Int) (h0 : 31186 ≤ vref) (h1 : vref < 32768) :
    ∃ g gm, tableAt aOVMGain (gainIndex vref) = some g ∧
      tableAt aOVMGamma (gammaIndex vref) = some gm ∧ 52 ≤ gm ∧ gm ≤ 17125 ∧
      ovmCorrect alpha beta vref gama0
        = some { wUAlpha := Int.tdiv (alpha * g) 32768, wUBeta := Int.tdiv (beta * g) 32768,
                 ovm_mode_flag := OVM_2, gama := gm } := by
  obtain ⟨_, i0, i1⟩ := gainIndex_range vref (by omega) h1
  obtain ⟨g, hg⟩ := tableAt_gain (gainIndex vref) i0 (by omega)
  have hi : 0 ≤ gammaIndex vref ∧ gammaIndex vref < 100 := by
    unfold gammaIndex; split <;> omega
  obtain ⟨gm, hgm, b0, b1⟩ := tableAt_gamma (gammaIndex vref) hi.1 hi.2
  refine ⟨g, gm, hg, hgm, b0, b1, ?_⟩
  have hn : ¬ vref < 29717 := by omega
  have hn2 : ¬ vref < 31186 := by omega
  unfold gammaIndex at hgm
  unfold gainIndex at hg hgm
  by_cases hc : 92 < toInt16 (Int.tdiv (vref - 29717) 16)
  · simp only [gt_iff_lt, hc, if_true] at hgm
    simp [ovmCorrect, OVM_VREF_MODE1_START, OVM_VREF_MODE2_START, OVM_VREF_MODE2_END,
      OVM_VREF_INDEX_STEP, OVM_ONE_POINT_ZERO, OVM_GAMMA_ARRAY_OFFSET, hn, hn2, h1, cdiv, hg,
      hc, hgm]
  · simp only [gt_iff_lt, hc, if_false] at hgm
    simp [ovmCorrect, OVM_VREF_MODE1_START, OVM_VREF_MODE2_START, OVM_VREF_MODE2_END,
      OVM_VREF_INDEX_STEP, OVM_ONE_POINT_ZERO, OVM_GAMMA_ARRAY_OFFSET, hn, hn2, h1, cdiv, hg,
      hc, hgm]

theorem ovmCorrect_total (alpha beta vref gama0 : Int) :
    ∃ c, ovmCorrect alpha beta vref gama0 = some c ∧ c.ovm_mode_flag = regimeOf vref ∧
      (c.ovm_mode_flag = OVM_2 → 52 ≤ c.gama ∧ c.gama ≤ 17125) := by
  by_cases h1 : vref < 29717
  · exact ⟨_, ovmCorrect_linear alpha beta vref gama0 h1, by simp [regimeOf, h1], by simp⟩
  · by_cases h2 : vref < 31186
    · obtain ⟨g, _, hc⟩ := ovmCorrect_ovm1 alpha beta vref gama0 (by omega) h2
      exact ⟨_, hc, by simp [regimeOf, h1, h2], by simp⟩
    · by_cases h3 : vref < 32768
      · obtain ⟨g, gm, _, _, b0, b1, hc⟩ := ovmCorrect_ovm2 alpha beta vref gama0 (by omega) h3
        exact ⟨_, hc, by simp [regimeOf, h1, h2, h3], fun _ => ⟨b0, b1⟩⟩
      · exact ⟨_, ovmCorrect_error alpha beta vref gama0 (by omega),
          by simp [regimeOf, h1, h2, h3], by simp⟩

theorem sectorDecision_total (a b : Int) :
    ∃ k, sectorDecision a b = some k ∧ 0 ≤ k.raw.T1 ∧ 0 ≤ k.raw.T2 := by
  simp only [sectorDecision, cdiv, OVM_ONE_POINT_ZERO, OVM_1_DIV_SQRT3]
  simp only [show (32768 : Int) ≠ 0 by norm_num, if_false, Option.bind_eq_bind, Option.some_bind,
    Option.pure_def]
  generalize Int.tdiv (-b * 18919) 32768 = n
  split
  · split
    · exact ⟨_, rfl, by simp only; omega, by simp only; omega⟩
    · split
      · exact ⟨_, rfl, by simp only; omega, by simp only; omega⟩
      · exact ⟨_, rfl, by simp only; omega, by simp only; omega⟩
  · split
    · exact ⟨_, rfl, by simp only; omega, by simp only; omega⟩
    · split
      · exact ⟨_, rfl, by simp only; omega, by simp only; omega⟩
      · exact ⟨_, rfl, by simp only; omega, by simp only; omega⟩


theorem setPhaseVoltage_some (MCM_Sqrt : Int → Int) (samp : PWMC_Handle_t → Nat) (gama0 : Int)
    (pHandle : PWMC_Handle_t) (alpha beta : Int) (r : OvmResult)
    (h : PWMC_SetPhaseVoltage_OVM MCM_Sqrt samp gama0 pHandle alpha beta = some r) :
    r.vref = MCM_Sqrt (alpha * alpha + beta * beta) ∧
    ovmCorrect alpha beta r.vref gama0 = some r.corrected ∧
    sectorDecision r.corrected.wUAlpha r.corrected.wUBeta = some r.choice ∧
    PWMC_RecalcT1T2_OVM r.choice.raw r.corrected.ovm_mode_flag (toInt16 r.corrected.gama)
      = some r.vector_time ∧
    sectorDuties pHandle.PWMperiod r.vector_time r.choice.sector = some r.duties ∧
    r.handle = storeDuties pHandle r.choice.sector r.duties ∧
    r.ret = samp r.handle := by
  simp only [PWMC_SetPhaseVoltage_OVM, Option.bind_eq_bind, Option.pure_def,
    Option.bind_eq_some, Option.some.injEq] at h
  obtain ⟨c, hc, k, hk, vt, hv, d, hd, rfl⟩ := h
  exact ⟨rfl, hc, hk, hv, hd, rfl, rfl⟩

theorem setPhaseVoltage_of_stages (MCM_Sqrt : Int → Int) (samp : PWMC_Handle_t → Nat)
    (gama0 : Int) (pHandle : PWMC_Handle_t) (alpha beta : Int)
    (c : Corrected) (k : SectorChoice) (vt : Vector_Time_t) (d : Duties)
    (hc : ovmCorrect alpha beta (MCM_Sqrt (alpha * alpha + beta * beta)) gama0 = some c)
    (hk : sectorDecision c.wUAlpha c.wUBeta = some k)
    (hv : PWMC_RecalcT1T2_OVM k.raw c.ovm_mode_flag (toInt16 c.gama) = some vt)
    (hd : sectorDuties pHandle.PWMperiod vt k.sector = some d) :
    PWMC_SetPhaseVoltage_OVM MCM_Sqrt samp gama0 pHandle alpha beta
      = some { vref := MCM_Sqrt (alpha * alpha + beta * beta), corrected := c, choice := k,
               vector_time := vt, duties := d, handle := storeDuties pHandle k.sector d,
               ret := samp (storeDuties pHandle k.sector d) } := by
  simp [PWMC_SetPhaseVoltage_OVM, hc, hk, hv, hd, storeDuties]

theorem toUInt16_of_range (x : Int) (h0 : 0 ≤ x) (h1 : x ≤ 65535) : (toUInt16 x : Int) = x := by
  unfold toUInt16
  rw [Int.toNat_of_nonneg (by omega)]
  omega


theorem recalc_some_bounds (time : Vector_Time_t) (mode : OVM_Mode_t) (gamma : Int)
    (r : Vector_Time_t) (h1 : 0 ≤ time.T1) (h2 : 0 ≤ time.T2)
    (hl : mode = OVM_LINEAR ∨ mode = OVM_1 →
      time.T1 < 65536 ∧ time.T1 + time.T2 ≤ 2147483647)
    (hg : mode = OVM_2 → 0 ≤ gamma ∧ gamma < 17157)
    (hr : PWMC_RecalcT1T2_OVM time mode gamma = some r) :
    0 ≤ r.T1 ∧ 0 ≤ r.T2 ∧ r.T1 + r.T2 ≤ 32768 := by
  by_cases hs : mode = OVM_2 → time.T1 + time.T2 ≠ 0
  · obtain ⟨r', hr', b⟩ := recalc_bounds time mode gamma h1 h2 hl hg hs
    rw [hr] at hr'
    cases hr'
    exact b
  · exfalso
    push_neg at hs
    obtain ⟨hm, h0⟩ := hs
    have hn : PWMC_RecalcT1T2_OVM time mode gamma = none :=
      (recalc_none_iff time mode gamma).mpr
        ⟨hm, by omega, by omega, Or.inl (by rw [h0]; unfold toInt32; omega)⟩
    rw [hn] at hr
    cases hr

theorem recalc_ovm2_zero_sum (gamma : Int) :
    PWMC_RecalcT1T2_OVM { T1 := 0, T2 := 0 } OVM_2 gamma = none :=
  (recalc_none_iff _ _ _).mpr
    ⟨rfl, by norm_num, by norm_num, Or.inl (by unfold toInt32; norm_num)⟩

theorem setPhaseVoltage_defined (MCM_Sqrt : Int → Int) (samp : PWMC_Handle_t → Nat)
    (gama0 : Int) (pHandle : PWMC_Handle_t) (alpha beta : Int)
    (c : Corrected) (k : SectorChoice)
    (hc : ovmCorrect alpha beta (MCM_Sqrt (alpha * alpha + beta * beta)) gama0 = some c)
    (hk : sectorDecision c.wUAlpha c.wUBeta = some k)
    (hs : c.ovm_mode_flag = OVM_2 → k.raw.T1 + k.raw.T2 ≠ 0) :
    ∃ r, PWMC_SetPhaseVoltage_OVM MCM_Sqrt samp gama0 pHandle alpha beta = some r ∧
      r.corrected = c ∧ r.choice = k := by
  obtain ⟨c', hc', _, hgam⟩ :=
    ovmCorrect_total alpha beta (MCM_Sqrt (alpha * alpha + beta * beta)) gama0
  rw [hc] at hc'; cases hc'
  obtain ⟨k', hk', r1, r2⟩ := sectorDecision_total c.wUAlpha c.wUBeta
  rw [hk] at hk'; cases hk'
  have hg : c.ovm_mode_flag = OVM_2 → 0 ≤ toInt16 c.gama ∧ toInt16 c.gama < 17157 := by
    intro hm
    obtain ⟨g0, g1⟩ := hgam hm
    rw [toInt16_of_range _ (by omega) (by omega)]
    omega
  obtain ⟨vt, hv⟩ := recalc_defined k.raw c.ovm_mode_flag (toInt16 c.gama) r1 r2 hg hs
  obtain ⟨d, hd⟩ := sectorDuties_defined pHandle.PWMperiod vt k.sector
  exact ⟨_, setPhaseVoltage_of_stages MCM_Sqrt samp gama0 pHandle alpha beta c k vt d hc hk hv hd,
    rfl, rfl⟩

theorem int_sqrt_le (x : Int) (hx : 0 ≤ x) : Int.sqrt x ≤ x := by
  unfold Int.sqrt
  have := Nat.sqrt_le_self x.toNat
  omega


/-- C5: the regime chosen by `PWMC_SetPhaseVoltage_OVM` depends on `vref` alone:
the selection always succeeds, gives `OVM_LINEAR` iff `vref < 29717`, `OVM_1`
iff `29717 ≤ vref < 31186`, `OVM_2` iff `31186 ≤ vref < 32768` and `OVM_ERROR`
iff `vref ≥ 32768`; in the linear regime the corrected vector is the input
vector; `vref = 29716` is linear and `vref = 29717` is mode 1; and the locals
of every completed call are those of this selection at
`vref = MCM_Sqrt (alpha² + beta²)`. -/
theorem regime_selected_by_vref (alpha beta vref gama0 : Int) :
    (∃ c, ovmCorrect alpha beta vref gama0 = some c ∧
      (c.ovm_mode_flag = OVM_LINEAR ↔ vref < 29717) ∧
      (c.ovm_mode_flag = OVM_1 ↔ 29717 ≤ vref ∧ vref < 31186) ∧
      (c.ovm_mode_flag = OVM_2 ↔ 31186 ≤ vref ∧ vref < 32768) ∧
      (c.ovm_mode_flag = OVM_ERROR ↔ 32768 ≤ vref) ∧
      (c.ovm_mode_flag = OVM_LINEAR → c.wUAlpha = alpha ∧ c.wUBeta = beta)) ∧
    (ovmCorrect alpha beta 29716 gama0).map (fun c => c.ovm_mode_flag) = some OVM_LINEAR ∧
    (ovmCorrect alpha beta 29717 gama0).map (fun c => c.ovm_mode_flag) = some OVM_1 ∧
    (∀ (MCM_Sqrt : Int → Int) (samp : PWMC_Handle_t → Nat) (pHandle : PWMC_Handle_t)
        (r : OvmResult),
      PWMC_SetPhaseVoltage_OVM MCM_Sqrt samp gama0 pHandle alpha beta = some r →
      ovmCorrect alpha beta (MCM_Sqrt (alpha * alpha + beta * beta)) gama0 = some r.corrected) := by
  refine ⟨?_, ?_, ?_, ?_⟩
  · by_cases h1 : vref < 29717
    · refine ⟨_, ovmCorrect_linear alpha beta vref gama0 h1, ?_⟩
      simp [h1]
      omega
    · by_cases h2 : vref < 31186
      · obtain ⟨g, _, hc⟩ := ovmCorrect_ovm1 alpha beta vref gama0 (by omega) h2
        refine ⟨_, hc, ?_⟩
        simp [h1, h2]
        omega
      · by_cases h3 : vref < 32768
        · obtain ⟨g, gm, _, _, _, _, hc⟩ := ovmCorrect_ovm2 alpha beta vref gama0 (by omega) h3
          refine ⟨_, hc, ?_⟩
          simp [h1, h2, h3]
          omega
        · refine ⟨_, ovmCorrect_error alpha beta vref gama0 (by omega), ?_⟩
          simp [h1, h2, h3]
          omega
  · rw [ovmCorrect_linear alpha beta 29716 gama0 (by norm_num)]
    rfl
  · obtain ⟨g, _, hc⟩ := ovmCorrect_ovm1 alpha beta 29717 gama0 (by norm_num) (by norm_num)
    rw [hc]
    rfl
  · intro MCM_Sqrt samp pHandle r h
    obtain ⟨hv, hc, _⟩ := setPhaseVoltage_some MCM_Sqrt samp gama0 pHandle alpha beta r h
    rw [← hv]
    exact hc

theorem setPhaseVoltage_linear_sector (samp : PWMC_Handle_t → Nat) (gama0 : Int)
    (pHandle : PWMC_Handle_t) (alpha beta : Int) (k : SectorChoice)
    (hv : 0 ≤ alpha * alpha + beta * beta) (hlt : alpha * alpha + beta * beta < 29717)
    (hk : sectorDecision alpha beta = some k) :
    ∃ r, PWMC_SetPhaseVoltage_OVM Int.sqrt samp gama0 pHandle alpha beta = some r ∧
      r.handle.Sector = k.sector := by
  have hs := int_sqrt_le _ hv
  have hc := ovmCorrect_linear alpha beta (Int.sqrt (alpha * alpha + beta * beta)) gama0
    (by omega)
  obtain ⟨r, hr, _, hrk⟩ := setPhaseVoltage_defined Int.sqrt samp gama0 pHandle alpha beta _ k
    hc hk (by simp)
  refine ⟨r, hr, ?_⟩
  obtain ⟨_, _, _, _, _, hh, _⟩ := setPhaseVoltage_some Int.sqrt samp gama0 pHandle alpha beta r hr
  rw [hh, hrk]
  rfl

/-- C7: the sector decision tree of `PWMC_SetPhaseVoltage_OVM` is a partition
into six regions: for every corrected vector `(wUAlpha, wUBeta)`, zero
crossings included, exactly one sector is chosen; the handle of a completed
call stores that sector; and each of `SECTOR_1` to `SECTOR_6` is stored for
some int16 input `(alpha, beta)` (with the floor square root as `MCM_Sqrt`). -/
theorem sector_partition :
    (∀ wUAlpha wUBeta : Int,
      ∃! s : Sector, (sectorDecision wUAlpha wUBeta).map (fun k => k.sector) = some s) ∧
    (∀ (MCM_Sqrt : Int → Int) (samp : PWMC_Handle_t → Nat) (gama0 : Int)
        (pHandle : PWMC_Handle_t) (alpha beta : Int) (r : OvmResult),
      PWMC_SetPhaseVoltage_OVM MCM_Sqrt samp gama0 pHandle alpha beta = some r →
      (sectorDecision r.corrected.wUAlpha r.corrected.wUBeta).map (fun k => k.sector)
        = some r.handle.Sector) ∧
    (∀ s : Sector, ∃ alpha beta : Int,
      (-32768 ≤ alpha ∧ alpha ≤ 32767) ∧ (-32768 ≤ beta ∧ beta ≤ 32767) ∧
      ∃ r, PWMC_SetPhaseVoltage_OVM Int.sqrt (fun _ => 0) 0 sampleHandle alpha beta = some r ∧
        r.handle.Sector = s) := by
  refine ⟨?_, ?_, ?_⟩
  · intro a b
    obtain ⟨k, hk, _⟩ := sectorDecision_total a b
    refine ⟨k.sector, by simp [hk], ?_⟩
    intro s hs
    simpa [hk] using hs.symm
  · intro MCM_Sqrt samp gama0 pHandle alpha beta r h
    obtain ⟨_, _, hk, _, _, hh, _⟩ :=
      setPhaseVoltage_some MCM_Sqrt samp gama0 pHandle alpha beta r h
    rw [hk, hh]
    rfl
  · intro s
    cases s
    · exact ⟨2, -2, by decide, by decide,
        setPhaseVoltage_linear_sector _ 0 sampleHandle 2 (-2)
          { wX := 2, wY := 3, wZ := -1, sector := SECTOR_1, raw := { T1 := 1, T2 := 2 } }
          (by decide) (by decide) (by rfl)⟩
    · exact ⟨0, 0, by decide, by decide,
        setPhaseVoltage_linear_sector _ 0 sampleHandle 0 0
          { wX := 0, wY := 0, wZ := 0, sector := SECTOR_2, raw := { T1 := 0, T2 := 0 } }
          (by decide) (by decide) (by rfl)⟩
    · exact ⟨-2, -2, by decide, by decide,
        setPhaseVoltage_linear_sector _ 0 sampleHandle (-2) (-2)
          { wX := 2, wY := -1, wZ := 3, sector := SECTOR_3, raw := { T1 := 2, T2 := 1 } }
          (by decide) (by decide) (by rfl)⟩
    · exact ⟨-2, 2, by decide, by decide,
        setPhaseVoltage_linear_sector _ 0 sampleHandle (-2) 2
          { wX := -2, wY := -3, wZ := 1, sector := SECTOR_4, raw := { T1 := 1, T2 := 2 } }
          (by decide) (by decide) (by rfl)⟩
    · exact ⟨0, 2, by decide, by decide,
        setPhaseVoltage_linear_sector _ 0 sampleHandle 0 2
          { wX := -2, wY := -1, wZ := -1, sector := SECTOR_5, raw := { T1 := 1, T2 := 1 } }
          (by decide) (by decide) (by rfl)⟩
    · exact ⟨2, 2, by decide, by decide,
        setPhaseVoltage_linear_sector _ 0 sampleHandle 2 2
          { wX := -2, wY := 1, wZ := -3, sector := SECTOR_6, raw := { T1 := 2, T2 := 1 } }
          (by decide) (by decide) (by rfl)⟩

/-- C8 (as stated, refuted): for `T1 = 1`, `T2 = 2147483647` in mode
`OVM_LINEAR` (so `T1, T2 ≥ 0`, `T1 < 65536` and `T1 + T2 > 32768`) the 32-bit
sum `T1 + T2` is `-2147483648`, the test `sum_t1_t2 > 32768` fails and the
input is returned unchanged: the result is not the rescaled pair and does not
sum to 32768. -/
theorem recalc_sum_wraps_at_int32_max :
    ((0 : Int) ≤ 1 ∧ (0 : Int) ≤ 2147483647 ∧ (1 : Int) < 65536 ∧
      (32768 : Int) < 1 + 2147483647) ∧
    toInt32 (1 + 2147483647) = -2147483648 ∧
    PWMC_RecalcT1T2_OVM { T1 := 1, T2 := 2147483647 } OVM_LINEAR 0
      = some { T1 := 1, T2 := 2147483647 } ∧
    ¬ ∃ r, PWMC_RecalcT1T2_OVM { T1 := 1, T2 := 2147483647 } OVM_LINEAR 0 = some r ∧
        r.T1 = Int.tdiv (1 * 32768) (1 + 2147483647) ∧ r.T2 = 32768 - r.T1 ∧
        r.T1 + r.T2 = 32768 := by
  have he : PWMC_RecalcT1T2_OVM { T1 := 1, T2 := 2147483647 } OVM_LINEAR 0
      = some { T1 := 1, T2 := 2147483647 } :=
    recalc_linear_wrapped _ _ _ (Or.inl rfl) (by norm_num) (by norm_num)
  refine ⟨by norm_num, by unfold toInt32; norm_num, he, ?_⟩
  rintro ⟨r, hr, _, _, hsum⟩
  rw [he] at hr
  cases hr
  norm_num at hsum

/-- C8 (amended): for mode `OVM_LINEAR` or `OVM_1` and `int32_t` values
`T1, T2 ≥ 0` with `T1 < 65536`, `PWMC_RecalcT1T2_OVM` returns `(T1, T2)`
unchanged when `T1 + T2 ≤ 32768`; when `32768 < T1 + T2 ≤ 2147483647` it
returns `T1' = trunc(T1 * 32768 / (T1 + T2))`, `T2' = 32768 - T1'`, so that
`T1' + T2' = 32768` with both in `0..32768`; and when `T1 + T2 > 2147483647`
the 32-bit sum is negative and `(T1, T2)` is returned unchanged.  The product
`T1 * 32768` fits in 32 bits. -/
theorem recalc_linear_rescale (time : Vector_Time_t) (mode : OVM_Mode_t) (gamma : Int)
    (hm : mode = OVM_LINEAR ∨ mode = OVM_1)
    (h1 : 0 ≤ time.T1) (h2 : 0 ≤ time.T2) (hlt : time.T1 < 65536)
    (hT2 : time.T2 ≤ 2147483647) :
    (time.T1 + time.T2 ≤ 32768 → PWMC_RecalcT1T2_OVM time mode gamma = some time) ∧
    (32768 < time.T1 + time.T2 → time.T1 + time.T2 ≤ 2147483647 →
      ∃ r, PWMC_RecalcT1T2_OVM time mode gamma = some r ∧
        r.T1 = Int.tdiv (time.T1 * 32768) (time.T1 + time.T2) ∧
        r.T2 = 32768 - r.T1 ∧ r.T1 + r.T2 = 32768 ∧
        0 ≤ r.T1 ∧ r.T1 ≤ 32768 ∧ 0 ≤ r.T2 ∧ r.T2 ≤ 32768) ∧
    (2147483647 < time.T1 + time.T2 →
      toInt32 (time.T1 + time.T2) < 0 ∧ PWMC_RecalcT1T2_OVM time mode gamma = some time) ∧
    time.T1 * 32768 < 2 ^ 31 := by
  refine ⟨fun hs => recalc_linear_small time mode gamma hm (by omega) hs, ?_, ?_, by omega⟩
  · intro hs hfit
    obtain ⟨b1, b2⟩ := rescale_bounds time.T1 time.T2 h1 h2 (by omega)
    refine ⟨_, recalc_linear_large time mode gamma hm h1 h2 hlt hs hfit, rfl, rfl, by simp,
      b1, b2, ?_, ?_⟩
    · simp only; omega
    · simp only; omega
  · intro hs
    refine ⟨by unfold toInt32; omega,
      recalc_linear_wrapped time mode gamma hm hs (by omega)⟩

/-- Witness of `recalc_linear_rescale` at `T1 = 40000`, `T2 = 20000`. -/
theorem recalc_linear_rescale_witness :
    ((0 : Int) ≤ 40000 ∧ (0 : Int) ≤ 20000 ∧ (40000 : Int) < 65536 ∧
      (20000 : Int) ≤ 2147483647) ∧
    ∃ r, PWMC_RecalcT1T2_OVM { T1 := 40000, T2 := 20000 } OVM_LINEAR 0 = some r ∧
      r.T1 + r.T2 = 32768 := by
  obtain ⟨r, hr, _, _, hsum, _⟩ :=
    (recalc_linear_rescale { T1 := 40000, T2 := 20000 } OVM_LINEAR 0 (Or.inl rfl)
      (by decide) (by decide) (by decide) (by decide)).2.1 (by decide) (by decide)
  exact ⟨⟨by decide, by decide, by decide, by decide⟩, r, hr, hsum⟩

/-- C9: for mode `OVM_2`, `T1, T2 ≥ 0` with `T1 + T2 > 0` and
`0 ≤ gamma < 17157`, `PWMC_RecalcT1T2_OVM` returns `T1'` with
`0 ≤ T1' ≤ 32768` and `T2' = 32768 - T1'`: the result is `(32768, 0)` when
`T1 > 32768`, `(0, 32768)` when `T2 > 32768` (and `T1 ≤ 32768`), and the
clamped gain/offset value otherwise. -/
theorem recalc_ovm2_range (time : Vector_Time_t) (gamma : Int)
    (h1 : 0 ≤ time.T1) (h2 : 0 ≤ time.T2) (hs : 0 < time.T1 + time.T2)
    (hg0 : 0 ≤ gamma) (hg1 : gamma < 17157) :
    ∃ r, PWMC_RecalcT1T2_OVM time OVM_2 gamma = some r ∧
      0 ≤ r.T1 ∧ r.T1 ≤ 32768 ∧ r.T2 = 32768 - r.T1 ∧
      (32768 < time.T1 → r = { T1 := 32768, T2 := 0 }) ∧
      (time.T1 ≤ 32768 → 32768 < time.T2 → r = { T1 := 0, T2 := 32768 }) ∧
      (time.T1 ≤ 32768 → time.T2 ≤ 32768 → r.T1 = min 32768 (ovm2Unclamped time gamma)) := by
  by_cases ha : 32768 < time.T1
  · refine ⟨_, recalc_ovm2_first time gamma ha, by simp, by simp, by simp, fun _ => rfl, ?_, ?_⟩
    · intro h; omega
    · intro h; omega
  · by_cases hb : 32768 < time.T2
    · refine ⟨_, recalc_ovm2_second time gamma (by omega) hb, by simp, by simp, by simp,
        fun h => absurd h ha, fun _ _ => rfl, ?_⟩
      intro _ h; omega
    · have hn := ovm2Unclamped_nonneg time gamma hg0 hg1
      refine ⟨_, recalc_ovm2_general time gamma h1 h2 (by omega) (by omega) (by omega) hg0 hg1,
        ?_, ?_, rfl, fun h => absurd h ha, fun _ h => absurd h hb, fun _ _ => rfl⟩
      · simp only; exact le_min (by norm_num) hn
      · simp only; exact min_le_left _ _

/-- Witness of `recalc_ovm2_range` at `T1 = 20000`, `T2 = 10000`, `gamma = 52`. -/
theorem recalc_ovm2_range_witness :
    ((0 : Int) ≤ 20000 ∧ (0 : Int) ≤ 10000 ∧ (0 : Int) < 20000 + 10000 ∧
      (0 : Int) ≤ 52 ∧ (52 : Int) < 17157) ∧
    ∃ r, PWMC_RecalcT1T2_OVM { T1 := 20000, T2 := 10000 } OVM_2 52 = some r ∧
      0 ≤ r.T1 ∧ r.T1 ≤ 32768 ∧ r.T2 = 32768 - r.T1 := by
  obtain ⟨r, hr, b0, b1, b2, _⟩ :=
    recalc_ovm2_range { T1 := 20000, T2 := 10000 } 52 (by decide) (by decide) (by decide)
      (by decide) (by decide)
  exact ⟨⟨by decide, by decide, by decide, by decide, by decide⟩, r, hr, b0, b1, b2⟩

theorem centreCount_range (P : Nat) (hP : P ≤ 65535) :
    0 ≤ centreCount P ∧ centreCount P ≤ 65535 := by
  obtain ⟨b0, b1⟩ := scale_bounds (P : Int) 16384 (by omega) (by norm_num) (by norm_num)
  unfold centreCount
  omega

theorem sectorDuties_zero (P : Nat) :
    sectorDuties P { T1 := 0, T2 := 0 } SECTOR_2
      = some { duty_a := centreCount P, duty_b := centreCount P, duty_c := centreCount P,
               low := centreCount P, mid := centreCount P, high := centreCount P } := by
  simp [sectorDuties, dutyCount, cdiv, centreCount]

/-- C10: whenever `vref ≥ 32768`, for every `(alpha, beta)` and `PWMperiod`,
`PWMC_SetPhaseVoltage_OVM` completes in regime `OVM_ERROR` with corrected
vector `(0, 0)`, redistributed dwell times `T1 = T2 = 0`, and all three
compare counts (locals and handle fields) equal to the centre value
`trunc(PWMperiod * 16384 / 65536)`. -/
theorem error_regime_forces_centre (MCM_Sqrt : Int → Int) (samp : PWMC_Handle_t → Nat)
    (gama0 : Int) (pHandle : PWMC_Handle_t) (alpha beta : Int)
    (hv : 32768 ≤ MCM_Sqrt (alpha * alpha + beta * beta))
    (hP : pHandle.PWMperiod ≤ 65535) :
    ∃ r, PWMC_SetPhaseVoltage_OVM MCM_Sqrt samp gama0 pHandle alpha beta = some r ∧
      r.corrected.ovm_mode_flag = OVM_ERROR ∧
      r.corrected.wUAlpha = 0 ∧ r.corrected.wUBeta = 0 ∧
      r.vector_time = { T1 := 0, T2 := 0 } ∧
      r.duties.duty_a = centreCount pHandle.PWMperiod ∧
      r.duties.duty_b = centreCount pHandle.PWMperiod ∧
      r.duties.duty_c = centreCount pHandle.PWMperiod ∧
      (r.handle.CntPhA : Int) = centreCount pHandle.PWMperiod ∧
      (r.handle.CntPhB : Int) = centreCount pHandle.PWMperiod ∧
      (r.handle.CntPhC : Int) = centreCount pHandle.PWMperiod := by
  have hc := ovmCorrect_error alpha beta _ gama0 hv
  have hk : sectorDecision 0 0
      = some { wX := 0, wY := 0, wZ := 0, sector := SECTOR_2, raw := { T1 := 0, T2 := 0 } } := by
    rfl
  obtain ⟨c0, c1⟩ := centreCount_range pHandle.PWMperiod hP
  refine ⟨_, setPhaseVoltage_of_stages MCM_Sqrt samp gama0 pHandle alpha beta _ _ _ _ hc hk
    (recalc_error _ _) (sectorDuties_zero pHandle.PWMperiod), rfl, rfl, rfl, rfl, rfl, rfl, rfl,
    ?_, ?_, ?_⟩ <;>
  exact toUInt16_of_range _ c0 c1

/-- Witness of `error_regime_forces_centre` with `vref = 40000`. -/
theorem error_regime_forces_centre_witness :
    ((32768 : Int) ≤ 40000 ∧ sampleHandle.PWMperiod ≤ 65535) ∧
    ∃ r, PWMC_SetPhaseVoltage_OVM (fun _ => 40000) (fun _ => 0) 0 sampleHandle 1000 (-2000)
        = some r ∧
      r.vector_time = { T1 := 0, T2 := 0 } ∧ r.duties.duty_a = 250 ∧ r.duties.duty_b = 250 ∧
      r.duties.duty_c = 250 := by
  obtain ⟨r, hr, _, _, _, ht, ha, hb, hc, _⟩ :=
    error_regime_forces_centre (fun _ => 40000) (fun _ => 0) 0 sampleHandle 1000 (-2000)
      (by decide) (by decide)
  exact ⟨⟨by decide, by decide⟩, r, hr, ht, ha, hb, hc⟩

end SvmOvm

/-! # Further properties of the Hall commutation engine -/

namespace BldcHall
open Channel OcnPin GPIO_PinState Direction

/-- C14: for the invalid Hall codes 0 and 7, in either direction,
`HAL_TIM_TriggerCallback` changes none of the three compare values and none of
the three low-side gate levels. -/
theorem invalid_code_holds_pattern (dir : Direction) (h : Nat) (s : State)
    (hh : h = 0 ∨ h = 7) :
    (HAL_TIM_TriggerCallback dir h s).ccr1 = s.ccr1 ∧
    (HAL_TIM_TriggerCallback dir h s).ccr2 = s.ccr2 ∧
    (HAL_TIM_TriggerCallback dir h s).ccr3 = s.ccr3 ∧
    (HAL_TIM_TriggerCallback dir h s).ocn1 = s.ocn1 ∧
    (HAL_TIM_TriggerCallback dir h s).ocn2 = s.ocn2 ∧
    (HAL_TIM_TriggerCallback dir h s).ocn3 = s.ocn3 := by
  rcases hh with rfl | rfl <;> cases dir <;>
    simp [HAL_TIM_TriggerCallback, triggerOps, commutationWrites, runOps, applyOp]

/-- Witness of `invalid_code_holds_pattern` at Hall code 7, forward, in a running state. -/
theorem invalid_code_holds_pattern_witness :
    ((7 : Nat) = 0 ∨ (7 : Nat) = 7) ∧
    (HAL_TIM_TriggerCallback MOTOR_FWD 7 runningState).ccr1 = 700 ∧
    (HAL_TIM_TriggerCallback MOTOR_FWD 7 runningState).ocn3 = GPIO_PIN_SET := by
  have h := invalid_code_holds_pattern MOTOR_FWD 7 runningState (Or.inr rfl)
  exact ⟨Or.inr rfl, h.1, h.2.2.2.2.2⟩

/-- C15 (as stated, refuted): a call of `HAL_TIM_TriggerCallback` that reads
the invalid Hall code 7 with `update = 2` does not leave `update` at its
previous value: it resets it to 0. -/
theorem invalid_code_resets_stall_counter_example :
    get_hall_state true true true = 7 ∧ runningState.update = 2 ∧
    ¬ ((HAL_TIM_TriggerCallback MOTOR_FWD (get_hall_state true true true) runningState).update
        = runningState.update) := by
  decide

/-- C15 (amended): for every Hall code, the invalid codes 0 and 7 (all three
Hall inputs low, or all three high) included, `HAL_TIM_TriggerCallback` resets
`update` to 0 like any other commutation event, so the stall count restarts:
the next two ticks raise no fault and the third one does. -/
theorem invalid_code_resets_stall_counter (dir : Direction) (h : Nat) (s : State) :
    (HAL_TIM_TriggerCallback dir h s).update = 0 ∧
    stallFlags (HAL_TIM_TriggerCallback dir h s) [Event.tick, Event.tick] = [false, false] ∧
    stallFlags (HAL_TIM_TriggerCallback dir h s) [Event.tick, Event.tick, Event.tick]
      = [false, false, true] ∧
    get_hall_state false false false = 0 ∧ get_hall_state true true true = 7 := by
  have hu := trigger_update dir h s
  refine ⟨hu, ?_, ?_, rfl, rfl⟩ <;>
    simp [stallFlags, takesStall, stallBranch, stepEvent, tick_update, hu]


/-- C17 (defect shown at one input): in the callback for Hall code 2, forward,
started in a running state, the compare and gate values written by the
invocation are already in the compare registers and on the gate pins before
the COM event is issued: nothing is held back for the commit that the comment
on the COM statement announces. -/
theorem writes_visible_before_com :
    get_hall_state false true false = 2 ∧
    outputs runningState
      = ((700, 0, 0), (GPIO_PIN_RESET, GPIO_PIN_RESET, GPIO_PIN_SET)) ∧
    outputs (runOps runningState
          (beforeCOM (triggerOps MOTOR_FWD 2 runningState.bldcm_pulse)))
      = ((0, 700, 0), (GPIO_PIN_SET, GPIO_PIN_RESET, GPIO_PIN_RESET)) ∧
    ¬ (outputs (runOps runningState
          (beforeCOM (triggerOps MOTOR_FWD 2 runningState.bldcm_pulse)))
        = outputs runningState) := by
  decide

/-- C17 (what the code does): every invocation of `HAL_TIM_TriggerCallback`,
for every Hall code 0..7 (every level of the three Hall inputs) and both
directions, issues exactly one COM event, and that event comes after every
compare-register write and every low-side gate write of the invocation; but
the writes go straight to the compare registers and the gate pins, so the
outputs just before the COM event are already the final ones and the COM event
commits none of them. -/
theorem trigger_single_com_after_writes (dir : Direction) (u v w : Bool) (pulse : Nat) :
    (triggerOps dir (get_hall_state u v w) pulse).countP isCOM = 1 ∧
    beforeCOM (triggerOps dir (get_hall_state u v w) pulse)
      = commutationWrites dir (get_hall_state u v w) pulse ∧
    (∀ op ∈ beforeCOM (triggerOps dir (get_hall_state u v w) pulse), isOutputWrite op = true) ∧
    fromCOM (triggerOps dir (get_hall_state u v w) pulse) = [.generateCOM, .setUpdate 0] ∧
    (∀ op ∈ fromCOM (triggerOps dir (get_hall_state u v w) pulse), isOutputWrite op = false) ∧
    (∀ s : State,
      outputs (runOps s (beforeCOM (triggerOps dir (get_hall_state u v w) pulse)))
        = outputs (runOps s (triggerOps dir (get_hall_state u v w) pulse))) := by
  cases u <;> cases v <;> cases w <;> cases dir <;>
    simp [get_hall_state, triggerOps, commutationWrites, beforeCOM, fromCOM, isCOM,
      isOutputWrite, runOps, applyOp, outputs, List.countP_cons]

/-- C18: starting from `update = 0`, after any sequence of complete executions
of `HAL_TIM_TriggerCallback` and `HAL_TIM_PeriodElapsedCallback` the stall
counter satisfies `0 ≤ update ≤ 2`. -/
theorem stall_counter_bounded (s : State) (es : List Event) (hs : s.update = 0) :
    0 ≤ (runEvents s es).update ∧ (runEvents s es).update ≤ 2 := by
  obtain ⟨h1, h2⟩ := update_eq_ticksSinceReset s hs es
  omega

/-- Witness of `stall_counter_bounded` on a sequence with a stall and a commutation. -/
theorem stall_counter_bounded_witness :
    idleState.update = 0 ∧
    0 ≤ (runEvents idleState [Event.tick, Event.tick, Event.tick, Event.tick,
      Event.commutation MOTOR_FWD 3, Event.tick, Event.tick]).update ∧
    (runEvents idleState [Event.tick, Event.tick, Event.tick, Event.tick,
      Event.commutation MOTOR_FWD 3, Event.tick, Event.tick]).update ≤ 2 :=
  ⟨rfl, stall_counter_bounded idleState _ rfl⟩

theorem commentPair_eq_iff (d1 d2 : Direction) (h1 h2 : Nat)
    (a1 : 1 ≤ h1) (b1 : h1 ≤ 6) (a2 : 1 ≤ h2) (b2 : h2 ≤ 6) :
    commentPair d1 h1 = commentPair d2 h2 ↔
      (d1 = d2 ∧ h1 = h2) ∨ (d1 ≠ d2 ∧ h1 + h2 = 7) := by
  interval_cases h1 <;> interval_cases h2 <;> cases d1 <;> cases d2 <;> simp [commentPair]

theorem outputs_eq_iff_commentPair (d1 d2 : Direction) (h1 h2 : Nat) (s : State)
    (a1 : 1 ≤ h1) (b1 : h1 ≤ 6) (a2 : 1 ≤ h2) (b2 : h2 ≤ 6) (hp : s.bldcm_pulse ≠ 0) :
    outputs (HAL_TIM_TriggerCallback d1 h1 s) = outputs (HAL_TIM_TriggerCallback d2 h2 s) ↔
      commentPair d1 h1 = commentPair d2 h2 := by
  constructor
  · intro he
    have hc : ∀ p, compareOf (HAL_TIM_TriggerCallback d1 h1 s) p
        = compareOf (HAL_TIM_TriggerCallback d2 h2 s) p := by
      intro p
      simp only [outputs, Prod.mk.injEq] at he
      cases p <;> simp [compareOf, he]
    have hg : ∀ p, gateOf (HAL_TIM_TriggerCallback d1 h1 s) p
        = gateOf (HAL_TIM_TriggerCallback d2 h2 s) p := by
      intro p
      simp only [outputs, Prod.mk.injEq] at he
      cases p <;> simp [gateOf, he]
    have e1 : (commentPair d1 h1).1 = (commentPair d2 h2).1 := by
      have := hc (commentPair d1 h1).1
      rw [(trigger_phase_values d1 h1 s a1 b1 _).1, (trigger_phase_values d2 h2 s a2 b2 _).1] at this
      by_contra hne
      simp [hne] at this
      exact hp this
    have e2 : (commentPair d1 h1).2 = (commentPair d2 h2).2 := by
      have := hg (commentPair d1 h1).2
      rw [(trigger_phase_values d1 h1 s a1 b1 _).2, (trigger_phase_values d2 h2 s a2 b2 _).2] at this
      by_contra hne
      simp [hne] at this
    exact Prod.ext e1 e2
  · intro he
    apply outputs_eq_of_phases
    · intro p
      rw [(trigger_phase_values d1 h1 s a1 b1 p).1, (trigger_phase_values d2 h2 s a2 b2 p).1, he]
    · intro p
      rw [(trigger_phase_values d1 h1 s a1 b1 p).2, (trigger_phase_values d2 h2 s a2 b2 p).2, he]

/-- C19 (as stated, refuted): the distinct pairs (forward, 1) and (reverse, 6)
produce the same output pattern (`U+ W-`). -/
theorem forward_1_and_reverse_6_overlap :
    (MOTOR_FWD, 1) ≠ (MOTOR_REV, 6) ∧
    ¬ (outputs (HAL_TIM_TriggerCallback MOTOR_FWD 1 runningState)
        ≠ outputs (HAL_TIM_TriggerCallback MOTOR_REV 6 runningState)) := by
  decide

/-- C19 (amended): for Hall codes in 1..6, two pairs (code, direction) produce
the same pattern (driven phase, low-side phase) exactly when they are equal or
have opposite directions and codes adding up to 7; in particular two distinct
codes in the same direction never share a pattern, and the twelve cases
realise six patterns.  With `bldcm_pulse ≠ 0` the output states coincide in
exactly the same cases. -/
theorem patterns_overlap_only_across_directions (d1 d2 : Direction) (h1 h2 : Nat)
    (a1 : 1 ≤ h1) (b1 : h1 ≤ 6) (a2 : 1 ≤ h2) (b2 : h2 ≤ 6) :
    (commentPair d1 h1 = commentPair d2 h2 ↔
      (d1 = d2 ∧ h1 = h2) ∨ (d1 ≠ d2 ∧ h1 + h2 = 7)) ∧
    (∀ s : State, s.bldcm_pulse ≠ 0 →
      (outputs (HAL_TIM_TriggerCallback d1 h1 s) = outputs (HAL_TIM_TriggerCallback d2 h2 s) ↔
        (d1 = d2 ∧ h1 = h2) ∨ (d1 ≠ d2 ∧ h1 + h2 = 7))) ∧
    (d1 = d2 → h1 ≠ h2 → commentPair d1 h1 ≠ commentPair d2 h2) := by
  have hiff := commentPair_eq_iff d1 d2 h1 h2 a1 b1 a2 b2
  refine ⟨hiff, ?_, ?_⟩
  · intro s hp
    rw [outputs_eq_iff_commentPair d1 d2 h1 h2 s a1 b1 a2 b2 hp]
    exact hiff
  · intro hd hh he
    rcases hiff.mp he with ⟨_, e⟩ | ⟨ne, _⟩
    · exact hh e
    · exact ne hd

/-- Witness of `patterns_overlap_only_across_directions` at (forward, 1) and (forward, 3). -/
theorem patterns_overlap_only_across_directions_witness :
    (1 ≤ 1 ∧ 1 ≤ 6 ∧ 1 ≤ 3 ∧ 3 ≤ 6) ∧
    commentPair MOTOR_FWD 1 ≠ commentPair MOTOR_FWD 3 :=
  ⟨by decide,
    (patterns_overlap_only_across_directions MOTOR_FWD MOTOR_FWD 1 3 (by decide) (by decide)
      (by decide) (by decide)).2.2 rfl (by decide)⟩

end BldcHall

/-! # Further properties of the space-vector modulator -/

namespace SvmOvm
open OVM_Mode_t Sector

theorem sectorDecision_zero :
    sectorDecision 0 0
      = some { wX := 0, wY := 0, wZ := 0, sector := SECTOR_2, raw := { T1 := 0, T2 := 0 } } := by
  rfl

theorem zero_command_result (MCM_Sqrt : Int → Int) (samp : PWMC_Handle_t → Nat) (gama0 : Int)
    (pHandle : PWMC_Handle_t) (h0 : MCM_Sqrt 0 < 31186) :
    ∃ r, PWMC_SetPhaseVoltage_OVM MCM_Sqrt samp gama0 pHandle 0 0 = some r ∧
      r.corrected.ovm_mode_flag = regimeOf (MCM_Sqrt 0) ∧
      r.duties.duty_a = centreCount pHandle.PWMperiod ∧
      r.duties.duty_b = centreCount pHandle.PWMperiod ∧
      r.duties.duty_c = centreCount pHandle.PWMperiod ∧
      r.handle = storeDuties pHandle SECTOR_2
        { duty_a := centreCount pHandle.PWMperiod, duty_b := centreCount pHandle.PWMperiod,
          duty_c := centreCount pHandle.PWMperiod, low := centreCount pHandle.PWMperiod,
          mid := centreCount pHandle.PWMperiod, high := centreCount pHandle.PWMperiod } ∧
      r.ret = samp r.handle := by
  have hsq : (0 : Int) * 0 + 0 * 0 = 0 := by norm_num
  have hc : ∃ g0, ovmCorrect 0 0 (MCM_Sqrt (0 * 0 + 0 * 0)) gama0
      = some { wUAlpha := 0, wUBeta := 0, ovm_mode_flag := regimeOf (MCM_Sqrt 0), gama := g0 } ∧
      (regimeOf (MCM_Sqrt 0) = OVM_LINEAR ∨ regimeOf (MCM_Sqrt 0) = OVM_1) := by
    rw [hsq]
    by_cases h1 : MCM_Sqrt 0 < 29717
    · exact ⟨gama0, by rw [ovmCorrect_linear 0 0 _ gama0 h1]; simp [regimeOf, h1],
        Or.inl (by simp [regimeOf, h1])⟩
    · obtain ⟨g, _, hg⟩ := ovmCorrect_ovm1 0 0 (MCM_Sqrt 0) gama0 (by omega) h0
      exact ⟨gama0, by rw [hg]; simp [regimeOf, h1, h0], Or.inr (by simp [regimeOf, h1, h0])⟩
  obtain ⟨g0, hc, hm⟩ := hc
  have hv : PWMC_RecalcT1T2_OVM { T1 := 0, T2 := 0 } (regimeOf (MCM_Sqrt 0)) (toInt16 g0)
      = some { T1 := 0, T2 := 0 } :=
    recalc_linear_small _ _ _ hm (by simp) (by simp)
  exact ⟨_, setPhaseVoltage_of_stages MCM_Sqrt samp gama0 pHandle 0 0 _ _ _ _ hc
    sectorDecision_zero hv (sectorDuties_zero pHandle.PWMperiod), rfl, rfl, rfl, rfl, rfl, rfl⟩

theorem error_command_result (MCM_Sqrt : Int → Int) (samp : PWMC_Handle_t → Nat) (gama0 : Int)
    (pHandle : PWMC_Handle_t) (alpha beta : Int)
    (hv : 32768 ≤ MCM_Sqrt (alpha * alpha + beta * beta)) :
    ∃ r, PWMC_SetPhaseVoltage_OVM MCM_Sqrt samp gama0 pHandle alpha beta = some r ∧
      r.corrected.ovm_mode_flag = OVM_ERROR ∧
      r.handle = storeDuties pHandle SECTOR_2
        { duty_a := centreCount pHandle.PWMperiod, duty_b := centreCount pHandle.PWMperiod,
          duty_c := centreCount pHandle.PWMperiod, low := centreCount pHandle.PWMperiod,
          mid := centreCount pHandle.PWMperiod, high := centreCount pHandle.PWMperiod } ∧
      r.ret = samp r.handle :=
  ⟨_, setPhaseVoltage_of_stages MCM_Sqrt samp gama0 pHandle alpha beta _ _ _ _
    (ovmCorrect_error alpha beta _ gama0 hv) sectorDecision_zero (recalc_error _ _)
    (sectorDuties_zero pHandle.PWMperiod), rfl, rfl, rfl⟩

/-- C11: for `alpha = beta = 0` with `MCM_Sqrt 0 = 0` and every `PWMperiod`
(16-bit), `PWMC_SetPhaseVoltage_OVM` completes, which in this model means that
no division with a zero divisor is executed, in the linear regime, and
`CntPhA = CntPhB = CntPhC = trunc(PWMperiod * 16384 / 65536)`. -/
theorem zero_command_gives_centre (MCM_Sqrt : Int → Int) (samp : PWMC_Handle_t → Nat)
    (gama0 : Int) (pHandle : PWMC_Handle_t)
    (h0 : MCM_Sqrt 0 = 0) (hP : pHandle.PWMperiod ≤ 65535) :
    ∃ r, PWMC_SetPhaseVoltage_OVM MCM_Sqrt samp gama0 pHandle 0 0 = some r ∧
      r.corrected.ovm_mode_flag = OVM_LINEAR ∧
      r.duties.duty_a = centreCount pHandle.PWMperiod ∧
      r.duties.duty_b = centreCount pHandle.PWMperiod ∧
      r.duties.duty_c = centreCount pHandle.PWMperiod ∧
      (r.handle.CntPhA : Int) = centreCount pHandle.PWMperiod ∧
      (r.handle.CntPhB : Int) = centreCount pHandle.PWMperiod ∧
      (r.handle.CntPhC : Int) = centreCount pHandle.PWMperiod := by
  obtain ⟨r, hr, hm, da, db, dc, hh, _⟩ :=
    zero_command_result MCM_Sqrt samp gama0 pHandle (by rw [h0]; norm_num)
  obtain ⟨c0, c1⟩ := centreCount_range pHandle.PWMperiod hP
  refine ⟨r, hr, ?_, da, db, dc, ?_, ?_, ?_⟩
  · rw [hm, h0]; rfl
  · rw [hh]; exact toUInt16_of_range _ c0 c1
  · rw [hh]; exact toUInt16_of_range _ c0 c1
  · rw [hh]; exact toUInt16_of_range _ c0 c1

/-- Witness of `zero_command_gives_centre` with the floor square root and a period of 1000. -/
theorem zero_command_gives_centre_witness :
    (Int.sqrt 0 = 0 ∧ sampleHandle.PWMperiod ≤ 65535) ∧
    ∃ r, PWMC_SetPhaseVoltage_OVM Int.sqrt (fun _ => 0) 0 sampleHandle 0 0 = some r ∧
      (r.handle.CntPhA : Int) = 250 ∧ (r.handle.CntPhB : Int) = 250 ∧
      (r.handle.CntPhC : Int) = 250 := by
  have hs : Int.sqrt 0 = 0 := by simp [Int.sqrt]
  obtain ⟨r, hr, _, _, _, _, ha, hb, hc⟩ :=
    zero_command_gives_centre Int.sqrt (fun _ => 0) 0 sampleHandle hs (by decide)
  exact ⟨⟨hs, by decide⟩, r, hr, ha, hb, hc⟩

/-- C12 (as stated, refuted): in mode `OVM_2` with `T1 = T2 = 0` the function
divides by the unchecked sum `T1 + T2 = 0` and returns no result. -/
theorem recalc_ovm2_divides_by_zero_sum :
    ¬ ∃ r, PWMC_RecalcT1T2_OVM { T1 := 0, T2 := 0 } OVM_2 52 = some r := by
  rw [recalc_ovm2_zero_sum]
  simp

/-- C12 (amended): `PWMC_RecalcT1T2_OVM` fails to return a result exactly in
mode `OVM_2` with `T1 ≤ 32768`, `T2 ≤ 32768` and a zero divisor, neither of
which is checked: the 32-bit sum `T1 + T2` is 0, or the 32-bit difference
`17157 - gamma` is 0.  For `T1, T2 ≥ 0` and a 16-bit `gamma` this means
`T1 = T2 = 0` or `gamma = 17157`; for `T1 = T2 = -2147483648` the 32-bit sum
is 0 as well.  In modes `OVM_LINEAR` and `OVM_1` the only division is executed
under the test `sum_t1_t2 > 32768` on its divisor, `OVM_ERROR` divides
nothing, and in `OVM_2` the cases `T1 > 32768` and `T2 > 32768` return before
any division: there a result is returned for every `T1`, `T2` and `gamma`. -/
theorem recalc_fails_iff_unchecked_zero_divisor (time : Vector_Time_t) (mode : OVM_Mode_t)
    (gamma : Int) :
    (PWMC_RecalcT1T2_OVM time mode gamma = none ↔
      mode = OVM_2 ∧ time.T1 ≤ 32768 ∧ time.T2 ≤ 32768 ∧
        (toInt32 (time.T1 + time.T2) = 0 ∨ toInt32 (17157 - gamma) = 0)) ∧
    (0 ≤ time.T1 → 0 ≤ time.T2 → -32768 ≤ gamma → gamma ≤ 32767 →
      (PWMC_RecalcT1T2_OVM time mode gamma = none ↔
        mode = OVM_2 ∧ ((time.T1 = 0 ∧ time.T2 = 0) ∨
          (time.T1 ≤ 32768 ∧ time.T2 ≤ 32768 ∧ gamma = 17157)))) ∧
    (toInt32 (-2147483648 + -2147483648) = 0 ∧
      PWMC_RecalcT1T2_OVM { T1 := -2147483648, T2 := -2147483648 } OVM_2 gamma = none) := by
  refine ⟨recalc_none_iff time mode gamma, ?_, by unfold toInt32; norm_num, ?_⟩
  · intro h1 h2 g0 g1
    rw [recalc_none_iff]
    have eg : toInt32 (17157 - gamma) = 17157 - gamma :=
      toInt32_of_range _ (by omega) (by omega)
    constructor
    · rintro ⟨hm, a, b, hz⟩
      have es : toInt32 (time.T1 + time.T2) = time.T1 + time.T2 :=
        toInt32_of_range _ (by omega) (by omega)
      rw [es, eg] at hz
      refine ⟨hm, ?_⟩
      rcases hz with hz | hz
      · exact Or.inl ⟨by omega, by omega⟩
      · exact Or.inr ⟨a, b, by omega⟩
    · rintro ⟨hm, hz⟩
      rcases hz with ⟨a, b⟩ | ⟨a, b, hg⟩
      · refine ⟨hm, by omega, by omega, Or.inl ?_⟩
        rw [a, b]
        unfold toInt32
        norm_num
      · refine ⟨hm, a, b, Or.inr ?_⟩
        rw [eg]
        omega
  · exact (recalc_none_iff _ _ _).mpr
      ⟨rfl, by norm_num, by norm_num, Or.inl (by unfold toInt32; norm_num)⟩

/-- Witness of `recalc_fails_iff_unchecked_zero_divisor`: no result at `T1 = T2 = 0`,
a result at `T1 = 20000`, `T2 = 10000`, both in mode `OVM_2` with `gamma = 52`. -/
theorem recalc_fails_iff_unchecked_zero_divisor_witness :
    PWMC_RecalcT1T2_OVM { T1 := 0, T2 := 0 } OVM_2 52 = none ∧
    PWMC_RecalcT1T2_OVM { T1 := 20000, T2 := 10000 } OVM_2 52 ≠ none := by
  constructor
  · exact ((recalc_fails_iff_unchecked_zero_divisor { T1 := 0, T2 := 0 } OVM_2 52).2.1
      (by norm_num) (by norm_num) (by norm_num) (by norm_num)).mpr ⟨rfl, Or.inl ⟨rfl, rfl⟩⟩
  · intro h
    have h' := ((recalc_fails_iff_unchecked_zero_divisor { T1 := 20000, T2 := 10000 } OVM_2
      52).2.1 (by norm_num) (by norm_num) (by norm_num) (by norm_num)).mp h
    rcases h'.2 with ⟨a, _⟩ | ⟨_, _, g⟩
    · norm_num at a
    · norm_num at g


set_option maxRecDepth 100000 in
/-- C20 (as stated, refuted): from the same prior handle, the call with the
over-range command `(1000, -2000)` (regime `OVM_ERROR`) and the call with the
zero command (regime `OVM_LINEAR`) leave the same handle and return the same
value: the error is not recorded anywhere. -/
theorem error_regime_not_observable_example :
    (PWMC_SetPhaseVoltage_OVM overRangeSqrt (fun h => h.CntPhA) 0 sampleHandle 1000 (-2000)).map
        (fun r => r.corrected.ovm_mode_flag) = some OVM_ERROR ∧
    (PWMC_SetPhaseVoltage_OVM overRangeSqrt (fun h => h.CntPhA) 0 sampleHandle 0 0).map
        (fun r => r.corrected.ovm_mode_flag) = some OVM_LINEAR ∧
    ¬ ((PWMC_SetPhaseVoltage_OVM overRangeSqrt (fun h => h.CntPhA) 0 sampleHandle 1000 (-2000)).map
          (fun r => (r.handle, r.ret))
        ≠ (PWMC_SetPhaseVoltage_OVM overRangeSqrt (fun h => h.CntPhA) 0 sampleHandle 0 0).map
          (fun r => (r.handle, r.ret))) := by
  refine ⟨by rfl, by rfl, ?_⟩
  intro h
  exact h (by rfl)

/-- C20 (amended): an over-range voltage command is not recorded in any state
visible to the caller: whenever `PWMC_SetPhaseVoltage_OVM` classifies its input
as `OVM_ERROR`, the handle state and the return value after the call are
identical to those after a call with the zero command `alpha = beta = 0` in
regime `OVM_LINEAR` or `OVM_1`, made from the same prior handle (sector 2 and
the centre count in all duty fields); only the local `ovm_mode_flag`
differs. -/
theorem error_regime_not_observable (MCM_Sqrt : Int → Int) (samp : PWMC_Handle_t → Nat)
    (gama0 gama1 : Int) (pHandle : PWMC_Handle_t) (alpha beta : Int)
    (hv : 32768 ≤ MCM_Sqrt (alpha * alpha + beta * beta)) (h0 : MCM_Sqrt 0 < 31186) :
    ∃ r r0, PWMC_SetPhaseVoltage_OVM MCM_Sqrt samp gama0 pHandle alpha beta = some r ∧
      PWMC_SetPhaseVoltage_OVM MCM_Sqrt samp gama1 pHandle 0 0 = some r0 ∧
      r.corrected.ovm_mode_flag = OVM_ERROR ∧ r0.corrected.ovm_mode_flag ≠ OVM_ERROR ∧
      r.handle = r0.handle ∧ r.ret = r0.ret := by
  obtain ⟨r, hr, hm, hh, hret⟩ := error_command_result MCM_Sqrt samp gama0 pHandle alpha beta hv
  obtain ⟨r0, hr0, hm0, _, _, _, hh0, hret0⟩ := zero_command_result MCM_Sqrt samp gama1 pHandle h0
  refine ⟨r, r0, hr, hr0, hm, ?_, by rw [hh, hh0], by rw [hret, hret0, hh, hh0]⟩
  rw [hm0]
  unfold regimeOf
  split
  · simp
  · simp [h0]

/-- Witness of `error_regime_not_observable` with `overRangeSqrt`. -/
theorem error_regime_not_observable_witness :
    ((32768 : Int) ≤ overRangeSqrt (1000 * 1000 + (-2000) * (-2000)) ∧
      overRangeSqrt 0 < 31186) ∧
    ∃ r r0, PWMC_SetPhaseVoltage_OVM overRangeSqrt (fun _ => 0) 0 sampleHandle 1000 (-2000)
        = some r ∧
      PWMC_SetPhaseVoltage_OVM overRangeSqrt (fun _ => 0) 0 sampleHandle 0 0 = some r0 ∧
      r.handle = r0.handle ∧ r.ret = r0.ret := by
  obtain ⟨r, r0, hr, hr0, _, _, hh, hret⟩ :=
    error_regime_not_observable overRangeSqrt (fun _ => 0) 0 0 sampleHandle 1000 (-2000)
      (by decide) (by decide)
  exact ⟨⟨by decide, by decide⟩, r, r0, hr, hr0, hh, hret⟩

end SvmOvm

/-! # Properties of the position-form PID -/

namespace PidPosition

/-- C13: `PID_realize` implements the position-form update: with
`error = target_val - measured` it sets `integral := integral + error`,
returns `Kp*error + Ki*integral + Kd*(error - err_last)` (with the new
integral and the old `err_last`), then sets `err_last := error`, and leaves
`target_val`, `Kp`, `Ki`, `Kd` unchanged; with `Kp=1, Ki=0, Kd=0, target=10,
measured=7` the output is 3, and with `Ki=0.5` two successive calls with error
3 leave `integral = 6` and yield `1*3 + 0.5*6 = 6`. -/
theorem PID_realize_position_form (pid : _pid) (measured : ℚ) :
    (PID_realize pid measured).1.integral = pid.integral + (pid.target_val - measured) ∧
    (PID_realize pid measured).2
      = pid.Kp * (pid.target_val - measured)
        + pid.Ki * (pid.integral + (pid.target_val - measured))
        + pid.Kd * ((pid.target_val - measured) - pid.err_last) ∧
    (PID_realize pid measured).1.err_last = pid.target_val - measured ∧
    (PID_realize pid measured).1.target_val = pid.target_val ∧
    (PID_realize pid measured).1.Kp = pid.Kp ∧
    (PID_realize pid measured).1.Ki = pid.Ki ∧
    (PID_realize pid measured).1.Kd = pid.Kd ∧
    (PID_realize (pidInit 1 0 0 10) 7).2 = 3 ∧
    (PID_realize (PID_realize (pidInit 1 (1 / 2) 0 10) 7).1 7).1.integral = 6 ∧
    (PID_realize (PID_realize (pidInit 1 (1 / 2) 0 10) 7).1 7).2 = 6 := by
  refine ⟨rfl, rfl, rfl, rfl, rfl, rfl, rfl, ?_, ?_, ?_⟩ <;>
    norm_num [PID_realize, pidInit]

end PidPosition

/-! # Write-order properties of the Hall commutation engine -/

namespace BldcHall
open Channel OcnPin GPIO_PinState Direction

theorem noShort_iff (s : State) :
    noShort s ↔ (s.ccr1 = 0 ∨ s.ocn1 = GPIO_PIN_RESET) ∧ (s.ccr2 = 0 ∨ s.ocn2 = GPIO_PIN_RESET) ∧
      (s.ccr3 = 0 ∨ s.ocn3 = GPIO_PIN_RESET) := by
  have hp : ∀ g : GPIO_PinState, g = GPIO_PIN_SET ↔ ¬ g = GPIO_PIN_RESET := by
    intro g; cases g <;> simp
  constructor
  · intro h
    have a := h .U
    have b := h .V
    have c := h .W
    simp only [shorted, compareOf, gateOf, not_and, hp, not_not] at a b c
    refine ⟨?_, ?_, ?_⟩ <;> tauto
  · intro ⟨a, b, c⟩ p
    cases p <;> simp only [shorted, compareOf, gateOf, not_and, hp, not_not] <;> tauto

theorem commutationWrites_cases (dir : Direction) (h : Nat) :
    h = 0 ∨ h = 1 ∨ h = 2 ∨ h = 3 ∨ h = 4 ∨ h = 5 ∨ h = 6 ∨
      ∀ pulse, commutationWrites dir h pulse = [] := by
  rcases Nat.lt_or_ge h 7 with hlt | hge
  · interval_cases h <;> simp
  · obtain ⟨n, rfl⟩ : ∃ n, h = n + 7 := ⟨h - 7, by omega⟩
    right; right; right; right; right; right; right
    intro pulse
    cases dir <;> simp [commutationWrites]

theorem trace_atMostOneDriven (dir : Direction) (h : Nat) (pulse : Nat) (s : State)
    (hs : atMostOneDriven s) :
    ∀ t ∈ traceStates s (triggerOps dir h pulse), atMostOneDriven t := by
  unfold atMostOneDriven at hs
  rcases commutationWrites_cases dir h with rfl | rfl | rfl | rfl | rfl | rfl | rfl | he
  all_goals first
    | (cases dir <;>
        simp [traceStates, triggerOps, commutationWrites, List.scanl, applyOp, atMostOneDriven] <;>
        tauto)
    | (simp [traceStates, triggerOps, he, List.scanl, applyOp, atMostOneDriven]; tauto)

theorem trace_noShort (dir : Direction) (h : Nat) (pulse : Nat) (s : State)
    (hs : noShort s) :
    ∀ t ∈ traceStates s (triggerOps dir h pulse), noShort t := by
  rw [noShort_iff] at hs
  rcases commutationWrites_cases dir h with rfl | rfl | rfl | rfl | rfl | rfl | rfl | he
  all_goals first
    | (cases dir <;>
        simp [traceStates, triggerOps, commutationWrites, List.scanl, applyOp, noShort_iff] <;>
        tauto)
    | (simp [traceStates, triggerOps, he, List.scanl, applyOp, noShort_iff]; tauto)


theorem runOps_mem_traceStates (s : State) (ops : List Op) :
    runOps s ops ∈ traceStates s ops := by
  induction ops generalizing s with
  | nil => simp [runOps, traceStates]
  | cons op ops ih =>
    simp only [traceStates, List.scanl, List.mem_cons]
    right
    exact ih (applyOp s op)

/-- C23: starting from a state in which at most one channel compare is
non-zero, through any sequence of calls of `HAL_TIM_TriggerCallback` (any Hall
codes, either direction; in particular forward with codes 1,2,3,4,5,6,1), the
state before the first write and after every individual statement has at most
one channel with a non-zero compare value. -/
theorem one_driven_channel_throughout (s : State) (cs : List (Direction × Nat))
    (hs : atMostOneDriven s) :
    ∀ t ∈ traceCalls s cs, atMostOneDriven t := by
  induction cs generalizing s with
  | nil => simpa [traceCalls] using hs
  | cons c cs ih =>
    obtain ⟨dir, h⟩ := c
    intro t ht
    simp only [traceCalls, List.mem_append] at ht
    rcases ht with ht | ht
    · exact trace_atMostOneDriven dir h s.bldcm_pulse s hs t ht
    · have hfin : atMostOneDriven (HAL_TIM_TriggerCallback dir h s) :=
        trace_atMostOneDriven dir h s.bldcm_pulse s hs _ (runOps_mem_traceStates s _)
      exact ih _ hfin t ht

/-- Witness of `one_driven_channel_throughout`: the forward sequence 1,2,3,4,5,6,1
from a running state; its final state drives only channel 1. -/
theorem one_driven_channel_throughout_witness :
    atMostOneDriven runningState ∧
    atMostOneDriven (runEvents runningState
      [Event.commutation MOTOR_FWD 1, Event.commutation MOTOR_FWD 2,
       Event.commutation MOTOR_FWD 3, Event.commutation MOTOR_FWD 4,
       Event.commutation MOTOR_FWD 5, Event.commutation MOTOR_FWD 6,
       Event.commutation MOTOR_FWD 1]) := by
  have h0 : atMostOneDriven runningState := Or.inr (Or.inr ⟨rfl, rfl⟩)
  refine ⟨h0, ?_⟩
  apply one_driven_channel_throughout runningState
    [(MOTOR_FWD, 1), (MOTOR_FWD, 2), (MOTOR_FWD, 3), (MOTOR_FWD, 4), (MOTOR_FWD, 5),
     (MOTOR_FWD, 6), (MOTOR_FWD, 1)] h0
  simp only [traceCalls, List.mem_append, List.mem_singleton]
  right; right; right; right; right; right; right
  rfl

/-- C27: if no phase is shorted (compare non-zero with its low-side gate SET)
before `HAL_TIM_TriggerCallback` runs, then no phase is shorted before its
first statement or after any individual statement of the call, for every Hall
code, both directions and every `bldcm_pulse`; and for a valid Hall code no
phase is shorted at the end of the call whatever the prior state. -/
theorem write_order_never_shorts (dir : Direction) (h : Nat) (s : State) :
    (noShort s → ∀ t ∈ traceStates s (triggerOps dir h s.bldcm_pulse), noShort t) ∧
    (1 ≤ h → h ≤ 6 → noShort (HAL_TIM_TriggerCallback dir h s)) := by
  refine ⟨trace_noShort dir h s.bldcm_pulse s, ?_⟩
  intro h1 h6 p hp
  obtain ⟨hc, hg⟩ := hp
  have hv := trigger_phase_values dir h s h1 h6 p
  rw [hv.1] at hc
  rw [hv.2] at hg
  have e1 : p = (commentPair dir h).1 := by
    by_contra hne
    simp [hne] at hc
  have e2 : p = (commentPair dir h).2 := by
    by_contra hne
    simp [hne] at hg
  exact commentPair_distinct dir h h1 h6 (e1.symm.trans e2)

/-- Witness of `write_order_never_shorts`: Hall code 2, forward, from a running state. -/
theorem write_order_never_shorts_witness :
    noShort runningState ∧ (1 ≤ 2 ∧ 2 ≤ 6) ∧
    noShort (HAL_TIM_TriggerCallback MOTOR_FWD 2 runningState) ∧
    ∀ t ∈ traceStates runningState (triggerOps MOTOR_FWD 2 runningState.bldcm_pulse),
      noShort t := by
  have h0 : noShort runningState := by
    rw [noShort_iff]; decide
  exact ⟨h0, ⟨by decide, by decide⟩,
    (write_order_never_shorts MOTOR_FWD 2 runningState).2 (by decide) (by decide),
    (write_order_never_shorts MOTOR_FWD 2 runningState).1 h0⟩

end BldcHall

/-! # Sector geometry, table lookups and level ordering of the modulator -/

namespace SvmOvm
open OVM_Mode_t Sector

theorem linear_result (MCM_Sqrt : Int → Int) (samp : PWMC_Handle_t → Nat) (gama0 : Int)
    (pHandle : PWMC_Handle_t) (alpha beta : Int)
    (hv : MCM_Sqrt (alpha * alpha + beta * beta) < 29717) :
    ∃ k vt d, sectorDecision alpha beta = some k ∧
      PWMC_RecalcT1T2_OVM k.raw OVM_LINEAR 0 = some vt ∧
      sectorDuties pHandle.PWMperiod vt k.sector = some d ∧
      ∃ r, PWMC_SetPhaseVoltage_OVM MCM_Sqrt samp gama0 pHandle alpha beta = some r ∧
        r.handle = storeDuties pHandle k.sector d := by
  have hc := ovmCorrect_linear alpha beta _ gama0 hv
  obtain ⟨k, hk, r1, r2⟩ := sectorDecision_total alpha beta
  obtain ⟨vt, hvt⟩ := recalc_defined k.raw OVM_LINEAR 0 r1 r2 (by simp) (by simp)
  have hvt' : PWMC_RecalcT1T2_OVM k.raw OVM_LINEAR (toInt16 gama0) = some vt := by
    rw [← hvt]
    simp [PWMC_RecalcT1T2_OVM]
  obtain ⟨d, hd⟩ := sectorDuties_defined pHandle.PWMperiod vt k.sector
  exact ⟨k, vt, d, hk, hvt, hd, _,
    setPhaseVoltage_of_stages MCM_Sqrt samp gama0 pHandle alpha beta _ k vt d hc hk hvt' hd, rfl⟩

/-- C21: for linear-regime inputs, the values that `PWMC_SetPhaseVoltage_OVM`
writes to `CntPhA`, `CntPhB`, `CntPhC`, `lowDuty`, `midDuty`, `highDuty` and
`Sector` depend only on `(alpha, beta, PWMperiod)`: two calls from handles
with the same `PWMperiod` (and any other prior contents, any initial value of
the local `gama`) both complete and write the same values, and a second call
with the same input on the handle left by the first leaves it unchanged. -/
theorem linear_outputs_depend_on_input_only (MCM_Sqrt : Int → Int)
    (samp samp' : PWMC_Handle_t → Nat) (gama0 gama1 : Int) (h h' : PWMC_Handle_t)
    (alpha beta : Int)
    (hv : MCM_Sqrt (alpha * alpha + beta * beta) < 29717)
    (hP : h.PWMperiod = h'.PWMperiod) :
    ∃ r r', PWMC_SetPhaseVoltage_OVM MCM_Sqrt samp gama0 h alpha beta = some r ∧
      PWMC_SetPhaseVoltage_OVM MCM_Sqrt samp' gama1 h' alpha beta = some r' ∧
      r.handle.CntPhA = r'.handle.CntPhA ∧ r.handle.CntPhB = r'.handle.CntPhB ∧
      r.handle.CntPhC = r'.handle.CntPhC ∧ r.handle.lowDuty = r'.handle.lowDuty ∧
      r.handle.midDuty = r'.handle.midDuty ∧ r.handle.highDuty = r'.handle.highDuty ∧
      r.handle.Sector = r'.handle.Sector ∧
      ∃ r2, PWMC_SetPhaseVoltage_OVM MCM_Sqrt samp gama1 r.handle alpha beta = some r2 ∧
        r2.handle = r.handle := by
  obtain ⟨k, vt, d, hk, hvt, hd, r, hr, hh⟩ :=
    linear_result MCM_Sqrt samp gama0 h alpha beta hv
  obtain ⟨k', vt', d', hk', hvt', hd', r', hr', hh'⟩ :=
    linear_result MCM_Sqrt samp' gama1 h' alpha beta hv
  rw [hk] at hk'; cases hk'
  rw [hvt] at hvt'; cases hvt'
  rw [← hP, hd] at hd'; cases hd'
  have hper : r.handle.PWMperiod = h.PWMperiod := by rw [hh]; rfl
  obtain ⟨k2, vt2, d2, hk2, hvt2, hd2, r2, hr2, hh2⟩ :=
    linear_result MCM_Sqrt samp gama1 r.handle alpha beta hv
  rw [hk] at hk2; cases hk2
  rw [hvt] at hvt2; cases hvt2
  rw [hper, hd] at hd2; cases hd2
  refine ⟨r, r', hr, hr', ?_, ?_, ?_, ?_, ?_, ?_, ?_, r2, hr2, ?_⟩
  all_goals first
    | (rw [hh, hh']; rfl)
    | (rw [hh2, hh]; rfl)

/-- Witness of `linear_outputs_depend_on_input_only` at `alpha = 20000`, `beta = 5000`. -/
theorem linear_outputs_depend_on_input_only_witness :
    ((fun _ : Int => (20615 : Int)) (20000 * 20000 + 5000 * 5000) < 29717 ∧
      sampleHandle.PWMperiod = ({ sampleHandle with CntPhA := 77, Sector := SECTOR_4 }).PWMperiod) ∧
    ∃ r r', PWMC_SetPhaseVoltage_OVM (fun _ => 20615) (fun _ => 0) 0 sampleHandle 20000 5000
        = some r ∧
      PWMC_SetPhaseVoltage_OVM (fun _ => 20615) (fun _ => 0) 5
        { sampleHandle with CntPhA := 77, Sector := SECTOR_4 } 20000 5000 = some r' ∧
      r.handle.CntPhA = r'.handle.CntPhA ∧ r.handle.Sector = r'.handle.Sector := by
  obtain ⟨r, r', hr, hr', ha, _, _, _, _, _, hs, _⟩ :=
    linear_outputs_depend_on_input_only (fun _ => 20615) (fun _ => 0) (fun _ => 0) 0 5
      sampleHandle { sampleHandle with CntPhA := 77, Sector := SECTOR_4 } 20000 5000
      (by decide) rfl
  exact ⟨⟨by decide, rfl⟩, r, r', hr, hr', ha, hs⟩

/-- C22: in `OVM_1` and `OVM_2` the gain is read at the truncated index
`i = (vref - 29717) / 16` with no interpolation: the read succeeds, the
corrected components are `trunc(alpha * aOVMGain[i] / 32768)` and
`trunc(beta * aOVMGain[i] / 32768)`, and two values of `vref` in the same
regime with the same `i` give the same corrected components. -/
theorem gain_lookup_truncates (alpha beta vref gama0 : Int)
    (h0 : 29717 ≤ vref) (h1 : vref < 32768) :
    gainIndex vref = (vref - 29717) / 16 ∧
    gainIndex vref = Int.tdiv (vref - 29717) 16 ∧
    (∃ g c, aOVMGain[(gainIndex vref).toNat]? = some g ∧
      ovmCorrect alpha beta vref gama0 = some c ∧
      c.wUAlpha = Int.tdiv (alpha * g) 32768 ∧ c.wUBeta = Int.tdiv (beta * g) 32768) ∧
    (∀ vref' : Int, 29717 ≤ vref' → vref' < 32768 → gainIndex vref' = gainIndex vref →
      (ovmCorrect alpha beta vref' gama0).map (fun c => (c.wUAlpha, c.wUBeta))
        = (ovmCorrect alpha beta vref gama0).map (fun c => (c.wUAlpha, c.wUBeta))) := by
  obtain ⟨e, i0, i1⟩ := gainIndex_range vref h0 h1
  have key : ∀ v : Int, 29717 ≤ v → v < 32768 →
      ∃ g, tableAt aOVMGain (gainIndex v) = some g ∧
        (ovmCorrect alpha beta v gama0).map (fun c => (c.wUAlpha, c.wUBeta))
          = some (Int.tdiv (alpha * g) 32768, Int.tdiv (beta * g) 32768) := by
    intro v a b
    by_cases hm : v < 31186
    · obtain ⟨g, hg, hc⟩ := ovmCorrect_ovm1 alpha beta v gama0 a hm
      exact ⟨g, hg, by rw [hc]; rfl⟩
    · obtain ⟨g, gm, hg, _, _, _, hc⟩ := ovmCorrect_ovm2 alpha beta v gama0 (by omega) b
      exact ⟨g, hg, by rw [hc]; rfl⟩
  refine ⟨e, ?_, ?_, ?_⟩
  · rw [e, tdiv_of_nonneg _ _ (by omega) (by norm_num)]
  · obtain ⟨g, hg, hc⟩ := key vref h0 h1
    have hg' : aOVMGain[(gainIndex vref).toNat]? = some g := by
      simpa [tableAt, not_lt.mpr i0] using hg
    cases hco : ovmCorrect alpha beta vref gama0 with
    | none => rw [hco] at hc; cases hc
    | some c =>
      rw [hco] at hc
      simp only [Option.map_some', Option.some.injEq, Prod.mk.injEq] at hc
      exact ⟨g, c, hg', rfl, hc.1, hc.2⟩
  · intro v a b hi
    obtain ⟨g, hg, hc⟩ := key vref h0 h1
    obtain ⟨g', hg', hc'⟩ := key v a b
    rw [hi, hg] at hg'
    cases hg'
    rw [hc, hc']

/-- Witness of `gain_lookup_truncates`: `vref = 29733` and `vref = 29748` share index 1. -/
theorem gain_lookup_truncates_witness :
    ((29717 : Int) ≤ 29733 ∧ (29733 : Int) < 32768) ∧
    (ovmCorrect 1000 2000 29748 0).map (fun c => (c.wUAlpha, c.wUBeta))
      = (ovmCorrect 1000 2000 29733 0).map (fun c => (c.wUAlpha, c.wUBeta)) :=
  ⟨⟨by decide, by decide⟩,
    (gain_lookup_truncates 1000 2000 29733 0 (by decide) (by decide)).2.2.2 29748
      (by decide) (by decide) (by decide)⟩


/-- C24: every table read of `PWMC_SetPhaseVoltage_OVM` is in bounds: for
`29717 ≤ vref < 32768` the gain index `i = (vref - 29717) / 16` satisfies
`0 ≤ i ≤ 190 < 192` (and `i ≤ 91` in `OVM_1`), and in `OVM_2` the gamma index
is `i - 92` when `i > 92` and 0 otherwise, so it lies in `0..98 < 100`; both
reads return a table entry and the regime selection completes with them. -/
theorem table_reads_in_bounds (alpha beta vref gama0 : Int)
    (h0 : 29717 ≤ vref) (h1 : vref < 32768) :
    gainIndex vref = (vref - 29717) / 16 ∧
    0 ≤ gainIndex vref ∧ gainIndex vref ≤ 190 ∧ aOVMGain.length = 192 ∧
    (vref < 31186 → gainIndex vref ≤ 91) ∧
    gammaIndex vref = (if gainIndex vref > 92 then gainIndex vref - 92 else 0) ∧
    0 ≤ gammaIndex vref ∧ gammaIndex vref ≤ 98 ∧ aOVMGamma.length = 100 ∧
    (∃ g c, tableAt aOVMGain (gainIndex vref) = some g ∧
      ovmCorrect alpha beta vref gama0 = some c ∧
      c.wUAlpha = Int.tdiv (alpha * g) 32768 ∧ c.wUBeta = Int.tdiv (beta * g) 32768) ∧
    (31186 ≤ vref → ∃ gm c, tableAt aOVMGamma (gammaIndex vref) = some gm ∧
      ovmCorrect alpha beta vref gama0 = some c ∧ c.gama = gm) := by
  obtain ⟨e, i0, i1⟩ := gainIndex_range vref h0 h1
  have hgi : 0 ≤ gammaIndex vref ∧ gammaIndex vref ≤ 98 := by
    unfold gammaIndex; split <;> omega
  refine ⟨e, i0, i1, aOVMGain_length, ?_, rfl, hgi.1, hgi.2, aOVMGamma_length, ?_, ?_⟩
  · intro hm; omega
  · by_cases hm : vref < 31186
    · obtain ⟨g, hg, hc⟩ := ovmCorrect_ovm1 alpha beta vref gama0 h0 hm
      exact ⟨g, _, hg, hc, rfl, rfl⟩
    · obtain ⟨g, gm, hg, _, _, _, hc⟩ := ovmCorrect_ovm2 alpha beta vref gama0 (by omega) h1
      exact ⟨g, _, hg, hc, rfl, rfl⟩
  · intro hm
    obtain ⟨g, gm, _, hgm, _, _, hc⟩ := ovmCorrect_ovm2 alpha beta vref gama0 hm h1
    exact ⟨gm, _, hgm, hc, rfl⟩

/-- Witness of `table_reads_in_bounds` at the largest mode-2 magnitude `vref = 32767`. -/
theorem table_reads_in_bounds_witness :
    ((29717 : Int) ≤ 32767 ∧ (32767 : Int) < 32768) ∧
    gainIndex 32767 = 190 ∧ gammaIndex 32767 = 98 ∧
    ∃ g, tableAt aOVMGain (gainIndex 32767) = some g := by
  obtain ⟨_, _, _, _, _, _, _, _, _, ⟨g, _, hg, _⟩, _⟩ :=
    table_reads_in_bounds 0 0 32767 0 (by decide) (by decide)
  exact ⟨⟨by decide, by decide⟩, by decide, by decide, g, hg⟩

/-- C25: with `n = trunc((-wUBeta) * 18919 / 32768)`, `wX = 2n`,
`wY = wUAlpha + n`, `wZ = -wUAlpha + n`, the sector is 5 iff `wY<0, wZ<0`,
4 iff `wY<0, wZ≥0, wX≤0`, 3 iff `wY<0, wZ≥0, wX>0`, 2 iff `wY≥0, wZ≥0`,
6 iff `wY≥0, wZ<0, wX≤0`, 1 iff `wY≥0, wZ<0, wX>0`; the raw dwell times are
`(-wZ, wX)`, `(wY, wZ)`, `(wX, -wY)`, `(wZ, -wX)`, `(-wY, -wZ)`, `(-wX, wY)`
in sectors 1 to 6; both are non-negative in every sector; and they are what a
completed call hands to `PWMC_RecalcT1T2_OVM`. -/
theorem sector_and_raw_dwell_times (wUAlpha wUBeta : Int) :
    (∃ k, sectorDecision wUAlpha wUBeta = some k ∧
      k.wX = 2 * Int.tdiv ((-wUBeta) * 18919) 32768 ∧
      k.wY = wUAlpha + Int.tdiv ((-wUBeta) * 18919) 32768 ∧
      k.wZ = -wUAlpha + Int.tdiv ((-wUBeta) * 18919) 32768 ∧
      (k.sector = SECTOR_5 ↔ k.wY < 0 ∧ k.wZ < 0) ∧
      (k.sector = SECTOR_4 ↔ k.wY < 0 ∧ 0 ≤ k.wZ ∧ k.wX ≤ 0) ∧
      (k.sector = SECTOR_3 ↔ k.wY < 0 ∧ 0 ≤ k.wZ ∧ 0 < k.wX) ∧
      (k.sector = SECTOR_2 ↔ 0 ≤ k.wY ∧ 0 ≤ k.wZ) ∧
      (k.sector = SECTOR_6 ↔ 0 ≤ k.wY ∧ k.wZ < 0 ∧ k.wX ≤ 0) ∧
      (k.sector = SECTOR_1 ↔ 0 ≤ k.wY ∧ k.wZ < 0 ∧ 0 < k.wX) ∧
      (k.sector = SECTOR_1 → k.raw = { T1 := -k.wZ, T2 := k.wX }) ∧
      (k.sector = SECTOR_2 → k.raw = { T1 := k.wY, T2 := k.wZ }) ∧
      (k.sector = SECTOR_3 → k.raw = { T1 := k.wX, T2 := -k.wY }) ∧
      (k.sector = SECTOR_4 → k.raw = { T1 := k.wZ, T2 := -k.wX }) ∧
      (k.sector = SECTOR_5 → k.raw = { T1 := -k.wY, T2 := -k.wZ }) ∧
      (k.sector = SECTOR_6 → k.raw = { T1 := -k.wX, T2 := k.wY }) ∧
      0 ≤ k.raw.T1 ∧ 0 ≤ k.raw.T2) ∧
    (∀ (MCM_Sqrt : Int → Int) (samp : PWMC_Handle_t → Nat) (gama0 : Int)
        (pHandle : PWMC_Handle_t) (alpha beta : Int) (r : OvmResult),
      PWMC_SetPhaseVoltage_OVM MCM_Sqrt samp gama0 pHandle alpha beta = some r →
      sectorDecision r.corrected.wUAlpha r.corrected.wUBeta = some r.choice ∧
      PWMC_RecalcT1T2_OVM r.choice.raw r.corrected.ovm_mode_flag (toInt16 r.corrected.gama)
        = some r.vector_time) := by
  constructor
  · simp only [sectorDecision, cdiv, OVM_ONE_POINT_ZERO, OVM_1_DIV_SQRT3]
    simp only [show (32768 : Int) ≠ 0 by norm_num, if_false, Option.bind_eq_bind,
      Option.some_bind, Option.pure_def]
    generalize Int.tdiv (-wUBeta * 18919) 32768 = n
    split
    · split
      · refine ⟨_, rfl, ?_⟩; simp; omega
      · split
        · refine ⟨_, rfl, ?_⟩; simp; omega
        · refine ⟨_, rfl, ?_⟩; simp; omega
    · split
      · refine ⟨_, rfl, ?_⟩; simp; omega
      · split
        · refine ⟨_, rfl, ?_⟩; simp; omega
        · refine ⟨_, rfl, ?_⟩; simp; omega
  · intro MCM_Sqrt samp gama0 pHandle alpha beta r h
    obtain ⟨_, _, hk, hv, _⟩ := setPhaseVoltage_some MCM_Sqrt samp gama0 pHandle alpha beta r h
    exact ⟨hk, hv⟩


theorem tdiv_two_mono (x y : Int) (h : x ≤ y) : Int.tdiv x 2 ≤ Int.tdiv y 2 := by
  rcases le_total 0 x with hx | hx <;> rcases le_total 0 y with hy | hy
  · rw [tdiv_of_nonneg x 2 hx (by norm_num), tdiv_of_nonneg y 2 hy (by norm_num)]; omega
  · have : x = 0 := by omega
    have : y = 0 := by omega
    subst_vars; exact le_refl _
  · rw [tdiv_of_nonpos x 2 hx (by norm_num), tdiv_of_nonneg y 2 hy (by norm_num)]; omega
  · rw [tdiv_of_nonpos x 2 hx (by norm_num), tdiv_of_nonpos y 2 hy (by norm_num)]; omega

theorem dutyCount_mono (P : Nat) (x y dx dy : Int) (hxy : x ≤ y) (hlo : -32768 ≤ x)
    (hhi : y ≤ 32768)
    (hx : dutyCount P x = some dx) (hy : dutyCount P y = some dy) : dx ≤ dy := by
  have hm := tdiv_two_mono x y hxy
  have hb := (tdiv_two_bounds x (-16384) 16384 (by omega) (by omega)).1
  simp only [dutyCount, cdiv, show (2 : Int) ≠ 0 by norm_num, show (65536 : Int) ≠ 0 by norm_num,
    if_false, Option.bind_eq_bind, Option.some_bind, Option.some.injEq] at hx hy
  subst hx hy
  have hP : (0 : Int) ≤ P := by omega
  have n1 : 0 ≤ (P : Int) * (16384 + Int.tdiv x 2) := mul_nonneg hP (by omega)
  have n2 : 0 ≤ (P : Int) * (16384 + Int.tdiv y 2) := mul_nonneg hP (by omega)
  rw [tdiv_of_nonneg _ _ n1 (by norm_num), tdiv_of_nonneg _ _ n2 (by norm_num)]
  apply Int.ediv_le_ediv (by norm_num)
  exact mul_le_mul_of_nonneg_left (by omega) hP

theorem perm3_rot (a b c : Int) : List.Perm [c, a, b] [a, b, c] := by
  rw [List.perm_iff_count]
  intro x
  simp only [List.count_cons, List.count_nil]
  omega

theorem perm3_swap23 (a b c : Int) : List.Perm [a, c, b] [a, b, c] := by
  rw [List.perm_iff_count]
  intro x
  simp only [List.count_cons, List.count_nil]
  omega

theorem perm3_swap12 (a b c : Int) : List.Perm [b, a, c] [a, b, c] := by
  rw [List.perm_iff_count]
  intro x
  simp only [List.count_cons, List.count_nil]
  omega

theorem perm3_rot2 (a b c : Int) : List.Perm [b, c, a] [a, b, c] := by
  rw [List.perm_iff_count]
  intro x
  simp only [List.count_cons, List.count_nil]
  omega

theorem perm3_rev (a b c : Int) : List.Perm [c, b, a] [a, b, c] := by
  rw [List.perm_iff_count]
  intro x
  simp only [List.count_cons, List.count_nil]
  omega

theorem sectorDuties_levels (P : Nat) (t : Vector_Time_t) (s : Sector) (d : Duties)
    (h1 : 0 ≤ t.T1) (h2 : 0 ≤ t.T2) (hs : t.T1 + t.T2 ≤ 32768)
    (hd : sectorDuties P t s = some d) :
    d.high ≤ d.mid ∧ d.mid ≤ d.low ∧
      List.Perm [d.low, d.mid, d.high] [d.duty_a, d.duty_b, d.duty_c] := by
  obtain ⟨pp, hpp, _⟩ := dutyCount_bounds P (t.T1 + t.T2) (by omega) (by omega)
  obtain ⟨pm, hpm, _⟩ := dutyCount_bounds P (t.T1 - t.T2) (by omega) (by omega)
  obtain ⟨mp, hmp, _⟩ := dutyCount_bounds P (-t.T1 + t.T2) (by omega) (by omega)
  obtain ⟨mm, hmm, _⟩ := dutyCount_bounds P (-t.T1 - t.T2) (by omega) (by omega)
  have o1 : mm ≤ pm := dutyCount_mono P _ _ _ _ (by omega) (by omega) (by omega) hmm hpm
  have o2 : mm ≤ mp := dutyCount_mono P _ _ _ _ (by omega) (by omega) (by omega) hmm hmp
  have o3 : pm ≤ pp := dutyCount_mono P _ _ _ _ (by omega) (by omega) (by omega) hpm hpp
  have o4 : mp ≤ pp := dutyCount_mono P _ _ _ _ (by omega) (by omega) (by omega) hmp hpp
  cases s <;>
    simp only [sectorDuties, hpp, hpm, hmp, hmm, Option.bind_eq_bind, Option.some_bind,
      Option.pure_def, Option.some.injEq] at hd <;>
    subst hd <;> simp only
  · exact ⟨o2, o4, List.Perm.refl _⟩
  · exact ⟨o1, o3, perm3_swap12 _ _ _⟩
  · exact ⟨o2, o4, perm3_rot2 _ _ _⟩
  · exact ⟨o1, o3, perm3_rev _ _ _⟩
  · exact ⟨o2, o4, perm3_rot _ _ _⟩
  · exact ⟨o1, o3, perm3_swap23 _ _ _⟩


set_option maxRecDepth 100000 in
theorem levels_at_sample_input :
    (PWMC_SetPhaseVoltage_OVM (fun _ => 20615) (fun _ => 0) 0 sampleHandle 20000 5000).map
        (fun r => (r.handle.lowDuty, r.handle.midDuty, r.handle.highDuty))
      = some (424, 163, 75) := by
  rfl

/-- C26 (as stated, refuted): for `alpha = 20000`, `beta = 5000`, `vref = 20615`
and a period of 1000 the call stores `lowDuty = 424`, `midDuty = 163`,
`highDuty = 75`, which is not in ascending order. -/
theorem levels_not_ascending :
    ¬ ∃ r, PWMC_SetPhaseVoltage_OVM (fun _ => 20615) (fun _ => 0) 0 sampleHandle 20000 5000
        = some r ∧
      r.handle.lowDuty ≤ r.handle.midDuty ∧ r.handle.midDuty ≤ r.handle.highDuty := by
  rintro ⟨r, hr, h1, h2⟩
  have h := levels_at_sample_input
  rw [hr] at h
  simp only [Option.map_some', Option.some.injEq, Prod.mk.injEq] at h
  omega

set_option maxRecDepth 100000 in
theorem aOVMGamma_gain_whole :
    ∀ g ∈ aOVMGamma, 32768 < Int.tdiv (17157 * 32768) (17157 - g) ∧
      1 ≤ Int.tdiv (Int.tdiv (17157 * 32768) (17157 - g)) 32768 ∧
      Int.tdiv (Int.tdiv (17157 * 32768) (17157 - g)) 32768 ≤ 536 := by
  decide

set_option maxRecDepth 100000 in
theorem aOVMGain_range : ∀ g ∈ aOVMGain, 31291 ≤ g ∧ g ≤ 56660 := by
  decide

theorem tableAt_mem (t : List Int) (i g : Int) (h : tableAt t i = some g) : g ∈ t := by
  unfold tableAt at h
  split at h
  · cases h
  · exact List.getElem?_mem h

theorem ovm2_gama_mem (MCM_Sqrt : Int → Int) (samp : PWMC_Handle_t → Nat) (gama0 : Int)
    (pHandle : PWMC_Handle_t) (alpha beta : Int) (r : OvmResult)
    (h : PWMC_SetPhaseVoltage_OVM MCM_Sqrt samp gama0 pHandle alpha beta = some r)
    (hm : r.corrected.ovm_mode_flag = OVM_2) :
    r.corrected.gama ∈ aOVMGamma ∧ toInt16 r.corrected.gama = r.corrected.gama ∧
      31186 ≤ r.vref ∧ r.vref < 32768 := by
  obtain ⟨_, hc, _⟩ := setPhaseVoltage_some MCM_Sqrt samp gama0 pHandle alpha beta r h
  obtain ⟨c', hc', hreg, _⟩ := ovmCorrect_total alpha beta r.vref gama0
  rw [hc] at hc'; cases hc'
  rw [hm] at hreg
  have hrange : 31186 ≤ r.vref ∧ r.vref < 32768 := by
    unfold regimeOf at hreg
    split at hreg
    · cases hreg
    · split at hreg
      · cases hreg
      · split at hreg
        · omega
        · cases hreg
  obtain ⟨g, gm, _, hgm, b0, b1, hc2⟩ := ovmCorrect_ovm2 alpha beta r.vref gama0 hrange.1 hrange.2
  rw [hc] at hc2
  have e : r.corrected.gama = gm := by rw [Option.some.inj hc2]
  rw [e]
  exact ⟨tableAt_mem _ _ _ hgm, toInt16_of_range _ (by omega) (by omega), hrange⟩

theorem ovm2Unclamped_of_whole_gain (time : Vector_Time_t) (gamma : Int)
    (hg : 32768 < Int.tdiv (17157 * 32768) (17157 - gamma)) :
    ovm2Unclamped time gamma
      = max 0 (Int.tdiv (time.T1 * 32768) (time.T1 + time.T2) - Int.tdiv (31291 * gamma) 32768)
          * Int.tdiv (Int.tdiv (17157 * 32768) (17157 - gamma)) 32768 := by
  simp only [ovm2Unclamped, gt_iff_lt, hg, if_true]
  congr 1
  rw [max_def]
  split <;> split <;> omega

/-- C30: for every entry `gamma` of `aOVMGamma` the gain
`trunc(17157 * 32768 / (17157 - gamma))` is strictly greater than 32768, so
the multiplier `trunc(gain / 32768)` is a whole number `≥ 1`; the `gamma` that
a mode-2 call of `PWMC_SetPhaseVoltage_OVM` passes on is such an entry, passed
together with raw dwell times `T1, T2 ≥ 0`, and in the general mode-2 branch
(`0 ≤ T1, T2 ≤ 32768`, `T1 + T2 ≠ 0`, where no 32-bit operation wraps) the
result is
`T1' = min(32768, max(0, trunc(T1*32768/(T1+T2)) - trunc(31291*gamma/32768))
* trunc(gain/32768))`, `T2' = 32768 - T1'`: the fractional path is not taken. -/
theorem ovm2_multiplier_is_whole :
    (∀ g ∈ aOVMGamma, 32768 < Int.tdiv (17157 * 32768) (17157 - g) ∧
      1 ≤ Int.tdiv (Int.tdiv (17157 * 32768) (17157 - g)) 32768) ∧
    (∀ (time : Vector_Time_t) (g : Int), g ∈ aOVMGamma →
      0 ≤ time.T1 → 0 ≤ time.T2 →
      time.T1 ≤ 32768 → time.T2 ≤ 32768 → time.T1 + time.T2 ≠ 0 →
      PWMC_RecalcT1T2_OVM time OVM_2 g
        = some
          { T1 := min 32768
              (max 0 (Int.tdiv (time.T1 * 32768) (time.T1 + time.T2)
                  - Int.tdiv (31291 * g) 32768)
                * Int.tdiv (Int.tdiv (17157 * 32768) (17157 - g)) 32768),
            T2 := 32768 - min 32768
              (max 0 (Int.tdiv (time.T1 * 32768) (time.T1 + time.T2)
                  - Int.tdiv (31291 * g) 32768)
                * Int.tdiv (Int.tdiv (17157 * 32768) (17157 - g)) 32768) }) ∧
    (∀ (MCM_Sqrt : Int → Int) (samp : PWMC_Handle_t → Nat) (gama0 : Int)
        (pHandle : PWMC_Handle_t) (alpha beta : Int) (r : OvmResult),
      PWMC_SetPhaseVoltage_OVM MCM_Sqrt samp gama0 pHandle alpha beta = some r →
      r.corrected.ovm_mode_flag = OVM_2 →
      toInt16 r.corrected.gama ∈ aOVMGamma ∧
      0 ≤ r.choice.raw.T1 ∧ 0 ≤ r.choice.raw.T2 ∧
      PWMC_RecalcT1T2_OVM r.choice.raw OVM_2 (toInt16 r.corrected.gama)
        = some r.vector_time) := by
  refine ⟨fun g hg => ⟨(aOVMGamma_gain_whole g hg).1, (aOVMGamma_gain_whole g hg).2.1⟩, ?_, ?_⟩
  · intro time g hg n1 n2 h1 h2 hs
    obtain ⟨b0, b1⟩ := aOVMGamma_range g hg
    rw [recalc_ovm2_general time g n1 n2 h1 h2 hs (by omega) (by omega),
      ovm2Unclamped_of_whole_gain time g (aOVMGamma_gain_whole g hg).1]
  · intro MCM_Sqrt samp gama0 pHandle alpha beta r h hm
    obtain ⟨hmem, he, _⟩ := ovm2_gama_mem MCM_Sqrt samp gama0 pHandle alpha beta r h hm
    obtain ⟨_, _, hk, ht, _⟩ := setPhaseVoltage_some MCM_Sqrt samp gama0 pHandle alpha beta r h
    obtain ⟨k', hk', r1, r2⟩ := sectorDecision_total r.corrected.wUAlpha r.corrected.wUBeta
    rw [hk] at hk'; cases hk'
    rw [hm] at ht
    exact ⟨by rw [he]; exact hmem, r1, r2, ht⟩


theorem tdiv_32768_eq_zero (m : Int) (h : Int.tdiv m 32768 = 0) : -32768 < m ∧ m < 32768 := by
  rcases le_total 0 m with hm | hm
  · rw [tdiv_of_nonneg m 32768 hm (by norm_num)] at h; omega
  · rw [tdiv_of_nonpos m 32768 hm (by norm_num)] at h; omega

theorem tdiv_32768_small (m : Int) (h0 : -1 ≤ Int.tdiv m 32768) (h1 : Int.tdiv m 32768 ≤ 1) :
    -65536 < m ∧ m < 65536 := by
  rcases le_total 0 m with hm | hm
  · rw [tdiv_of_nonneg m 32768 hm (by norm_num)] at h0 h1; omega
  · rw [tdiv_of_nonpos m 32768 hm (by norm_num)] at h0 h1; omega

theorem zero_sum_only_in_sector2 (a b : Int) (k : SectorChoice)
    (hk : sectorDecision a b = some k) (hz : k.raw.T1 + k.raw.T2 = 0) :
    k.sector = SECTOR_2 ∧ a = 0 ∧ -1 ≤ b ∧ b ≤ 1 := by
  simp only [sectorDecision, cdiv, OVM_ONE_POINT_ZERO, OVM_1_DIV_SQRT3,
    show (32768 : Int) ≠ 0 by norm_num, if_false, Option.bind_eq_bind, Option.some_bind,
    Option.pure_def] at hk
  have hn : ∀ n : Int, n = Int.tdiv (-b * 18919) 32768 → n = 0 → -1 ≤ b ∧ b ≤ 1 := by
    intro n e e0
    rw [e] at e0
    have := tdiv_32768_eq_zero _ e0
    omega
  generalize hne : Int.tdiv (-b * 18919) 32768 = n at hk
  have hn' := hn n hne.symm
  split at hk
  · split at hk
    · cases hk; simp only at hz; omega
    · split at hk
      · cases hk; simp only at hz; omega
      · cases hk; simp only at hz; omega
  · split at hk
    · cases hk
      simp only at hz
      have h0 : n = 0 := by omega
      exact ⟨rfl, by omega, hn' h0⟩
    · split at hk
      · cases hk; simp only at hz; omega
      · cases hk; simp only at hz; omega

theorem gain_scaled_zero (x g : Int) (hg : 31291 ≤ g) (h : Int.tdiv (x * g) 32768 = 0) :
    -1 ≤ x ∧ x ≤ 1 := by
  obtain ⟨m0, m1⟩ := tdiv_32768_eq_zero _ h
  constructor
  · by_contra hc
    have : x ≤ -2 := by omega
    nlinarith
  · by_contra hc
    have : 2 ≤ x := by omega
    nlinarith

theorem gain_scaled_small (x g : Int) (hg : 31291 ≤ g)
    (h0 : -1 ≤ Int.tdiv (x * g) 32768) (h1 : Int.tdiv (x * g) 32768 ≤ 1) :
    -2 ≤ x ∧ x ≤ 2 := by
  obtain ⟨m0, m1⟩ := tdiv_32768_small _ h0 h1
  constructor
  · by_contra hc
    have : x ≤ -3 := by omega
    nlinarith
  · by_contra hc
    have : 3 ≤ x := by omega
    nlinarith

theorem int_sqrt_bounds (x : Int) (lo hi : Nat) (hx : 0 ≤ x)
    (h0 : ((lo * lo : Nat) : Int) ≤ x) (h1 : x < ((hi * hi : Nat) : Int)) :
    (lo : Int) ≤ Int.sqrt x ∧ Int.sqrt x < (hi : Int) := by
  unfold Int.sqrt
  have e : ((x.toNat : Nat) : Int) = x := Int.toNat_of_nonneg hx
  have a : lo * lo ≤ x.toNat := by omega
  have b : x.toNat < hi * hi := by omega
  have a' := Nat.le_sqrt.mpr a
  have b' := Nat.sqrt_lt.mpr b
  omega

/-- C28: with the floor integer square root for `MCM_Sqrt`, for every int16
pair `(alpha, beta)` that `PWMC_SetPhaseVoltage_OVM` classifies as `OVM_2`
both divisors of the mode-2 branch of `PWMC_RecalcT1T2_OVM` are strictly
positive, `T1 + T2 > 0` and `OVM_PI_DIV_6 - gamma ≥ 32`, and the call
completes; a zero raw sum can only arise in sector 2 with `wUAlpha = 0` and
`|wUBeta| ≤ 1`, and every `aOVMGamma` entry lies in `[52, 17125]`. -/
theorem ovm2_divisors_positive (samp : PWMC_Handle_t → Nat) (gama0 : Int)
    (pHandle : PWMC_Handle_t) (alpha beta : Int)
    (_ha : -32768 ≤ alpha ∧ alpha ≤ 32767) (_hb : -32768 ≤ beta ∧ beta ≤ 32767)
    (h0 : 31186 ≤ Int.sqrt (alpha * alpha + beta * beta))
    (h1 : Int.sqrt (alpha * alpha + beta * beta) < 32768) :
    (∃ r, PWMC_SetPhaseVoltage_OVM Int.sqrt samp gama0 pHandle alpha beta = some r ∧
      r.corrected.ovm_mode_flag = OVM_2 ∧
      0 < r.choice.raw.T1 + r.choice.raw.T2 ∧
      32 ≤ OVM_PI_DIV_6 - toInt16 r.corrected.gama) ∧
    (∀ (a b : Int) (k : SectorChoice), sectorDecision a b = some k →
      k.raw.T1 + k.raw.T2 = 0 → k.sector = SECTOR_2 ∧ a = 0 ∧ -1 ≤ b ∧ b ≤ 1) ∧
    (∀ g ∈ aOVMGamma, 52 ≤ g ∧ g ≤ 17125) := by
  refine ⟨?_, zero_sum_only_in_sector2, aOVMGamma_range⟩
  obtain ⟨g, gm, hg, hgm, b0, b1, hc⟩ := ovmCorrect_ovm2 alpha beta _ gama0 h0 h1
  obtain ⟨k, hk, r1, r2⟩ :=
    sectorDecision_total (Int.tdiv (alpha * g) 32768) (Int.tdiv (beta * g) 32768)
  have hgr := (aOVMGain_range g (tableAt_mem _ _ _ hg)).1
  have hpos : 0 < k.raw.T1 + k.raw.T2 := by
    by_contra hn
    have hz : k.raw.T1 + k.raw.T2 = 0 := by omega
    obtain ⟨_, ea, eb0, eb1⟩ := zero_sum_only_in_sector2 _ _ k hk hz
    obtain ⟨a0, a1⟩ := gain_scaled_zero alpha g hgr ea
    obtain ⟨c0, c1⟩ := gain_scaled_small beta g hgr eb0 eb1
    have hsq : alpha * alpha + beta * beta ≤ 5 := by nlinarith
    have hnn : 0 ≤ alpha * alpha + beta * beta :=
      add_nonneg (mul_self_nonneg alpha) (mul_self_nonneg beta)
    have := int_sqrt_le _ hnn
    omega
  obtain ⟨r, hr, hrc, hrk⟩ := setPhaseVoltage_defined Int.sqrt samp gama0 pHandle alpha beta _ k
    hc hk (fun _ => by omega)
  refine ⟨r, hr, by rw [hrc], by rw [hrk]; exact hpos, ?_⟩
  rw [hrc]
  simp only [OVM_PI_DIV_6]
  rw [toInt16_of_range _ (by omega) (by omega)]
  omega

/-- Witness of `ovm2_divisors_positive` at `alpha = 30000`, `beta = -10000` (`vref = 31622`). -/
theorem ovm2_divisors_positive_witness :
    ((-32768 : Int) ≤ 30000 ∧ (30000 : Int) ≤ 32767) ∧
    (31186 ≤ Int.sqrt (30000 * 30000 + (-10000) * (-10000)) ∧
      Int.sqrt (30000 * 30000 + (-10000) * (-10000)) < 32768) ∧
    ∃ r, PWMC_SetPhaseVoltage_OVM Int.sqrt (fun _ => 0) 0 sampleHandle 30000 (-10000) = some r ∧
      r.corrected.ovm_mode_flag = OVM_2 ∧ 0 < r.choice.raw.T1 + r.choice.raw.T2 := by
  have hs := int_sqrt_bounds (30000 * 30000 + (-10000) * (-10000)) 31186 32768 (by norm_num)
    (by norm_num) (by norm_num)
  have hs' : 31186 ≤ Int.sqrt (30000 * 30000 + (-10000) * (-10000)) ∧
      Int.sqrt (30000 * 30000 + (-10000) * (-10000)) < 32768 := by
    constructor
    · exact_mod_cast hs.1
    · exact_mod_cast hs.2
  obtain ⟨r, hr, hm, hp, _⟩ :=
    (ovm2_divisors_positive (fun _ => 0) 0 sampleHandle 30000 (-10000) (by decide) (by decide)
      hs'.1 hs'.2).1
  exact ⟨by decide, hs', r, hr, hm, hp⟩

end SvmOvm

/-! # Absence of 32-bit overflow in the modulator -/

namespace SvmOvm
open OVM_Mode_t Sector

theorem tdiv_abs_le (m c B : Int) (hc : 0 < c) (hB : 0 ≤ B) (h0 : -(B * c) ≤ m)
    (h1 : m ≤ B * c) : -B ≤ Int.tdiv m c ∧ Int.tdiv m c ≤ B := by
  rcases le_total 0 m with hm | hm
  · rw [tdiv_of_nonneg m c hm (by omega)]
    constructor
    · have := Int.ediv_nonneg hm (by omega : 0 ≤ c); omega
    · exact Int.ediv_le_of_le_mul hc h1
  · rw [tdiv_of_nonpos m c hm (by omega)]
    have hn : 0 ≤ -m := by omega
    constructor
    · have := Int.ediv_le_of_le_mul hc (by omega : -m ≤ B * c); omega
    · have := Int.ediv_nonneg hn (by omega : 0 ≤ c); omega

theorem square_fits (alpha beta : Int) (ha : -32768 ≤ alpha ∧ alpha ≤ 32767)
    (hb : -32768 ≤ beta ∧ beta ≤ 32767) (hne : ¬ (alpha = -32768 ∧ beta = -32768)) :
    fitsInt32 (alpha * alpha) ∧ fitsInt32 (beta * beta) ∧
      fitsInt32 (alpha * alpha + beta * beta) := by
  have a0 : 0 ≤ alpha * alpha := mul_self_nonneg alpha
  have b0 : 0 ≤ beta * beta := mul_self_nonneg beta
  have a1 : alpha * alpha ≤ 1073741824 := by nlinarith
  have b1 : beta * beta ≤ 1073741824 := by nlinarith
  refine ⟨⟨by omega, by omega⟩, ⟨by omega, by omega⟩, by omega, ?_⟩
  by_cases h : alpha = -32768
  · have hb' : -32767 ≤ beta := by
      by_contra hc
      exact hne ⟨h, by omega⟩
    have : beta * beta ≤ 1073676289 := by
      nlinarith [mul_nonneg (by omega : (0 : Int) ≤ beta + 32767)
        (by omega : (0 : Int) ≤ 32767 - beta)]
    omega
  · have ha' : -32767 ≤ alpha := by omega
    have : alpha * alpha ≤ 1073676289 := by
      nlinarith [mul_nonneg (by omega : (0 : Int) ≤ alpha + 32767)
        (by omega : (0 : Int) ≤ 32767 - alpha)]
    omega

theorem gain_product_fits (x g : Int) (hx : -32768 ≤ x ∧ x ≤ 32767)
    (hg : 31291 ≤ g ∧ g ≤ 56660) : fitsInt32 (x * g) := by
  constructor <;> nlinarith

theorem gain_scaled_bound (x g G : Int) (hx : -32768 ≤ x ∧ x ≤ 32767)
    (hg : 0 ≤ g ∧ g ≤ G) : -G ≤ Int.tdiv (x * g) 32768 ∧ Int.tdiv (x * g) 32768 ≤ G := by
  apply tdiv_abs_le _ _ _ (by norm_num) (by omega) <;> nlinarith

set_option maxRecDepth 100000 in
theorem aOVMGain_mode1_range : ∀ g ∈ aOVMGain.take 92, g ≤ 34106 := by
  decide

theorem tableAt_gain_mode1 (i g : Int) (h0 : 0 ≤ i) (h1 : i ≤ 91)
    (h : tableAt aOVMGain i = some g) : g ≤ 34106 := by
  unfold tableAt at h
  rw [if_neg (by omega)] at h
  have ht : (aOVMGain.take 92)[i.toNat]? = some g := by
    rw [List.getElem?_take_of_lt (by omega)]
    exact h
  exact aOVMGain_mode1_range g (List.getElem?_mem ht)

theorem corrected_bounds (alpha beta vref gama0 : Int) (c : Corrected)
    (ha : -32768 ≤ alpha ∧ alpha ≤ 32767) (hb : -32768 ≤ beta ∧ beta ≤ 32767)
    (hc : ovmCorrect alpha beta vref gama0 = some c) :
    (-56660 ≤ c.wUAlpha ∧ c.wUAlpha ≤ 56660) ∧ (-56660 ≤ c.wUBeta ∧ c.wUBeta ≤ 56660) ∧
    ((c.ovm_mode_flag = OVM_LINEAR ∨ c.ovm_mode_flag = OVM_1) →
      (-34106 ≤ c.wUAlpha ∧ c.wUAlpha ≤ 34106) ∧ (-34106 ≤ c.wUBeta ∧ c.wUBeta ≤ 34106)) := by
  by_cases h1 : vref < 29717
  · rw [ovmCorrect_linear alpha beta vref gama0 h1] at hc
    cases hc
    simp only
    omega
  · by_cases h2 : vref < 31186
    · obtain ⟨g, hg, hc'⟩ := ovmCorrect_ovm1 alpha beta vref gama0 (by omega) h2
      rw [hc] at hc'
      have e := Option.some.inj hc'
      obtain ⟨ei, i0, i1⟩ := gainIndex_range vref (by omega) (by omega)
      have g0 := (aOVMGain_range g (tableAt_mem _ _ _ hg)).1
      have g1 := tableAt_gain_mode1 _ g i0 (by omega) hg
      obtain ⟨x0, x1⟩ := gain_scaled_bound alpha g 34106 ha ⟨by omega, g1⟩
      obtain ⟨y0, y1⟩ := gain_scaled_bound beta g 34106 hb ⟨by omega, g1⟩
      rw [e]
      simp only
      omega
    · by_cases h3 : vref < 32768
      · obtain ⟨g, gm, hg, _, _, _, hc'⟩ := ovmCorrect_ovm2 alpha beta vref gama0 (by omega) h3
        rw [hc] at hc'
        have e := Option.some.inj hc'
        obtain ⟨g0, g1⟩ := aOVMGain_range g (tableAt_mem _ _ _ hg)
        obtain ⟨x0, x1⟩ := gain_scaled_bound alpha g 56660 ha ⟨by omega, g1⟩
        obtain ⟨y0, y1⟩ := gain_scaled_bound beta g 56660 hb ⟨by omega, g1⟩
        rw [e]
        simp only [reduceCtorEq, or_self, false_implies, and_true]
        omega
      · rw [ovmCorrect_error alpha beta vref gama0 (by omega)] at hc
        cases hc
        simp

theorem raw_bound (a b : Int) (k : SectorChoice) (ha : -34106 ≤ a ∧ a ≤ 34106)
    (hb : -34106 ≤ b ∧ b ≤ 34106) (hk : sectorDecision a b = some k) :
    0 ≤ k.raw.T1 ∧ k.raw.T1 ≤ 65535 ∧ 0 ≤ k.raw.T2 ∧ k.raw.T2 ≤ 65535 := by
  obtain ⟨k', hk', r1, r2⟩ := sectorDecision_total a b
  rw [hk] at hk'; cases hk'
  have hn : -19692 ≤ Int.tdiv (-b * 18919) 32768 ∧ Int.tdiv (-b * 18919) 32768 ≤ 19692 := by
    apply tdiv_abs_le _ _ _ (by norm_num) (by norm_num) <;> omega
  have key : k.raw.T1 ≤ 65535 ∧ k.raw.T2 ≤ 65535 := by
    simp only [sectorDecision, cdiv, OVM_ONE_POINT_ZERO, OVM_1_DIV_SQRT3,
      show (32768 : Int) ≠ 0 by norm_num, if_false, Option.bind_eq_bind, Option.some_bind,
      Option.pure_def] at hk
    generalize Int.tdiv (-b * 18919) 32768 = n at hk hn
    split at hk
    · split at hk
      · cases hk; simp only; omega
      · split at hk
        · cases hk; simp only; omega
        · cases hk; simp only; omega
    · split at hk
      · cases hk; simp only; omega
      · split at hk
        · cases hk; simp only; omega
        · cases hk; simp only; omega
  exact ⟨r1, key.1, r2, key.2⟩


theorem recalcProducts_linear_fit (time : Vector_Time_t) (mode : OVM_Mode_t) (gamma : Int)
    (hm : mode = OVM_LINEAR ∨ mode = OVM_1) (h1 : 0 ≤ time.T1) (hT : time.T1 ≤ 65535) :
    ∀ x ∈ recalcProducts time mode gamma, fitsInt32 x := by
  intro x hx
  simp only [recalcProducts, hm, if_true, OVM_ONE_POINT_ZERO] at hx
  split at hx
  · simp only [List.mem_singleton] at hx
    subst hx
    constructor <;> omega
  · simp at hx

theorem recalcProducts_ovm2_fit (time : Vector_Time_t) (gamma : Int)
    (h1 : 0 ≤ time.T1) (h2 : 0 ≤ time.T2) (hg : gamma ∈ aOVMGamma) :
    ∀ x ∈ recalcProducts time OVM_2 gamma, fitsInt32 x := by
  obtain ⟨b0, b1⟩ := aOVMGamma_range gamma hg
  obtain ⟨w0, w1, w2⟩ := aOVMGamma_gain_whole gamma hg
  have hd : (17157 : Int) - gamma ≠ 0 := by omega
  intro x hx
  simp only [recalcProducts, reduceCtorEq, or_self, if_false, if_true, OVM_ONE_POINT_ZERO,
    OVM_3_DIV_PI, OVM_PI_DIV_6, cdiv, hd, gt_iff_lt, w0] at hx
  split at hx
  · simp at hx
  · split at hx
    · simp at hx
    · rename_i ha hb
      by_cases hs : time.T1 + time.T2 = 0
      · simp only [hs, if_true, List.append_nil, List.mem_append, List.mem_cons,
          List.mem_singleton, List.not_mem_nil, or_false] at hx
        rcases hx with (rfl | rfl) | rfl <;> constructor <;> omega
      · obtain ⟨q0, q1⟩ := rescale_bounds time.T1 time.T2 h1 h2 (by omega)
        simp only [hs, if_false, List.mem_append, List.mem_cons, List.mem_singleton,
          List.not_mem_nil, or_false] at hx
        rcases hx with (rfl | rfl) | rfl | rfl
        · constructor <;> omega
        · constructor <;> omega
        · constructor <;> omega
        · have t0 : 0 ≤ (if Int.tdiv (time.T1 * 32768) (time.T1 + time.T2)
              - Int.tdiv (31291 * gamma) 32768 < 0 then 0
              else Int.tdiv (time.T1 * 32768) (time.T1 + time.T2)
                - Int.tdiv (31291 * gamma) 32768) := by
            split <;> omega
          have o0 : 0 ≤ Int.tdiv (31291 * gamma) 32768 :=
            Int.tdiv_nonneg (by omega) (by norm_num)
          have t1 : (if Int.tdiv (time.T1 * 32768) (time.T1 + time.T2)
              - Int.tdiv (31291 * gamma) 32768 < 0 then 0
              else Int.tdiv (time.T1 * 32768) (time.T1 + time.T2)
                - Int.tdiv (31291 * gamma) 32768) ≤ 32768 := by
            split <;> omega
          constructor <;> nlinarith

theorem dutyProducts_fit (P : Nat) (t : Vector_Time_t) (s : Sector) (hP : P ≤ 65535)
    (h1 : 0 ≤ t.T1) (h2 : 0 ≤ t.T2) (hs : t.T1 + t.T2 ≤ 32768) :
    ∀ x ∈ dutyProducts P t s, fitsInt32 x := by
  have key : ∀ y : Int, -32768 ≤ y → y ≤ 32768 →
      fitsInt32 ((P : Int) * (16384 + Int.tdiv y 2)) := by
    intro y y0 y1
    obtain ⟨d0, d1⟩ := tdiv_two_bounds y (-16384) 16384 (by omega) (by omega)
    have hP' : (0 : Int) ≤ P ∧ (P : Int) ≤ 65535 := by omega
    constructor <;> nlinarith
  intro x hx
  cases s <;>
    simp only [dutyProducts, dutyArgs, List.map_cons, List.map_nil, List.mem_cons,
      List.mem_singleton, List.not_mem_nil, or_false] at hx <;>
    rcases hx with rfl | rfl | rfl <;> apply key <;> omega


theorem ovmCorrect_gama_mem (alpha beta vref gama0 : Int) (c : Corrected)
    (hc : ovmCorrect alpha beta vref gama0 = some c) (hm : c.ovm_mode_flag = OVM_2) :
    c.gama ∈ aOVMGamma ∧ toInt16 c.gama = c.gama := by
  obtain ⟨c', hc', hreg, _⟩ := ovmCorrect_total alpha beta vref gama0
  rw [hc] at hc'; cases hc'
  rw [hm] at hreg
  have hrange : 31186 ≤ vref ∧ vref < 32768 := by
    unfold regimeOf at hreg
    split at hreg
    · cases hreg
    · split at hreg
      · cases hreg
      · split at hreg
        · omega
        · cases hreg
  obtain ⟨g, gm, _, hgm, b0, b1, hc2⟩ := ovmCorrect_ovm2 alpha beta vref gama0 hrange.1 hrange.2
  rw [hc] at hc2
  have e : c.gama = gm := by rw [Option.some.inj hc2]
  rw [e]
  exact ⟨tableAt_mem _ _ _ hgm, toInt16_of_range _ (by omega) (by omega)⟩

theorem tail_products_fit (P : Nat) (alpha beta vref gama0 : Int) (c : Corrected)
    (ha : -32768 ≤ alpha ∧ alpha ≤ 32767) (hb : -32768 ≤ beta ∧ beta ≤ 32767)
    (hP : P ≤ 65535) (hc : ovmCorrect alpha beta vref gama0 = some c) (k : SectorChoice)
    (hk : sectorDecision c.wUAlpha c.wUBeta = some k) :
    (∀ x ∈ recalcProducts k.raw c.ovm_mode_flag (toInt16 c.gama), fitsInt32 x) ∧
    (∀ vt, PWMC_RecalcT1T2_OVM k.raw c.ovm_mode_flag (toInt16 c.gama) = some vt →
      ∀ x ∈ dutyProducts P vt k.sector, fitsInt32 x) := by
  obtain ⟨_, _, hlin⟩ := corrected_bounds alpha beta vref gama0 c ha hb hc
  obtain ⟨k', hk', r1, r2⟩ := sectorDecision_total c.wUAlpha c.wUBeta
  rw [hk] at hk'; cases hk'
  constructor
  · cases hm : c.ovm_mode_flag with
    | OVM_LINEAR =>
      obtain ⟨la, lb⟩ := hlin (Or.inl hm)
      obtain ⟨_, t1, _⟩ := raw_bound _ _ k la lb hk
      exact recalcProducts_linear_fit _ _ _ (Or.inl rfl) r1 t1
    | OVM_1 =>
      obtain ⟨la, lb⟩ := hlin (Or.inr hm)
      obtain ⟨_, t1, _⟩ := raw_bound _ _ k la lb hk
      exact recalcProducts_linear_fit _ _ _ (Or.inr rfl) r1 t1
    | OVM_2 =>
      obtain ⟨hmem, he⟩ := ovmCorrect_gama_mem alpha beta vref gama0 c hc hm
      rw [he]
      exact recalcProducts_ovm2_fit _ _ r1 r2 hmem
    | OVM_ERROR =>
      intro x hx
      simp [recalcProducts] at hx
  · intro vt hvt
    have hg : c.ovm_mode_flag = OVM_2 → 0 ≤ toInt16 c.gama ∧ toInt16 c.gama < 17157 := by
      intro hm
      obtain ⟨hmem, he⟩ := ovmCorrect_gama_mem alpha beta vref gama0 c hc hm
      obtain ⟨b0, b1⟩ := aOVMGamma_range _ hmem
      rw [he]; omega
    have hl : c.ovm_mode_flag = OVM_LINEAR ∨ c.ovm_mode_flag = OVM_1 →
        k.raw.T1 < 65536 ∧ k.raw.T1 + k.raw.T2 ≤ 2147483647 := by
      intro hm
      obtain ⟨la, lb⟩ := hlin hm
      obtain ⟨_, t1, _, t2⟩ := raw_bound _ _ k la lb hk
      omega
    obtain ⟨v1, v2, v3⟩ := recalc_some_bounds _ _ _ _ r1 r2 hl hg hvt
    exact dutyProducts_fit P vt k.sector hP v1 v2 v3

/-- C29: for every int16 pair `(alpha, beta)` other than `(-32768, -32768)`,
every value returned by `MCM_Sqrt` and every `PWMperiod` in `0..65535`, every
product formed on the executed path of `PWMC_SetPhaseVoltage_OVM` and
`PWMC_RecalcT1T2_OVM` (`alpha²`, `beta²`, `alpha² + beta²`, `alpha*gain`,
`beta*gain`, `(-wUBeta)*18919`, `T1*32768`, `31291*gamma`, `17157*32768`,
`t1_temp*gain`, `PWMperiod*duty`) lies within `[-2^31, 2^31 - 1]`; for
`alpha = beta = -32768` the sum `alpha² + beta² = 2^31` does not fit. -/
theorem no_int32_overflow (MCM_Sqrt : Int → Int) (gama0 : Int) (P : Nat) (alpha beta : Int)
    (ha : -32768 ≤ alpha ∧ alpha ≤ 32767) (hb : -32768 ≤ beta ∧ beta ≤ 32767)
    (hne : ¬ (alpha = -32768 ∧ beta = -32768)) (hP : P ≤ 65535) :
    (∀ x ∈ ovmProducts MCM_Sqrt gama0 P alpha beta, fitsInt32 x) ∧
    ((-32768 : Int) * (-32768) + (-32768) * (-32768) = 2 ^ 31 ∧
      ¬ fitsInt32 ((-32768 : Int) * (-32768) + (-32768) * (-32768)) ∧
      (-32768 : Int) * (-32768) + (-32768) * (-32768)
        ∈ ovmProducts MCM_Sqrt gama0 P (-32768) (-32768)) := by
  constructor
  · obtain ⟨s1, s2, s3⟩ := square_fits alpha beta ha hb hne
    intro x hx
    simp only [ovmProducts, List.mem_append, List.mem_cons, List.mem_singleton,
      List.not_mem_nil, or_false] at hx
    rcases hx with ((rfl | rfl | rfl) | hx) | hx
    · exact s1
    · exact s2
    · exact s3
    · split at hx
      · split at hx
        · rename_i g hg
          have hr := aOVMGain_range g (tableAt_mem _ _ _ hg)
          simp only [List.mem_cons, List.mem_singleton, List.not_mem_nil, or_false] at hx
          rcases hx with rfl | rfl
          · exact gain_product_fits alpha g ha hr
          · exact gain_product_fits beta g hb hr
        · simp at hx
      · simp at hx
    · split at hx
      · simp at hx
      · rename_i c hc
        obtain ⟨_, wb, _⟩ := corrected_bounds alpha beta _ gama0 c ha hb hc
        simp only [List.mem_append, List.mem_singleton] at hx
        rcases hx with rfl | hx
        · simp only [OVM_1_DIV_SQRT3]
          constructor <;> omega
        · split at hx
          · simp at hx
          · rename_i k hk
            obtain ⟨f1, f2⟩ := tail_products_fit P alpha beta _ gama0 c ha hb hP hc k hk
            simp only [List.mem_append] at hx
            rcases hx with hx | hx
            · exact f1 x hx
            · split at hx
              · simp at hx
              · rename_i vt hvt
                exact f2 vt hvt x hx
  · refine ⟨by norm_num, ?_, ?_⟩
    · intro h
      have := h.2
      norm_num at this
    · simp [ovmProducts]

/-- Witness of `no_int32_overflow` at `alpha = -32768`, `beta = 32767`, period 65535. -/
theorem no_int32_overflow_witness :
    ((-32768 : Int) ≤ -32768 ∧ (-32768 : Int) ≤ 32767) ∧
    ((-32768 : Int) ≤ 32767 ∧ (32767 : Int) ≤ 32767) ∧
    ¬ ((-32768 : Int) = -32768 ∧ (32767 : Int) = -32768) ∧
    fitsInt32 ((-32768 : Int) * (-32768) + 32767 * 32767) := by
  have h := (no_int32_overflow (fun _ => 0) 0 65535 (-32768) 32767 (by norm_num)
    (by norm_num) (by norm_num) (le_refl _)).1
  refine ⟨by norm_num, by norm_num, by norm_num, ?_⟩
  apply h
  simp only [ovmProducts]
  exact List.mem_append_left _ (List.mem_append_left _
    (List.mem_cons_of_mem _ (List.mem_cons_of_mem _ (List.mem_singleton.mpr rfl))))

end SvmOvm

/-! # Direction reversal and the unused `gama` -/

namespace BldcHall
open Channel OcnPin GPIO_PinState Direction

/-- C32: for every Hall code `h` in 1..6, reversing the direction swaps source
and sink: the phase whose compare gets `bldcm_pulse` in the reverse direction
is the phase whose low-side gate is SET in the forward direction, and the
phase whose gate is SET in the reverse direction is the one driven in the
forward direction; and the reverse-direction call for code `h` executes the
same writes and leaves the same state as the forward-direction call for code
`7 - h`. -/
theorem reverse_swaps_source_and_sink (h : Nat) (s : State) (h1 : 1 ≤ h) (h6 : h ≤ 6) :
    (∀ p : Phase,
      compareOf (HAL_TIM_TriggerCallback MOTOR_REV h s) p
        = (if gateOf (HAL_TIM_TriggerCallback MOTOR_FWD h s) p = GPIO_PIN_SET
            then s.bldcm_pulse else 0) ∧
      compareOf (HAL_TIM_TriggerCallback MOTOR_FWD h s) p
        = (if gateOf (HAL_TIM_TriggerCallback MOTOR_REV h s) p = GPIO_PIN_SET
            then s.bldcm_pulse else 0)) ∧
    (commentPair MOTOR_REV h).1 = (commentPair MOTOR_FWD h).2 ∧
    (commentPair MOTOR_REV h).2 = (commentPair MOTOR_FWD h).1 ∧
    commutationWrites MOTOR_REV h s.bldcm_pulse
      = commutationWrites MOTOR_FWD (7 - h) s.bldcm_pulse ∧
    HAL_TIM_TriggerCallback MOTOR_REV h s = HAL_TIM_TriggerCallback MOTOR_FWD (7 - h) s ∧
    outputs (HAL_TIM_TriggerCallback MOTOR_REV h s)
      = outputs (HAL_TIM_TriggerCallback MOTOR_FWD (7 - h) s) := by
  refine ⟨?_, ?_, ?_, ?_, ?_, ?_⟩
  · intro p
    interval_cases h <;> cases p <;>
      simp [HAL_TIM_TriggerCallback, triggerOps, commutationWrites, runOps, applyOp,
        compareOf, gateOf]
  · interval_cases h <;> rfl
  · interval_cases h <;> rfl
  · interval_cases h <;> rfl
  · interval_cases h <;> rfl
  · interval_cases h <;> rfl

/-- Witness of `reverse_swaps_source_and_sink` at Hall code 2 in a running state. -/
theorem reverse_swaps_source_and_sink_witness :
    (1 ≤ 2 ∧ 2 ≤ 6) ∧
    HAL_TIM_TriggerCallback MOTOR_REV 2 runningState
      = HAL_TIM_TriggerCallback MOTOR_FWD (7 - 2) runningState ∧
    compareOf (HAL_TIM_TriggerCallback MOTOR_REV 2 runningState) .U = 700 ∧
    gateOf (HAL_TIM_TriggerCallback MOTOR_FWD 2 runningState) .U = GPIO_PIN_SET := by
  have h := reverse_swaps_source_and_sink 2 runningState (by decide) (by decide)
  exact ⟨⟨by decide, by decide⟩, h.2.2.2.2.1, by decide, by decide⟩

end BldcHall

namespace SvmOvm
open OVM_Mode_t Sector

theorem recalc_gamma_irrelevant (time : Vector_Time_t) (mode : OVM_Mode_t) (g1 g2 : Int)
    (hm : mode ≠ OVM_2) :
    PWMC_RecalcT1T2_OVM time mode g1 = PWMC_RecalcT1T2_OVM time mode g2 := by
  cases mode with
  | OVM_LINEAR => simp [PWMC_RecalcT1T2_OVM]
  | OVM_1 => simp [PWMC_RecalcT1T2_OVM]
  | OVM_2 => exact absurd rfl hm
  | OVM_ERROR => rw [recalc_error, recalc_error]

theorem ovmCorrect_outside_ovm2 (alpha beta vref : Int) (hv : vref < 31186 ∨ 32768 ≤ vref) :
    ∃ (a b : Int) (m : OVM_Mode_t), m ≠ OVM_2 ∧ ∀ g : Int,
      ovmCorrect alpha beta vref g
        = some { wUAlpha := a, wUBeta := b, ovm_mode_flag := m, gama := g } := by
  by_cases h1 : vref < 29717
  · exact ⟨alpha, beta, OVM_LINEAR, by simp, fun g => ovmCorrect_linear alpha beta vref g h1⟩
  · by_cases h2 : vref < 31186
    · obtain ⟨gn, hgn, _⟩ := ovmCorrect_ovm1 alpha beta vref 0 (by omega) h2
      refine ⟨Int.tdiv (alpha * gn) 32768, Int.tdiv (beta * gn) 32768, OVM_1, by simp, ?_⟩
      intro g
      obtain ⟨gn', hgn', hc⟩ := ovmCorrect_ovm1 alpha beta vref g (by omega) h2
      rw [hgn] at hgn'
      cases hgn'
      exact hc
    · have h3 : 32768 ≤ vref := by omega
      exact ⟨0, 0, OVM_ERROR, by simp, fun g => ovmCorrect_error alpha beta vref g h3⟩

/-- C31: the `gamma` argument has no influence outside `OVM_2`: for every mode
other than `OVM_2` (`OVM_LINEAR`, `OVM_1`, `OVM_ERROR`), every `(T1, T2)` and
all `g1`, `g2`, `PWMC_RecalcT1T2_OVM` returns the same for `g1` and `g2`; and
whenever `vref` is outside the mode-2 range, `PWMC_SetPhaseVoltage_OVM`
completes for every initial value of its local `gama`, which it leaves
unassigned, with the same sector decision, dwell times, duties, handle and
return value. -/
theorem gamma_has_no_influence_outside_ovm2 :
    (∀ (time : Vector_Time_t) (mode : OVM_Mode_t) (g1 g2 : Int), mode ≠ OVM_2 →
      PWMC_RecalcT1T2_OVM time mode g1 = PWMC_RecalcT1T2_OVM time mode g2) ∧
    (∀ (MCM_Sqrt : Int → Int) (samp : PWMC_Handle_t → Nat) (g1 g2 : Int)
        (pHandle : PWMC_Handle_t) (alpha beta : Int),
      (MCM_Sqrt (alpha * alpha + beta * beta) < 31186 ∨
        32768 ≤ MCM_Sqrt (alpha * alpha + beta * beta)) →
      ∃ r1 r2, PWMC_SetPhaseVoltage_OVM MCM_Sqrt samp g1 pHandle alpha beta = some r1 ∧
        PWMC_SetPhaseVoltage_OVM MCM_Sqrt samp g2 pHandle alpha beta = some r2 ∧
        r1.corrected.gama = g1 ∧ r2.corrected.gama = g2 ∧
        r1.corrected.ovm_mode_flag = r2.corrected.ovm_mode_flag ∧
        r1.corrected.ovm_mode_flag ≠ OVM_2 ∧
        r1.choice = r2.choice ∧ r1.vector_time = r2.vector_time ∧
        r1.duties = r2.duties ∧ r1.handle = r2.handle ∧ r1.ret = r2.ret) := by
  refine ⟨recalc_gamma_irrelevant, ?_⟩
  intro MCM_Sqrt samp g1 g2 pHandle alpha beta hv
  obtain ⟨a, b, m, hm, hc⟩ := ovmCorrect_outside_ovm2 alpha beta _ hv
  obtain ⟨k, hk, _⟩ := sectorDecision_total a b
  obtain ⟨r1, hr1, e1, k1⟩ := setPhaseVoltage_defined MCM_Sqrt samp g1 pHandle alpha beta _ k
    (hc g1) hk (fun h => absurd h hm)
  obtain ⟨r2, hr2, e2, k2⟩ := setPhaseVoltage_defined MCM_Sqrt samp g2 pHandle alpha beta _ k
    (hc g2) hk (fun h => absurd h hm)
  obtain ⟨_, _, _, t1, d1, hh1, ret1⟩ :=
    setPhaseVoltage_some MCM_Sqrt samp g1 pHandle alpha beta r1 hr1
  obtain ⟨_, _, _, t2, d2, hh2, ret2⟩ :=
    setPhaseVoltage_some MCM_Sqrt samp g2 pHandle alpha beta r2 hr2
  rw [e1, k1] at t1
  rw [e2, k2] at t2
  simp only at t1 t2
  rw [recalc_gamma_irrelevant k.raw m (toInt16 g1) (toInt16 g2) hm, t2] at t1
  have evt : r1.vector_time = r2.vector_time := (Option.some.inj t1).symm
  rw [k1, evt] at d1
  rw [k2, d1] at d2
  have ed : r1.duties = r2.duties := Option.some.inj d2
  have eh : r1.handle = r2.handle := by rw [hh1, hh2, k1, k2, ed]
  refine ⟨r1, r2, hr1, hr2, by rw [e1], by rw [e2], by rw [e1, e2], by rw [e1]; exact hm,
    by rw [k1, k2], evt, ed, eh, by rw [ret1, ret2, eh]⟩

/-- Witness of `gamma_has_no_influence_outside_ovm2`: linear input with `gama` 0 and 12345. -/
theorem gamma_has_no_influence_outside_ovm2_witness :
    PWMC_RecalcT1T2_OVM { T1 := 40000, T2 := 20000 } OVM_1 0
      = PWMC_RecalcT1T2_OVM { T1 := 40000, T2 := 20000 } OVM_1 12345 ∧
    ∃ r1 r2, PWMC_SetPhaseVoltage_OVM (fun _ => 20615) (fun _ => 0) 0 sampleHandle 20000 5000
        = some r1 ∧
      PWMC_SetPhaseVoltage_OVM (fun _ => 20615) (fun _ => 0) 12345 sampleHandle 20000 5000
        = some r2 ∧
      r1.handle = r2.handle ∧ r1.ret = r2.ret := by
  obtain ⟨r1, r2, h1, h2, _, _, _, _, _, _, _, hh, hr⟩ :=
    gamma_has_no_influence_outside_ovm2.2 (fun _ => 20615) (fun _ => 0) 0 12345 sampleHandle
      20000 5000 (Or.inl (by decide))
  exact ⟨gamma_has_no_influence_outside_ovm2.1 _ OVM_1 0 12345 (by decide), r1, r2, h1, h2, hh, hr⟩

end SvmOvm

/-! # Duty range and level order for 16-bit commands -/

namespace SvmOvm
open OVM_Mode_t Sector

theorem setPhaseVoltage_vector_time_bounds (MCM_Sqrt : Int → Int)
    (samp : PWMC_Handle_t → Nat) (gama0 : Int) (pHandle : PWMC_Handle_t) (alpha beta : Int)
    (r : OvmResult)
    (ha : -32768 ≤ alpha ∧ alpha ≤ 32767) (hb : -32768 ≤ beta ∧ beta ≤ 32767)
    (h : PWMC_SetPhaseVoltage_OVM MCM_Sqrt samp gama0 pHandle alpha beta = some r) :
    0 ≤ r.vector_time.T1 ∧ 0 ≤ r.vector_time.T2 ∧
      r.vector_time.T1 + r.vector_time.T2 ≤ 32768 := by
  obtain ⟨hv, hc, hk, ht, hd, _, _⟩ :=
    setPhaseVoltage_some MCM_Sqrt samp gama0 pHandle alpha beta r h
  obtain ⟨c', hc', _, hgam⟩ := ovmCorrect_total alpha beta r.vref gama0
  rw [hc] at hc'; cases hc'
  obtain ⟨_, _, hlin⟩ := corrected_bounds alpha beta r.vref gama0 r.corrected ha hb hc
  obtain ⟨k', hk', r1, r2⟩ := sectorDecision_total r.corrected.wUAlpha r.corrected.wUBeta
  rw [hk] at hk'; cases hk'
  have hg : r.corrected.ovm_mode_flag = OVM_2 →
      0 ≤ toInt16 r.corrected.gama ∧ toInt16 r.corrected.gama < 17157 := by
    intro hm
    obtain ⟨g0, g1⟩ := hgam hm
    rw [toInt16_of_range _ (by omega) (by omega)]
    omega
  have hl : r.corrected.ovm_mode_flag = OVM_LINEAR ∨ r.corrected.ovm_mode_flag = OVM_1 →
      r.choice.raw.T1 < 65536 ∧ r.choice.raw.T1 + r.choice.raw.T2 ≤ 2147483647 := by
    intro hm
    obtain ⟨la, lb⟩ := hlin hm
    obtain ⟨_, t1, _, t2⟩ := raw_bound _ _ r.choice la lb hk
    omega
  exact recalc_some_bounds _ _ _ _ r1 r2 hl hg ht

theorem setPhaseVoltage_duty_bounds (MCM_Sqrt : Int → Int) (samp : PWMC_Handle_t → Nat)
    (gama0 : Int) (pHandle : PWMC_Handle_t) (alpha beta : Int) (r : OvmResult)
    (ha : -32768 ≤ alpha ∧ alpha ≤ 32767) (hb : -32768 ≤ beta ∧ beta ≤ 32767)
    (h : PWMC_SetPhaseVoltage_OVM MCM_Sqrt samp gama0 pHandle alpha beta = some r) :
    (0 ≤ r.duties.duty_a ∧ r.duties.duty_a ≤ pHandle.PWMperiod) ∧
    (0 ≤ r.duties.duty_b ∧ r.duties.duty_b ≤ pHandle.PWMperiod) ∧
    (0 ≤ r.duties.duty_c ∧ r.duties.duty_c ≤ pHandle.PWMperiod) := by
  obtain ⟨v1, v2, v3⟩ :=
    setPhaseVoltage_vector_time_bounds MCM_Sqrt samp gama0 pHandle alpha beta r ha hb h
  obtain ⟨_, _, _, _, hd, _, _⟩ :=
    setPhaseVoltage_some MCM_Sqrt samp gama0 pHandle alpha beta r h
  obtain ⟨d, hd', b⟩ := sectorDuties_bounds pHandle.PWMperiod r.vector_time r.choice.sector v1 v2 v3
  rw [hd] at hd'; cases hd'
  exact b

theorem call_defined_of_nonzero_sum (MCM_Sqrt : Int → Int) (samp : PWMC_Handle_t → Nat)
    (gama0 : Int) (pHandle : PWMC_Handle_t) (alpha beta : Int)
    (hx : alpha < -1 ∨ 1 < alpha ∨ beta < -2 ∨ 2 < beta ∨
      MCM_Sqrt (alpha * alpha + beta * beta) < 31186 ∨
      32768 ≤ MCM_Sqrt (alpha * alpha + beta * beta)) :
    ∃ r, PWMC_SetPhaseVoltage_OVM MCM_Sqrt samp gama0 pHandle alpha beta = some r := by
  obtain ⟨c, hc, hm, _⟩ :=
    ovmCorrect_total alpha beta (MCM_Sqrt (alpha * alpha + beta * beta)) gama0
  obtain ⟨k, hk, _⟩ := sectorDecision_total c.wUAlpha c.wUBeta
  have hs : c.ovm_mode_flag = OVM_2 → k.raw.T1 + k.raw.T2 ≠ 0 := by
    intro hm2 hz
    rw [hm2] at hm
    have hrange : 31186 ≤ MCM_Sqrt (alpha * alpha + beta * beta) ∧
        MCM_Sqrt (alpha * alpha + beta * beta) < 32768 := by
      unfold regimeOf at hm
      split at hm
      · cases hm
      · split at hm
        · cases hm
        · split at hm
          · omega
          · cases hm
    obtain ⟨g, gm, hg, _, _, _, hc2⟩ := ovmCorrect_ovm2 alpha beta _ gama0 hrange.1 hrange.2
    rw [hc] at hc2
    have e := Option.some.inj hc2
    have hgr := (aOVMGain_range g (tableAt_mem _ _ _ hg)).1
    rw [e] at hk
    simp only at hk
    obtain ⟨_, ea, eb0, eb1⟩ := zero_sum_only_in_sector2 _ _ k hk hz
    obtain ⟨a0, a1⟩ := gain_scaled_zero alpha g hgr ea
    obtain ⟨c0, c1⟩ := gain_scaled_small beta g hgr eb0 eb1
    omega
  obtain ⟨r, hr, _⟩ :=
    setPhaseVoltage_defined MCM_Sqrt samp gama0 pHandle alpha beta c k hc hk hs
  exact ⟨r, hr⟩

theorem floor_sqrt_call_defined (samp : PWMC_Handle_t → Nat) (gama0 : Int)
    (pHandle : PWMC_Handle_t) (alpha beta : Int) :
    ∃ r, PWMC_SetPhaseVoltage_OVM Int.sqrt samp gama0 pHandle alpha beta = some r := by
  apply call_defined_of_nonzero_sum
  by_cases hsmall : (-1 ≤ alpha ∧ alpha ≤ 1) ∧ (-2 ≤ beta ∧ beta ≤ 2)
  · have hsq : alpha * alpha + beta * beta ≤ 5 := by nlinarith
    have hnn : 0 ≤ alpha * alpha + beta * beta :=
      add_nonneg (mul_self_nonneg alpha) (mul_self_nonneg beta)
    have := int_sqrt_le _ hnn
    omega
  · omega

/-- C6: for every int16 pair `(alpha, beta)` and every `PWMperiod` in
`0..65535`, `PWMC_SetPhaseVoltage_OVM` with the floor square root for
`MCM_Sqrt` completes, and its three compare counts `duty_a`, `duty_b`,
`duty_c`, which are the values stored in `CntPhA`, `CntPhB`, `CntPhC`, satisfy
`0 ≤ duty ≤ PWMperiod`.  The same bounds hold after every completed call
whatever value `MCM_Sqrt` returns for `vref`, and the call completes for every
such value unless `|alpha| ≤ 1`, `|beta| ≤ 2` and the value lies in the mode-2
range `31186 ≤ vref < 32768`. -/
theorem duty_within_period (samp : PWMC_Handle_t → Nat) (gama0 : Int)
    (pHandle : PWMC_Handle_t) (alpha beta : Int)
    (hP : pHandle.PWMperiod ≤ 65535)
    (ha : -32768 ≤ alpha ∧ alpha ≤ 32767) (hb : -32768 ≤ beta ∧ beta ≤ 32767) :
    (∃ r, PWMC_SetPhaseVoltage_OVM Int.sqrt samp gama0 pHandle alpha beta = some r ∧
      (0 ≤ r.duties.duty_a ∧ r.duties.duty_a ≤ pHandle.PWMperiod) ∧
      (0 ≤ r.duties.duty_b ∧ r.duties.duty_b ≤ pHandle.PWMperiod) ∧
      (0 ≤ r.duties.duty_c ∧ r.duties.duty_c ≤ pHandle.PWMperiod) ∧
      (r.handle.CntPhA : Int) = r.duties.duty_a ∧
      (r.handle.CntPhB : Int) = r.duties.duty_b ∧
      (r.handle.CntPhC : Int) = r.duties.duty_c) ∧
    (∀ (MCM_Sqrt : Int → Int) (r : OvmResult),
      PWMC_SetPhaseVoltage_OVM MCM_Sqrt samp gama0 pHandle alpha beta = some r →
      (0 ≤ r.duties.duty_a ∧ r.duties.duty_a ≤ pHandle.PWMperiod) ∧
      (0 ≤ r.duties.duty_b ∧ r.duties.duty_b ≤ pHandle.PWMperiod) ∧
      (0 ≤ r.duties.duty_c ∧ r.duties.duty_c ≤ pHandle.PWMperiod) ∧
      (r.handle.CntPhA : Int) = r.duties.duty_a ∧
      (r.handle.CntPhB : Int) = r.duties.duty_b ∧
      (r.handle.CntPhC : Int) = r.duties.duty_c) ∧
    (∀ MCM_Sqrt : Int → Int,
      (alpha < -1 ∨ 1 < alpha ∨ beta < -2 ∨ 2 < beta ∨
        MCM_Sqrt (alpha * alpha + beta * beta) < 31186 ∨
        32768 ≤ MCM_Sqrt (alpha * alpha + beta * beta)) →
      ∃ r, PWMC_SetPhaseVoltage_OVM MCM_Sqrt samp gama0 pHandle alpha beta = some r) := by
  have key : ∀ (MCM_Sqrt : Int → Int) (r : OvmResult),
      PWMC_SetPhaseVoltage_OVM MCM_Sqrt samp gama0 pHandle alpha beta = some r →
      (0 ≤ r.duties.duty_a ∧ r.duties.duty_a ≤ pHandle.PWMperiod) ∧
      (0 ≤ r.duties.duty_b ∧ r.duties.duty_b ≤ pHandle.PWMperiod) ∧
      (0 ≤ r.duties.duty_c ∧ r.duties.duty_c ≤ pHandle.PWMperiod) ∧
      (r.handle.CntPhA : Int) = r.duties.duty_a ∧
      (r.handle.CntPhB : Int) = r.duties.duty_b ∧
      (r.handle.CntPhC : Int) = r.duties.duty_c := by
    intro MCM_Sqrt r h
    obtain ⟨ba, bb, bc⟩ :=
      setPhaseVoltage_duty_bounds MCM_Sqrt samp gama0 pHandle alpha beta r ha hb h
    obtain ⟨_, _, _, _, _, hh, _⟩ :=
      setPhaseVoltage_some MCM_Sqrt samp gama0 pHandle alpha beta r h
    refine ⟨ba, bb, bc, ?_, ?_, ?_⟩
    · rw [hh]; exact toUInt16_of_range _ ba.1 (by omega)
    · rw [hh]; exact toUInt16_of_range _ bb.1 (by omega)
    · rw [hh]; exact toUInt16_of_range _ bc.1 (by omega)
  obtain ⟨r, hr⟩ := floor_sqrt_call_defined samp gama0 pHandle alpha beta
  exact ⟨⟨r, hr, key Int.sqrt r hr⟩, key,
    fun MCM_Sqrt hx => call_defined_of_nonzero_sum MCM_Sqrt samp gama0 pHandle alpha beta hx⟩

/-- Witness of `duty_within_period` at `alpha = 20000`, `beta = 5000`, period 1000. -/
theorem duty_within_period_witness :
    (sampleHandle.PWMperiod ≤ 65535 ∧ (-32768 : Int) ≤ 20000 ∧ (20000 : Int) ≤ 32767 ∧
      (-32768 : Int) ≤ 5000 ∧ (5000 : Int) ≤ 32767) ∧
    ∃ r, PWMC_SetPhaseVoltage_OVM Int.sqrt (fun _ => 0) 0 sampleHandle 20000 5000 = some r ∧
      0 ≤ r.duties.duty_a ∧ r.duties.duty_a ≤ sampleHandle.PWMperiod := by
  obtain ⟨r, hr, ba, _⟩ :=
    (duty_within_period (fun _ => 0) 0 sampleHandle 20000 5000 (by decide) (by decide)
      (by decide)).1
  exact ⟨⟨by decide, by decide, by decide, by decide, by decide⟩, r, hr, ba.1, ba.2⟩

theorem sectorDuties_perm (P : Nat) (t : Vector_Time_t) (s : Sector) (d : Duties)
    (hd : sectorDuties P t s = some d) :
    List.Perm [d.low, d.mid, d.high] [d.duty_a, d.duty_b, d.duty_c] := by
  cases s <;>
    simp only [sectorDuties, Option.bind_eq_bind, Option.pure_def, Option.bind_eq_some,
      Option.some.injEq] at hd <;>
    obtain ⟨a, _, b, _, c, _, rfl⟩ := hd <;> simp only
  · exact List.Perm.refl _
  · exact perm3_swap12 _ _ _
  · exact perm3_rot2 _ _ _
  · exact perm3_rev _ _ _
  · exact perm3_rot _ _ _
  · exact perm3_swap23 _ _ _

/-- C26 (amended): after every completed call of `PWMC_SetPhaseVoltage_OVM`
(with a 16-bit `PWMperiod`), in every sector and regime,
`(lowDuty, midDuty, highDuty)` is a permutation of the three phase compare
counts `(CntPhA, CntPhB, CntPhC)`, and for 16-bit arguments `alpha`, `beta` (as
the fields of `Valfa_beta` are) it is in descending order of the count:
`lowDuty` is the largest, `midDuty` the middle and `highDuty` the smallest,
`highDuty ≤ midDuty ≤ lowDuty`.  The 16-bit range keeps the raw dwell times
below 65536, so that no 32-bit operation of `PWMC_RecalcT1T2_OVM` wraps. -/
theorem levels_are_descending_permutation (MCM_Sqrt : Int → Int)
    (samp : PWMC_Handle_t → Nat) (gama0 : Int) (pHandle : PWMC_Handle_t) (alpha beta : Int)
    (r : OvmResult) (hP : pHandle.PWMperiod ≤ 65535)
    (h : PWMC_SetPhaseVoltage_OVM MCM_Sqrt samp gama0 pHandle alpha beta = some r) :
    List.Perm [(r.handle.lowDuty : Int), r.handle.midDuty, r.handle.highDuty]
      [(r.handle.CntPhA : Int), r.handle.CntPhB, r.handle.CntPhC] ∧
    (-32768 ≤ alpha ∧ alpha ≤ 32767 → -32768 ≤ beta ∧ beta ≤ 32767 →
      r.handle.highDuty ≤ r.handle.midDuty ∧ r.handle.midDuty ≤ r.handle.lowDuty ∧
      (r.handle.CntPhA : Int) = r.duties.duty_a ∧ (r.handle.CntPhB : Int) = r.duties.duty_b ∧
      (r.handle.CntPhC : Int) = r.duties.duty_c) := by
  obtain ⟨_, _, _, _, hd, hh, _⟩ :=
    setPhaseVoltage_some MCM_Sqrt samp gama0 pHandle alpha beta r h
  have hperm := sectorDuties_perm _ _ _ _ hd
  constructor
  · rw [hh]
    exact hperm.map (fun x => ((toUInt16 x : Nat) : Int))
  · intro ha hb
    obtain ⟨ba, bb, bc⟩ :=
      setPhaseVoltage_duty_bounds MCM_Sqrt samp gama0 pHandle alpha beta r ha hb h
    obtain ⟨v1, v2, v3⟩ :=
      setPhaseVoltage_vector_time_bounds MCM_Sqrt samp gama0 pHandle alpha beta r ha hb h
    obtain ⟨l1, l2, _⟩ := sectorDuties_levels _ _ _ _ v1 v2 v3 hd
    have ea : (r.handle.CntPhA : Int) = r.duties.duty_a := by
      rw [hh]; exact toUInt16_of_range _ ba.1 (by omega)
    have eb : (r.handle.CntPhB : Int) = r.duties.duty_b := by
      rw [hh]; exact toUInt16_of_range _ bb.1 (by omega)
    have ec : (r.handle.CntPhC : Int) = r.duties.duty_c := by
      rw [hh]; exact toUInt16_of_range _ bc.1 (by omega)
    have hmem : ∀ x ∈ [r.duties.low, r.duties.mid, r.duties.high], 0 ≤ x ∧ x ≤ 65535 := by
      intro x hx
      have hx' := hperm.subset hx
      simp only [List.mem_cons, List.mem_singleton, List.not_mem_nil, or_false] at hx'
      rcases hx' with rfl | rfl | rfl <;> constructor <;> omega
    have bl := hmem r.duties.low (by simp)
    have bm := hmem r.duties.mid (by simp)
    have bh := hmem r.duties.high (by simp)
    have el : (r.handle.lowDuty : Int) = r.duties.low := by
      rw [hh]; exact toUInt16_of_range _ bl.1 bl.2
    have em : (r.handle.midDuty : Int) = r.duties.mid := by
      rw [hh]; exact toUInt16_of_range _ bm.1 bm.2
    have eh : (r.handle.highDuty : Int) = r.duties.high := by
      rw [hh]; exact toUInt16_of_range _ bh.1 bh.2
    refine ⟨?_, ?_, ea, eb, ec⟩
    · omega
    · omega

/-- Witness of `levels_are_descending_permutation` at `alpha = 20000`, `beta = 5000`. -/
theorem levels_are_descending_permutation_witness :
    (sampleHandle.PWMperiod ≤ 65535 ∧ (-32768 : Int) ≤ 20000 ∧ (20000 : Int) ≤ 32767 ∧
      (-32768 : Int) ≤ 5000 ∧ (5000 : Int) ≤ 32767) ∧
    ∃ r, PWMC_SetPhaseVoltage_OVM (fun _ => 20615) (fun _ => 0) 0 sampleHandle 20000 5000
        = some r ∧
      r.handle.highDuty ≤ r.handle.midDuty ∧ r.handle.midDuty ≤ r.handle.lowDuty := by
  obtain ⟨k, vt, d, _, _, _, r, hr, _⟩ :=
    linear_result (fun _ => 20615) (fun _ => 0) 0 sampleHandle 20000 5000 (by decide)
  have h := (levels_are_descending_permutation (fun _ => 20615) (fun _ => 0) 0 sampleHandle
    20000 5000 r (by decide) hr).2 (by decide) (by decide)
  exact ⟨⟨by decide, by decide, by decide, by decide, by decide⟩, r, hr, h.1, h.2.1⟩

end SvmOvm
